import Mathlib

/-!
# Z16 simulator

A shallow embedding of the `Z16Simulator` class of `src/main.cpp` and a
verification of its memory helpers, of its single-step executor, of its
single-instruction disassembler, of its run loop and of its linear
disassembly walk.

Modelling conventions.

* A `uint16_t` / `uint8_t` value is a `Nat`; the well-formedness predicate
  `Z16Simulator.WF` records the ranges that the C++ types guarantee.
* Arithmetic is carried out the way C++ does it: operands are promoted to
  `int` (modelled by `Int`), and the result is converted back on assignment
  (`toU16`, `toU8`, `toI16`, `toI8`).
* A member function that can throw returns an `Outcome`; the object state
  after the call is returned next to it, so that the state left behind by a
  throwing call can be observed.
* Text written to `std::cout` is collected line by line in `Cout`, together
  with the sticky `hex`/`dec` base flag of the stream.
* Text written to the stream `out` of `runExecution` is collected as the list
  of the pieces written by each output statement.
* The lines written by `runFullDisassembly` are collected as a list of `Item`s,
  one per executed output statement with the values it is given;
  `Item.render` is the text of the line.
* A loop is a function with `fuel`; running out of it is `Outcome.diverges`.
-/

namespace Z16

/-- Total memory size, 64 KiB (`MEM_SIZE`). -/
def MEM_SIZE : Nat := 65536

/-- Conversion of an `int` to `uint16_t`: reduction modulo 2^16. -/
def toU16 (x : Int) : Nat := (x % 65536).toNat

/-- Conversion of an `int` to `uint8_t`: reduction modulo 2^8. -/
def toU8 (x : Int) : Nat := (x % 256).toNat

/-- Conversion of an `int` to `int16_t`: the two's-complement reading of the low 16 bits. -/
def toI16 (x : Int) : Int :=
  if x % 65536 < 32768 then x % 65536 else x % 65536 - 65536

/-- Conversion of an `int` to `int8_t`: the two's-complement reading of the low 8 bits. -/
def toI8 (x : Int) : Int :=
  if x % 256 < 128 then x % 256 else x % 256 - 256

/-- How a call ends: it returns a value, it throws `runtime_error(what)`, or
its loop never exits. -/
inductive Outcome (α : Type) where
  | ret (value : α)
  | thrown (what : String)
  | diverges
  deriving DecidableEq, Repr

/-- The state of `std::cout`: the sticky number base and the lines written. -/
structure Cout where
  hex : Bool
  lines : List String
  deriving DecidableEq, Repr

/-- Lower-case hexadecimal digits of a number, as `operator<<` prints them
under `std::hex` without padding. -/
def hexStr (n : Nat) : String := String.mk (Nat.toDigits 16 n)

/-- An unsigned number as `operator<<` prints it under the current base. -/
def Cout.num (io : Cout) (n : Nat) : String :=
  if io.hex then hexStr n else toString n

/-- Appends one finished line (`... << endl`). -/
def Cout.put (io : Cout) (line : String) : Cout :=
  { io with lines := io.lines ++ [line] }

/-- The data members of `class Z16Simulator`. -/
structure Z16Simulator where
  regs : Fin 8 → Nat
  pc : Nat
  memory : Nat → Nat
  programSize : Nat

namespace Z16Simulator

/-- The ranges guaranteed by the C++ member types: `uint16_t` registers and
program counter, `uint8_t` memory cells. -/
structure WF (s : Z16Simulator) : Prop where
  regs_lt : ∀ r, s.regs r < 65536
  pc_lt : s.pc < 65536
  memory_lt : ∀ a, s.memory a < 256

/-- The object built by the constructor `Z16Simulator()`. -/
def init : Z16Simulator where
  regs := fun r => if r = 2 then toU16 ((MEM_SIZE : Int) - 2) else 0
  pc := 0
  memory := fun _ => 0
  programSize := 0

/-- Assignment `regs[r] = v`. -/
def setReg (s : Z16Simulator) (r : Fin 8) (v : Nat) : Z16Simulator :=
  { s with regs := fun i => if i = r then v else s.regs i }

/-- Assignment `memory[a] = v`. -/
def setMem (s : Z16Simulator) (a v : Nat) : Z16Simulator :=
  { s with memory := fun i => if i = a then v else s.memory i }

/-- `uint8_t readByte(uint16_t addr)`. -/
def readByte (s : Z16Simulator) (addr : Nat) : Outcome Nat :=
  if addr ≥ MEM_SIZE then
    .thrown "Memory read error: address out of bounds"
  else
    .ret (s.memory addr)

/-- `uint16_t readWord(uint16_t addr)`. -/
def readWord (s : Z16Simulator) (addr : Nat) : Outcome Nat :=
  if addr + 1 ≥ MEM_SIZE then
    .thrown "Memory read error: address out of bounds"
  else
    .ret (toU16 ((s.memory addr ||| (s.memory (addr + 1) <<< 8) : Nat)))

/-- `void writeByte(uint16_t addr, uint8_t value)`. -/
def writeByte (s : Z16Simulator) (addr value : Nat) : Outcome Unit × Z16Simulator :=
  if addr ≥ MEM_SIZE then
    (.thrown "Memory write error: address out of bounds", s)
  else
    (.ret (), s.setMem addr value)

/-- `void writeWord(uint16_t addr, uint16_t value)`. -/
def writeWord (s : Z16Simulator) (addr value : Nat) : Outcome Unit × Z16Simulator :=
  if addr + 1 ≥ MEM_SIZE then
    (.thrown "Memory write error: address out of bounds", s)
  else
    (.ret (), (s.setMem addr (toU8 ((value &&& 0xFF : Nat)))).setMem (addr + 1)
      (toU8 (((value >>> 8) &&& 0xFF : Nat))))

/-- Register index held in the 3-bit field of `inst` that starts at bit
`shift`: `(inst >> shift) & 0x7`. -/
def regField (inst shift : Nat) : Fin 8 :=
  ⟨(inst >>> shift) &&& 0x7, Nat.lt_succ_of_le Nat.and_le_right⟩

/-- What a call of `executeInstruction` leaves behind: its return value (or
the exception), the simulator object, and `std::cout`. -/
structure Exec where
  result : Outcome Bool
  sim : Z16Simulator
  cout : Cout

/-- Control flow out of the `switch(opcode)` of `executeInstruction`: the case
reached its `break` (with the local `pcUpdated`), or it left the function by
`return` or by an exception. -/
inductive Flow where
  | brk (s : Z16Simulator) (io : Cout) (pcUpdated : Bool)
  | done (e : Exec)

/-- `case 0x0`: R-type instructions. -/
def execR (s : Z16Simulator) (io : Cout) (inst : Nat) : Flow :=
  let funct4 := (inst >>> 12) &&& 0xF
  let rs2 := regField inst 9
  let rd_rs1 := regField inst 6
  let funct3 := (inst >>> 3) &&& 0x7
  if funct4 = 0b0000 ∧ funct3 = 0b000 then
    .brk (s.setReg rd_rs1 (toU16 ((s.regs rd_rs1 : Int) + s.regs rs2))) io false
  else if funct4 = 0b0001 ∧ funct3 = 0b000 then
    .brk (s.setReg rd_rs1 (toU16 ((s.regs rd_rs1 : Int) - s.regs rs2))) io false
  else if funct4 = 0b0000 ∧ funct3 = 0b001 then
    .brk (s.setReg rd_rs1 (if toI16 (s.regs rd_rs1) < toI16 (s.regs rs2) then 1 else 0)) io false
  else if funct4 = 0b0000 ∧ funct3 = 0b010 then
    .brk (s.setReg rd_rs1 (if s.regs rd_rs1 < s.regs rs2 then 1 else 0)) io false
  else if funct4 = 0b0010 ∧ funct3 = 0b011 then
    .brk (s.setReg rd_rs1 (toU16 ((s.regs rd_rs1 <<< (s.regs rs2 &&& 0xF) : Nat)))) io false
  else if funct4 = 0b0100 ∧ funct3 = 0b011 then
    .brk (s.setReg rd_rs1 (toU16 ((s.regs rd_rs1 >>> (s.regs rs2 &&& 0xF) : Nat)))) io false
  else if funct4 = 0b1000 ∧ funct3 = 0b011 then
    .brk (s.setReg rd_rs1
      (toU16 (Int.shiftRight (toI16 (s.regs rd_rs1)) (s.regs rs2 &&& 0xF)))) io false
  else if funct4 = 0b0001 ∧ funct3 = 0b100 then
    .brk (s.setReg rd_rs1 (toU16 ((s.regs rd_rs1 ||| s.regs rs2 : Nat)))) io false
  else if funct4 = 0b0000 ∧ funct3 = 0b101 then
    .brk (s.setReg rd_rs1 (toU16 ((s.regs rd_rs1 &&& s.regs rs2 : Nat)))) io false
  else if funct4 = 0b0000 ∧ funct3 = 0b110 then
    .brk (s.setReg rd_rs1 (toU16 ((s.regs rd_rs1 ^^^ s.regs rs2 : Nat)))) io false
  else if funct4 = 0b0000 ∧ funct3 = 0b111 then
    .brk (s.setReg rd_rs1 (s.regs rs2)) io false
  else if funct4 = 0b0100 ∧ funct3 = 0b000 then
    -- JR
    .brk { s with pc := s.regs rd_rs1 } io true
  else if funct4 = 0b1000 ∧ funct3 = 0b000 then
    -- JALR
    let s1 := s.setReg rd_rs1 (toU16 ((s.pc : Int) + 2))
    .brk { s1 with pc := s1.regs rs2 } io true
  else
    .brk s ({ io with hex := true }.put
      ("Unknown R-type instruction at PC = 0x" ++ hexStr s.pc)) false

/-- `case 0x1`: I-type instructions.  The `switch (funct3)` and the inner
`switch (imm3)` have no fall-through, so each is rendered as a chain of
equality tests ending in the `default` arm. -/
def execI (s : Z16Simulator) (io : Cout) (inst : Nat) : Flow :=
  let imm7 := (inst >>> 9) &&& 0x7F
  let rd_rs1 := regField inst 6
  let funct3 := (inst >>> 3) &&& 0x7
  let imm3 := (inst >>> 13) &&& 0x7
  let simm : Int := toI16 (if imm7 &&& 0x40 ≠ 0 then ((imm7 ||| 0xFF80 : Nat) : Int) else imm7)
  if funct3 = 0b000 then
    .brk (s.setReg rd_rs1 (toU16 ((s.regs rd_rs1 : Int) + simm))) io false
  else if funct3 = 0b001 then
    .brk (s.setReg rd_rs1 (if toI16 (s.regs rd_rs1) < simm then 1 else 0)) io false
  else if funct3 = 0b010 then
    .brk (s.setReg rd_rs1 (if toU16 (s.regs rd_rs1) < toU16 simm then 1 else 0)) io false
  else if funct3 = 0b011 then
    let shamt := imm7 &&& 0xF
    if imm3 = 0b001 then
      .brk (s.setReg rd_rs1 (toU16 ((s.regs rd_rs1 <<< shamt : Nat)))) io false
    else if imm3 = 0b010 then
      .brk (s.setReg rd_rs1 (toU16 ((s.regs rd_rs1 >>> shamt : Nat)))) io false
    else if imm3 = 0b100 then
      .brk (s.setReg rd_rs1 (toU16 (Int.shiftRight (toI16 (s.regs rd_rs1)) shamt))) io false
    else
      .brk s ({ io with hex := true }.put
        ("Unimplemented I-type shift instruction at PC = 0x" ++ hexStr s.pc)) false
  else if funct3 = 0b100 then
    .brk (s.setReg rd_rs1 (toU16 (Int.lor (s.regs rd_rs1) simm))) io false
  else if funct3 = 0b101 then
    .brk (s.setReg rd_rs1 (toU16 (Int.land (s.regs rd_rs1) simm))) io false
  else if funct3 = 0b110 then
    .brk (s.setReg rd_rs1 (toU16 (Int.xor (s.regs rd_rs1) simm))) io false
  else if funct3 = 0b111 then
    .brk (s.setReg rd_rs1 (toU16 simm)) io false
  else
    .brk s ({ io with hex := true }.put
      ("Unimplemented I-type instruction at PC = 0x" ++ hexStr s.pc)) false

/-- A taken branch: `pc = newPc; return true;`. -/
def branchTo (s : Z16Simulator) (io : Cout) (newPc : Nat) : Flow :=
  .done ⟨.ret true, { s with pc := newPc }, io⟩

/-- `case 0x2`: B-type (branch) instructions.  The `switch (funct3)` is
rendered as a chain of equality tests ending in the `default` arm. -/
def execB (s : Z16Simulator) (io : Cout) (inst : Nat) : Flow :=
  let field := (inst >>> 12) &&& 0xF
  let raw_offset : Int :=
    if field &&& 0x8 ≠ 0 then toI8 ((field ||| 0xF0 : Nat)) else toI8 field
  let rs2 := regField inst 9
  let rs1 := regField inst 6
  let funct3 := (inst >>> 3) &&& 0x7
  let target := toU16 ((s.pc : Int) + raw_offset * 2)
  if funct3 = 0b000 then
    if s.regs rs1 = s.regs rs2 then branchTo s io (toU16 ((target : Int) + 2)) else .brk s io false
  else if funct3 = 0b001 then
    if s.regs rs1 ≠ s.regs rs2 then branchTo s io (toU16 ((target : Int) + 2)) else .brk s io false
  else if funct3 = 0b010 then
    if s.regs rs1 = 0 then branchTo s io target else .brk s io false
  else if funct3 = 0b011 then
    if s.regs rs1 ≠ 0 then branchTo s io target else .brk s io false
  else if funct3 = 0b100 then
    if toI16 (s.regs rs1) < toI16 (s.regs rs2) then branchTo s io (toU16 ((target : Int) + 2))
    else .brk s io false
  else if funct3 = 0b101 then
    if toI16 (s.regs rs1) ≥ toI16 (s.regs rs2) then branchTo s io (toU16 ((target : Int) + 2))
    else .brk s io false
  else if funct3 = 0b110 then
    if s.regs rs1 < s.regs rs2 then branchTo s io (toU16 ((target : Int) + 2)) else .brk s io false
  else if funct3 = 0b111 then
    if s.regs rs1 ≥ s.regs rs2 then branchTo s io (toU16 ((target : Int) + 2)) else .brk s io false
  else
    .brk s ({ io with hex := true }.put
      ("Unimplemented B-type instruction at PC = 0x" ++ hexStr s.pc)) false

/-- Continues after a call of a `void` memory helper: an exception leaves
`executeInstruction` at once. -/
def afterWrite (io : Cout) : Outcome Unit × Z16Simulator → Flow
  | (.ret _, s) => .brk s io false
  | (.thrown what, s) => .done ⟨.thrown what, s, io⟩
  | (.diverges, s) => .done ⟨.diverges, s, io⟩

/-- Continues after a call of a reading memory helper with `regs[rd] = f(value)`. -/
def afterRead (s : Z16Simulator) (io : Cout) (rd : Fin 8) (f : Nat → Nat) : Outcome Nat → Flow
  | .ret v => .brk (s.setReg rd (f v)) io false
  | .thrown what => .done ⟨.thrown what, s, io⟩
  | .diverges => .done ⟨.diverges, s, io⟩

/-- `case 0x3`: S-type (store) instructions. -/
def execS (s : Z16Simulator) (io : Cout) (inst : Nat) : Flow :=
  let offset : Int := toI8 (((inst >>> 12) &&& 0xF : Nat))
  let rs1 := regField inst 6
  let rs2 := regField inst 9
  let funct3 := (inst >>> 3) &&& 0x7
  let addr := toU16 ((s.regs rs1 : Int) + offset)
  if funct3 = 0b000 then
    afterWrite io (s.writeByte addr (toU8 ((s.regs rs2 &&& 0xFF : Nat))))
  else if funct3 = 0b001 then
    afterWrite io (s.writeWord addr (s.regs rs2))
  else
    .brk s io false

/-- `case 0x4`: L-type (load) instructions. -/
def execL (s : Z16Simulator) (io : Cout) (inst : Nat) : Flow :=
  let offset : Int := toI8 (((inst >>> 12) &&& 0xF : Nat))
  let rs2 := regField inst 9
  let rd := regField inst 6
  let funct3 := (inst >>> 3) &&& 0x7
  let addr := toU16 ((s.regs rs2 : Int) + offset)
  if funct3 = 0b000 then
    afterRead s io rd (fun b => toU16 (toI8 b)) (s.readByte addr)
  else if funct3 = 0b001 then
    afterRead s io rd (fun w => w) (s.readWord addr)
  else if funct3 = 0b100 then
    afterRead s io rd (fun b => b) (s.readByte addr)
  else
    .brk s io false

/-- `case 0x5`: J-type (jump) instructions. -/
def execJ (s : Z16Simulator) (io : Cout) (inst : Nat) : Flow :=
  let f := (inst >>> 15) &&& 0x1
  let imm6 := (inst >>> 9) &&& 0x3F
  let rd := regField inst 6
  let imm3 := (inst >>> 3) &&& 0x7
  let combined := imm3 ||| (imm6 <<< 3)
  let rawImm : Int :=
    if combined &&& (1 <<< 8) ≠ 0 then toI16 ((combined ||| 0xFE00 : Nat)) else toI16 combined
  let target := toU16 ((s.pc : Int) + rawImm * 2)
  if f = 0b0 then
    .brk { s with pc := target } io true
  else if f = 0b1 then
    .brk { s.setReg rd (toU16 ((s.pc : Int) + 2)) with pc := target } io true
  else
    .brk s io false

/-- `case 0x6`: U-type (lui/auipc) instructions. -/
def execU (s : Z16Simulator) (io : Cout) (inst : Nat) : Flow :=
  let f := (inst >>> 15) &&& 0x1
  let imm_upper := (inst >>> 9) &&& 0x3F
  let rd := regField inst 6
  let imm_lower := (inst >>> 3) &&& 0x7
  let imm_val := toU16 (((imm_upper <<< 3) ||| imm_lower : Nat))
  if f = 0 then
    .brk (s.setReg rd (toU16 ((imm_val <<< 7 : Nat)))) io false
  else
    .brk (s.setReg rd (toU16 ((s.pc : Int) + (imm_val <<< 7 : Nat)))) io false

/-- The `while (true)` loop of ecall service 5, with the string collected so
far.  The loop reads memory only, so if it has not met a zero byte within
`MEM_SIZE` iterations it has seen every cell and never exits: running out of
`fuel` (started at `MEM_SIZE`) is reported as `diverges`. -/
def printStringLoop (s : Z16Simulator) : Nat → Nat → List Char → Outcome (List Char)
  | 0, _, _ => .diverges
  | fuel + 1, addr, output =>
    match s.readByte addr with
    | .ret c =>
      if c = 0 then .ret output
      else printStringLoop s fuel (toU16 ((addr : Int) + 1)) (output ++ [Char.ofNat c])
    | .thrown what => .thrown what
    | .diverges => .diverges

/-- `case 0x7`: SYS-type instructions. -/
def execSYS (s : Z16Simulator) (io : Cout) (inst : Nat) : Flow :=
  let service := (inst >>> 6) &&& 0x3FF
  let funct3 := (inst >>> 3) &&& 0x7
  if funct3 = 0b000 then
    if service = 1 then
      .brk s ({ io with hex := false }.put
        ("Print integer: " ++ toString (toI16 (s.regs 6)))) false
    else if service = 3 then
      .done ⟨.ret false, s, (io.put "ecall 3").put "ecall terminate simulation"⟩
    else if service = 5 then
      match printStringLoop s MEM_SIZE (s.regs 6) [] with
      | .ret output => .brk s (io.put ("Print string: " ++ String.mk output)) false
      | .thrown what => .done ⟨.thrown what, s, io⟩
      | .diverges => .done ⟨.diverges, s, io⟩
    else
      .brk s (io.put ("ecall " ++ io.num service)) false
  else
    .brk s (io.put "Unknown SYS-type instruction") false

/-- The `switch(opcode)` of `executeInstruction`, rendered as a chain of
equality tests ending in the `default` arm. -/
def execSwitch (s : Z16Simulator) (io : Cout) (inst : Nat) : Flow :=
  let opcode := inst &&& 0x7
  if opcode = 0x0 then execR s io inst
  else if opcode = 0x1 then execI s io inst
  else if opcode = 0x2 then execB s io inst
  else if opcode = 0x3 then execS s io inst
  else if opcode = 0x4 then execL s io inst
  else if opcode = 0x5 then execJ s io inst
  else if opcode = 0x6 then execU s io inst
  else if opcode = 0x7 then execSYS s io inst
  else
    .brk s ({ io with hex := true }.put
      ("Unknown instruction opcode 0x" ++ hexStr opcode ++ " at PC = 0x" ++ hexStr s.pc)) false

/-- `bool executeInstruction(uint16_t inst)`: the switch, then the common
tail that advances `pc` and compares it with `programSize`. -/
def executeInstruction (s : Z16Simulator) (io : Cout) (inst : Nat) : Exec :=
  match execSwitch s io inst with
  | .done e => e
  | .brk s1 io1 pcUpdated =>
    let s2 := if pcUpdated then s1 else { s1 with pc := toU16 ((s1.pc : Int) + 2) }
    if s2.pc ≥ s2.programSize then ⟨.ret false, s2, io1⟩ else ⟨.ret true, s2, io1⟩

/-- The switch is left without an exception and without an endless loop:
at a `break`, or by a `return` statement. -/
inductive Flow.Returns : Flow → Prop
  | brk (s : Z16Simulator) (io : Cout) (u : Bool) : Flow.Returns (.brk s io u)
  | done (e : Exec) (r : Bool) (h : e.result = .ret r) : Flow.Returns (.done e)

/-- The switch leaves the program counter to the common tail: it reaches
`break` with `pcUpdated` still false and `pc` untouched, or it is left by an
exception or never left at all. -/
inductive Flow.Advances (pc : Nat) : Flow → Prop
  | brk (s1 : Z16Simulator) (io1 : Cout) (h : s1.pc = pc) : Flow.Advances pc (.brk s1 io1 false)
  | thrown (what : String) (s1 : Z16Simulator) (io1 : Cout) :
      Flow.Advances pc (.done ⟨.thrown what, s1, io1⟩)
  | diverges (s1 : Z16Simulator) (io1 : Cout) : Flow.Advances pc (.done ⟨.diverges, s1, io1⟩)

/-- The switch is left with an even program counter in the object: at a
`break`, by a `return`, by an exception, or stuck in a loop. -/
inductive Flow.EvenPc : Flow → Prop
  | brk (s1 : Z16Simulator) (io1 : Cout) (u : Bool) (h : s1.pc % 2 = 0) :
      Flow.EvenPc (.brk s1 io1 u)
  | done (e : Exec) (h : e.sim.pc % 2 = 0) : Flow.EvenPc (.done e)

/-- The table `regNames`: ABI display name of each register index. -/
def regNames (r : Fin 8) : String :=
  ["t0", "ra", "sp", "s0", "s1", "t1", "a0", "a1"].getD r.val ""

/-- A number as printed under `setw(4) << setfill('0') << hex`: lower-case
hexadecimal digits, padded on the left with `'0'` to at least four characters. -/
def hex4 (n : Nat) : String :=
  String.mk (List.replicate (4 - (Nat.toDigits 16 n).length) '0' ++ Nat.toDigits 16 n)

/-- `string disassemble(uint16_t addr, uint16_t inst)`.  The text is built in a
fresh `stringstream`, so numbers are decimal unless `hex` was sent first.  The
`switch` statements are rendered as chains of equality tests ending in the
`default` arm. -/
def disassemble (addr inst : Nat) : String :=
  let opcode := inst &&& 0x7
  if opcode = 0x0 then
    let funct4 := (inst >>> 12) &&& 0xF
    let rs2 := regField inst 9
    let rd_rs1 := regField inst 6
    let funct3 := (inst >>> 3) &&& 0x7
    if funct4 = 0b0000 ∧ funct3 = 0b000 then "add " ++ regNames rd_rs1 ++ ", " ++ regNames rs2
    else if funct4 = 0b0001 ∧ funct3 = 0b000 then
      "sub " ++ regNames rd_rs1 ++ ", " ++ regNames rs2
    else if funct4 = 0b0000 ∧ funct3 = 0b001 then
      "slt " ++ regNames rd_rs1 ++ ", " ++ regNames rs2
    else if funct4 = 0b0000 ∧ funct3 = 0b010 then
      "sltu " ++ regNames rd_rs1 ++ ", " ++ regNames rs2
    else if funct4 = 0b0010 ∧ funct3 = 0b011 then
      "sll " ++ regNames rd_rs1 ++ ", " ++ regNames rs2
    else if funct4 = 0b0100 ∧ funct3 = 0b011 then
      "srl " ++ regNames rd_rs1 ++ ", " ++ regNames rs2
    else if funct4 = 0b1000 ∧ funct3 = 0b011 then
      "sra " ++ regNames rd_rs1 ++ ", " ++ regNames rs2
    else if funct4 = 0b0001 ∧ funct3 = 0b100 then
      "or " ++ regNames rd_rs1 ++ ", " ++ regNames rs2
    else if funct4 = 0b0000 ∧ funct3 = 0b101 then
      "and " ++ regNames rd_rs1 ++ ", " ++ regNames rs2
    else if funct4 = 0b0000 ∧ funct3 = 0b110 then
      "xor " ++ regNames rd_rs1 ++ ", " ++ regNames rs2
    else if funct4 = 0b0000 ∧ funct3 = 0b111 then
      "mv " ++ regNames rd_rs1 ++ ", " ++ regNames rs2
    else if funct4 = 0b0100 ∧ funct3 = 0b000 then "jr " ++ regNames rd_rs1
    else if funct4 = 0b1000 ∧ funct3 = 0b000 then "jalr " ++ regNames rs2
    else "Unknown R-type instruction"
  else if opcode = 0x1 then
    let imm7 := (inst >>> 9) &&& 0x7F
    let imm3 := (inst >>> 13) &&& 0x7
    let rd_rs1 := regField inst 6
    let funct3 := (inst >>> 3) &&& 0x7
    let simm : Int := toI16 (if imm7 &&& 0x40 ≠ 0 then ((imm7 ||| 0xFF80 : Nat) : Int) else imm7)
    if funct3 = 0b000 then "addi " ++ regNames rd_rs1 ++ ", " ++ toString simm
    else if funct3 = 0b001 then "slti " ++ regNames rd_rs1 ++ ", " ++ toString simm
    else if funct3 = 0b010 then
      -- `imm7` is a `uint8_t`: `operator<<` writes it as one character
      "sltui " ++ regNames rd_rs1 ++ ", " ++ String.singleton (Char.ofNat imm7)
    else if funct3 = 0b011 ∧ imm3 = 0b001 then
      "slli " ++ regNames rd_rs1 ++ ", " ++ toString (imm7 &&& 0xF)
    else if funct3 = 0b011 ∧ imm3 = 0b010 then
      "srli " ++ regNames rd_rs1 ++ ", " ++ toString (imm7 &&& 0xF)
    else if funct3 = 0b011 ∧ imm3 = 0b100 then
      "srai " ++ regNames rd_rs1 ++ ", " ++ toString (imm7 &&& 0xF)
    else if funct3 = 0b100 then "ori " ++ regNames rd_rs1 ++ ", " ++ toString simm
    else if funct3 = 0b101 then "andi " ++ regNames rd_rs1 ++ ", " ++ toString simm
    else if funct3 = 0b110 then "xori " ++ regNames rd_rs1 ++ ", " ++ toString simm
    else if funct3 = 0b111 then "li " ++ regNames rd_rs1 ++ ", " ++ toString simm
    else "Unknown I-type instruction"
  else if opcode = 0x2 then
    let field := (inst >>> 12) &&& 0xF
    let raw_offset : Int :=
      if field &&& 0x8 ≠ 0 then toI8 ((field ||| 0xF0 : Nat)) else toI8 field
    let rs2 := regField inst 9
    let rs1 := regField inst 6
    let funct3 := (inst >>> 3) &&& 0x7
    let target := toU16 ((addr : Int) + 2 + raw_offset * 2)
    if funct3 = 0b000 then
      "beq " ++ regNames rs1 ++ ", " ++ regNames rs2 ++ ", 0x" ++ hex4 target
    else if funct3 = 0b001 then
      "bne " ++ regNames rs1 ++ ", " ++ regNames rs2 ++ ", 0x" ++ hex4 target
    else if funct3 = 0b010 then
      "bz " ++ regNames rs1 ++ ", 0x" ++ hex4 (toU16 ((target : Int) - 2))
    else if funct3 = 0b011 then
      "bnz " ++ regNames rs1 ++ ", 0x" ++ hex4 (toU16 ((target : Int) - 2))
    else if funct3 = 0b100 then
      "blt " ++ regNames rs1 ++ ", " ++ regNames rs2 ++ ", 0x" ++ hex4 target
    else if funct3 = 0b101 then
      "bge " ++ regNames rs1 ++ ", " ++ regNames rs2 ++ ", 0x" ++ hex4 target
    else if funct3 = 0b110 then
      "bltu " ++ regNames rs1 ++ ", " ++ regNames rs2 ++ ", 0x" ++ hex4 target
    else if funct3 = 0b111 then
      "bgeu " ++ regNames rs1 ++ ", " ++ regNames rs2 ++ ", 0x" ++ hex4 target
    else "Unimplemented B-type instruction"
  else if opcode = 0x3 then
    let offset : Int := toI8 (((inst >>> 12) &&& 0xF : Nat))
    let rs1 := regField inst 6
    let rs2 := regField inst 9
    let funct3 := (inst >>> 3) &&& 0x7
    if funct3 = 0b000 then
      "sb " ++ regNames rs2 ++ ", " ++ toString offset ++ "(" ++ regNames rs1 ++ ")"
    else if funct3 = 0b001 then
      "sw " ++ regNames rs2 ++ ", " ++ toString offset ++ "(" ++ regNames rs1 ++ ")"
    else "Unknown S-type instruction"
  else if opcode = 0x4 then
    let offset : Int := toI8 (((inst >>> 12) &&& 0xF : Nat))
    let rs2 := regField inst 9
    let rd := regField inst 6
    let funct3 := (inst >>> 3) &&& 0x7
    if funct3 = 0b000 then
      "lb " ++ regNames rd ++ ", " ++ toString offset ++ "(" ++ regNames rs2 ++ ")"
    else if funct3 = 0b001 then
      "lw " ++ regNames rd ++ ", " ++ toString offset ++ "(" ++ regNames rs2 ++ ")"
    else if funct3 = 0b100 then
      "lbu " ++ regNames rd ++ ", " ++ toString offset ++ "(" ++ regNames rs2 ++ ")"
    else "Unknown L-type instruction"
  else if opcode = 0x5 then
    let f := (inst >>> 15) &&& 0x1
    let imm6 := (inst >>> 9) &&& 0x3F
    let rd := regField inst 6
    let imm3 := (inst >>> 3) &&& 0x7
    let combined := (imm6 <<< 3) ||| imm3
    let rawImm : Int :=
      if combined &&& (1 <<< 8) ≠ 0 then toI16 ((combined ||| 0xFE00 : Nat)) else toI16 combined
    let target := toU16 ((addr : Int) + rawImm * 2)
    if f = 0 then "j 0x" ++ hex4 target
    else "jal " ++ regNames rd ++ ", 0x" ++ hex4 target
  else if opcode = 0x6 then
    let f := (inst >>> 15) &&& 0x1
    let imm_upper := (inst >>> 9) &&& 0x3F
    let rd := regField inst 6
    let imm_lower := (inst >>> 3) &&& 0x7
    let imm_val := toU16 (((imm_upper <<< 3) ||| imm_lower : Nat))
    if f = 0 then "lui " ++ regNames rd ++ ", " ++ toString imm_val
    else "auipc " ++ regNames rd ++ ", " ++ toString imm_val
  else if opcode = 0x7 then
    let service := (inst >>> 6) &&& 0x3FF
    let funct3 := (inst >>> 3) &&& 0x7
    if funct3 = 0b000 then "ecall " ++ toString service
    else "Unknown SYS-type instruction"
  else "Unknown instruction with opcode 0x" ++ hexStr opcode

/-- The simulator as `main` hands it to `runExecution`: the bytes of the image
file at address 0, zero elsewhere, `programSize` the number of bytes read, and
registers and `pc` as the constructor leaves them. -/
def loadImage (image : List Nat) : Z16Simulator :=
  { init with memory := fun a => image.getD a 0, programSize := image.length }

/-- The constant `MAX_CYCLES` of `runExecution`. -/
def MAX_CYCLES : Nat := 10000

/-- What a call of `runExecution` leaves behind: its return value (or the
exception), the simulator object, `std::cout`, and the pieces of text written
to the stream `out`, one per output statement. -/
structure Run where
  result : Outcome Bool
  sim : Z16Simulator
  cout : Cout
  out : List String

/-- The trace line written before an instruction is executed. -/
def traceLine (pc inst : Nat) : String :=
  "0x" ++ hex4 pc ++ ": " ++ hex4 inst ++ "  " ++ disassemble pc inst ++ "\n"

/-- The notice written when the cycle counter has passed `MAX_CYCLES`. -/
def loopNotice (pc : Nat) : String :=
  "\nInfinite loop detected at PC = 0x" ++ hex4 pc ++ ". Exiting simulation.\n"

/-- The `while (pc < programSize)` loop of `runExecution`, entered with the
current value of `cycleCount`.  Every iteration that does not leave the loop
raises `cycleCount` by one and the loop is left once it exceeds `MAX_CYCLES`,
so `MAX_CYCLES + 2` units of `fuel` are never used up. -/
def runLoop : Nat → Z16Simulator → Cout → List String → Nat → Run
  | 0, s, io, out, _ => ⟨.diverges, s, io, out⟩
  | fuel + 1, s, io, out, cycleCount =>
    if s.pc < s.programSize then
      if cycleCount > MAX_CYCLES then
        ⟨.ret false, s, io, out ++ [loopNotice s.pc]⟩
      else
        match s.readWord s.pc with
        | .ret inst =>
          let out1 := out ++ [traceLine s.pc inst]
          let e := s.executeInstruction io inst
          match e.result with
          | .ret true => runLoop fuel e.sim e.cout out1 (cycleCount + 1)
          | .ret false => ⟨.ret true, e.sim, e.cout, out1⟩
          | .thrown what => ⟨.thrown what, e.sim, e.cout, out1⟩
          | .diverges => ⟨.diverges, e.sim, e.cout, out1⟩
        | .thrown what => ⟨.thrown what, s, io, out⟩
        | .diverges => ⟨.diverges, s, io, out⟩
    else
      ⟨.ret true, s, io, out⟩

/-- `bool runExecution(ostream &out)`, with `cycleCount = 0` on entry. -/
def runExecution (s : Z16Simulator) (io : Cout) (out : List String) : Run :=
  runLoop (MAX_CYCLES + 2) s io out 0

/-- `isprint(b)` for a byte in the "C" locale: space up to tilde. -/
def isprint (b : Nat) : Bool := decide (0x20 ≤ b ∧ b ≤ 0x7E)

/-- `isspace(b)` for a byte in the "C" locale: space, and tab up to carriage
return. -/
def isspace (b : Nat) : Bool := decide (b = 0x20 ∨ (0x09 ≤ b ∧ b ≤ 0x0D))

/-- The constant `MIN_STR_LEN` of `runFullDisassembly`. -/
def MIN_STR_LEN : Nat := 4

/-- The constant `MAX_PROBE` of `runFullDisassembly`. -/
def MAX_PROBE : Nat := 256

/-- The constant `THRESHOLD` of `runFullDisassembly`. -/
def THRESHOLD : Nat := 4

/-- A number as printed under `setw(2) << setfill('0') << hex`. -/
def hex2 (n : Nat) : String :=
  String.mk (List.replicate (2 - (Nat.toDigits 16 n).length) '0' ++ Nat.toDigits 16 n)

/-- One output statement of `runFullDisassembly`, with the values it is given:
the six statements that write a line to `out`. -/
inductive Item where
  | asciiz (addr : Nat) (candidate : List Char)
  | space (startAddr zeroCount : Nat)
  | zeroWord (addr : Nat)
  | dataWord (addr word : Nat)
  | instruction (addr word : Nat) (instStr : String)
  | byte (addr b : Nat)
  deriving DecidableEq, Repr

/-- The text an output statement of `runFullDisassembly` writes.  Every
statement sends `hex` before its first number and the flag stays set on the
stream, so the byte count of `.space`, sent as a plain `int`, is written in
hexadecimal too; `setw` holds for the next number only. -/
def Item.render : Item → String
  | .asciiz addr candidate =>
    "0x" ++ hex4 addr ++ ": .asciiz \"" ++ String.mk candidate ++ "\"\n"
  | .space startAddr zeroCount =>
    "0x" ++ hex4 startAddr ++ ": .space " ++ hexStr (zeroCount * 2) ++ " bytes\n"
  | .zeroWord addr => "0x" ++ hex4 addr ++ ": .word 0x0000\n"
  | .dataWord addr word => "0x" ++ hex4 addr ++ ": .word 0x" ++ hex4 word ++ "\n"
  | .instruction addr word instStr =>
    "0x" ++ hex4 addr ++ ": " ++ hex4 word ++ "  " ++ instStr ++ "\n"
  | .byte addr b => "0x" ++ hex4 addr ++ ": .byte 0x" ++ hex2 b ++ "\n"

/-- The probing loop of step 1, entered with the current `probe` and
`candidate`; it returns them with `nullFound`.  `addr` is the walker's address.
The loop runs at most `MAX_PROBE` times, so `MAX_PROBE + 1` units of `fuel` are
never used up. -/
def probeLoop (s : Z16Simulator) (addr : Nat) :
    Nat → Nat → List Char → Outcome (Nat × List Char × Bool)
  | 0, _, _ => .diverges
  | fuel + 1, probe, candidate =>
    if probe < s.programSize ∧ (probe : Int) - addr < MAX_PROBE then
      match s.readByte (toU16 probe) with
      | .ret b =>
        if b = 0 then .ret (probe, candidate, true)
        else if (!isprint b && !isspace b) = true then .ret (probe, candidate, false)
        else probeLoop s addr fuel (probe + 1) (candidate ++ [Char.ofNat b])
      | .thrown what => .thrown what
      | .diverges => .diverges
    else .ret (probe, candidate, false)

/-- The loop of step 2 that counts zero words, entered with the current `addr`
and `zeroCount`; it returns both.  `addr` moves by 2 modulo 2^16 and nothing
else decides the test, so a loop that has not ended within `MEM_SIZE`
iterations is back at an address it has tested before and never ends: running
out of `fuel` (started at `MEM_SIZE`) is reported as `diverges`. -/
def zeroRun (s : Z16Simulator) : Nat → Nat → Nat → Outcome (Nat × Nat)
  | 0, _, _ => .diverges
  | fuel + 1, addr, zeroCount =>
    if addr + 1 < s.programSize then
      match s.readWord addr with
      | .ret word =>
        if word = 0 then zeroRun s fuel (toU16 ((addr : Int) + 2)) (zeroCount + 1)
        else .ret (addr, zeroCount)
      | .thrown what => .thrown what
      | .diverges => .diverges
    else .ret (addr, zeroCount)

/-- Steps 3 and 4 of one iteration of the walk at `addr`: an instruction or
`.word` line if two bytes are left, a `.byte` line otherwise.  The result is
what is written and the new `addr`. -/
def walkInstr (s : Z16Simulator) (addr : Nat) : Outcome (List Item × Nat) :=
  if addr + 1 < s.programSize then
    match s.readWord addr with
    | .ret word =>
      let instStr := disassemble addr word
      if "Unknown".data <:+: instStr.data then
        .ret ([.dataWord addr word], toU16 ((addr : Int) + 2))
      else
        .ret ([.instruction addr word instStr], toU16 ((addr : Int) + 2))
    | .thrown what => .thrown what
    | .diverges => .diverges
  else
    match s.readByte addr with
    | .ret b => .ret ([.byte addr b], toU16 ((addr : Int) + 1))
    | .thrown what => .thrown what
    | .diverges => .diverges

/-- Steps 2 to 4 of one iteration of the walk at `addr`, reached when step 1
has found no string: a run of zero words, else what `walkInstr` writes.  The
result is what is written and the new `addr`. -/
def walkData (s : Z16Simulator) (addr : Nat) : Outcome (List Item × Nat) :=
  if addr + 1 < s.programSize then
    match s.readWord addr with
    | .ret word =>
      if word = 0 then
        match zeroRun s MEM_SIZE addr 0 with
        | .ret (addr1, zeroCount) =>
          if zeroCount ≥ THRESHOLD then .ret ([.space addr zeroCount], addr1)
          else .ret ((List.range zeroCount).map fun i => .zeroWord (addr + i * 2), addr1)
        | .thrown what => .thrown what
        | .diverges => .diverges
      else walkInstr s addr
    | .thrown what => .thrown what
    | .diverges => .diverges
  else walkInstr s addr

/-- One iteration of the `while (addr < programSize)` loop of
`runFullDisassembly`: what it writes and the new `addr`.  All memory is read
before the first line of the iteration is written. -/
def walkStep (s : Z16Simulator) (addr : Nat) : Outcome (List Item × Nat) :=
  match probeLoop s addr (MAX_PROBE + 1) addr [] with
  | .ret (probe, candidate, nullFound) =>
    if nullFound = true ∧ candidate.length ≥ MIN_STR_LEN then
      .ret ([.asciiz addr candidate], toU16 ((probe : Int) + 1))
    else walkData s addr
  | .thrown what => .thrown what
  | .diverges => .diverges

/-- The `while (addr < programSize)` loop of `runFullDisassembly`, entered
with the current `addr` and the lines written so far.  An iteration depends on
`addr` alone, so a loop that has not ended within `MEM_SIZE` iterations has
come back to an address it has been at and never ends: running out of `fuel`
is reported as `diverges`. -/
def walk (s : Z16Simulator) : Nat → Nat → List Item → Outcome Unit × List Item
  | 0, _, out => (.diverges, out)
  | fuel + 1, addr, out =>
    if addr < s.programSize then
      match walkStep s addr with
      | .ret (items, addr1) => walk s fuel addr1 (out ++ items)
      | .thrown what => (.thrown what, out)
      | .diverges => (.diverges, out)
    else (.ret (), out)

/-- `void runFullDisassembly(ostream &out)`, with `addr = 0` on entry: how the
call ends and the lines written, in order. -/
def runFullDisassembly (s : Z16Simulator) : Outcome Unit × List Item :=
  walk s (MEM_SIZE + 1) 0 []

end Z16Simulator

/-! ## Vocabulary of the statements -/

/-- Two's-complement reading of a 16-bit register value. -/
def signed16 (x : Nat) : Int := if x < 32768 then (x : Int) else (x : Int) - 65536

/-- Sign extension of a 4-bit field (range -8..7). -/
def sext4 (f : Nat) : Int := if f < 8 then (f : Int) else (f : Int) - 16

/-- Sign extension of a 7-bit field from bit 6 (range -64..63). -/
def sext7 (f : Nat) : Int := if f < 64 then (f : Int) else (f : Int) - 128

/-- Sign extension of a 9-bit field from bit 8 (range -256..255). -/
def sext9 (f : Nat) : Int := if f < 256 then (f : Int) else (f : Int) - 512

/-- The text starts with the word `Unknown`: the shape of every diagnostic
that `disassemble` returns for an encoding it does not recognise. -/
@[reducible] def IsUnknownText (text : String) : Prop := "Unknown".data <+: text.data

/-- A byte the string rule accepts: printable (`0x20..0x7E`) or whitespace
(`0x09..0x0D`). -/
def IsTextByte (b : Nat) : Prop := (0x20 ≤ b ∧ b ≤ 0x7E) ∨ (0x09 ≤ b ∧ b ≤ 0x0D)

/-- The address a line of the linear walk is printed with. -/
def itemStart : Z16Simulator.Item → Nat
  | .asciiz addr _ => addr
  | .space startAddr _ => startAddr
  | .zeroWord addr => addr
  | .dataWord addr _ => addr
  | .instruction addr _ _ => addr
  | .byte addr _ => addr

/-- The number of image bytes a line of the linear walk stands for: the
characters and the NUL of a string, two bytes per zero word of a `.space` run,
two bytes for a `.word` or instruction line, one for a `.byte` line. -/
def itemExtent : Z16Simulator.Item → Nat
  | .asciiz _ candidate => candidate.length + 1
  | .space _ zeroCount => 2 * zeroCount
  | .zeroWord _ => 2
  | .dataWord _ _ => 2
  | .instruction _ _ _ => 2
  | .byte _ _ => 1

/-- A `.byte` line. -/
def isByteItem : Z16Simulator.Item → Prop
  | .byte _ _ => True
  | _ => False

/-- The lines, in order, cover `[start, stop)` without gap or overlap: the
first starts at `start`, each starts where the one before ended, the last
ends at `stop`. -/
def Tiles : Nat → List Z16Simulator.Item → Nat → Prop
  | start, [], stop => start = stop
  | start, item :: rest, stop =>
    itemStart item = start ∧ Tiles (start + itemExtent item) rest stop

/-- A `.byte` line is followed by no other line. -/
def ByteOnlyLast : List Z16Simulator.Item → Prop
  | [] => True
  | item :: rest => (isByteItem item → rest = []) ∧ ByteOnlyLast rest

/-- The simulator after `main` has loaded an image of 65536 bytes that is zero
except for the text `ABCDE` at `0xFFFA..0xFFFE` (so the last byte, at
`0xFFFF`, is the NUL that ends it). -/
def fullImageWithString : Z16Simulator :=
  { (((((Z16Simulator.init.setMem 0xFFFA 0x41).setMem 0xFFFB 0x42).setMem 0xFFFC 0x43).setMem
      0xFFFD 0x44).setMem 0xFFFE 0x45) with programSize := 65536 }

/-! ## Conversion lemmas -/

theorem toU16_natCast (n : Nat) : toU16 (n : Int) = n % 65536 := by
  unfold toU16; omega

theorem toU8_natCast (n : Nat) : toU8 (n : Int) = n % 256 := by
  unfold toU8; omega

theorem toU16_lt (x : Int) : toU16 x < 65536 := by
  unfold toU16; omega

theorem and_255 (v : Nat) : v &&& 0xFF = v % 256 :=
  Nat.and_pow_two_sub_one_eq_mod v 8

theorem byte_or_shift (lo hi : Nat) (hlo : lo < 256) : lo ||| (hi <<< 8) = lo + hi * 256 := by
  have h := Nat.mul_add_lt_is_or (i := 8) (b := lo) (by simpa using hlo) hi
  rw [Nat.shiftLeft_eq, Nat.or_comm, Nat.mul_comm hi, ← h]
  omega

theorem toI16_natCast (x : Nat) (h : x < 65536) : toI16 (x : Int) = signed16 x := by
  unfold toI16 signed16; split <;> split <;> omega

theorem rawOffset_eq (f : Nat) (hf : f < 16) :
    (if f &&& 0x8 ≠ 0 then toI8 ((f ||| 0xF0 : Nat)) else toI8 f) = sext4 f := by
  interval_cases f <;> decide

/-! ## State lemmas -/

namespace Z16Simulator

theorem init_WF : init.WF :=
  ⟨by decide, by decide, fun _ => show (0 : Nat) < 256 by decide⟩

theorem WF.setReg {s : Z16Simulator} (hs : s.WF) (r : Fin 8) {v : Nat} (hv : v < 65536) :
    (s.setReg r v).WF := by
  refine ⟨fun i => ?_, hs.pc_lt, hs.memory_lt⟩
  show (if i = r then v else s.regs i) < 65536
  split
  · exact hv
  · exact hs.regs_lt i

theorem WF.setMem {s : Z16Simulator} (hs : s.WF) (a : Nat) {v : Nat} (hv : v < 256) :
    (s.setMem a v).WF := by
  refine ⟨hs.regs_lt, hs.pc_lt, fun i => ?_⟩
  show (if i = a then v else s.memory i) < 256
  split
  · exact hv
  · exact hs.memory_lt i

theorem execSwitch_R {inst : Nat} (s : Z16Simulator) (io : Cout) (h : inst &&& 0x7 = 0x0) :
    execSwitch s io inst = execR s io inst := by
  simp [execSwitch, h]

theorem execSwitch_I {inst : Nat} (s : Z16Simulator) (io : Cout) (h : inst &&& 0x7 = 0x1) :
    execSwitch s io inst = execI s io inst := by
  simp [execSwitch, h]

theorem execSwitch_B {inst : Nat} (s : Z16Simulator) (io : Cout) (h : inst &&& 0x7 = 0x2) :
    execSwitch s io inst = execB s io inst := by
  simp [execSwitch, h]

theorem execSwitch_S {inst : Nat} (s : Z16Simulator) (io : Cout) (h : inst &&& 0x7 = 0x3) :
    execSwitch s io inst = execS s io inst := by
  simp [execSwitch, h]

theorem execSwitch_L {inst : Nat} (s : Z16Simulator) (io : Cout) (h : inst &&& 0x7 = 0x4) :
    execSwitch s io inst = execL s io inst := by
  simp [execSwitch, h]

theorem execSwitch_J {inst : Nat} (s : Z16Simulator) (io : Cout) (h : inst &&& 0x7 = 0x5) :
    execSwitch s io inst = execJ s io inst := by
  simp [execSwitch, h]

theorem execSwitch_U {inst : Nat} (s : Z16Simulator) (io : Cout) (h : inst &&& 0x7 = 0x6) :
    execSwitch s io inst = execU s io inst := by
  simp [execSwitch, h]

theorem execSwitch_SYS {inst : Nat} (s : Z16Simulator) (io : Cout) (h : inst &&& 0x7 = 0x7) :
    execSwitch s io inst = execSYS s io inst := by
  simp [execSwitch, h]

theorem Flow.returns_brk (s : Z16Simulator) (io : Cout) (u : Bool) :
    (Flow.brk s io u).Returns :=
  .brk s io u

theorem branchTo_returns (s : Z16Simulator) (io : Cout) (newPc : Nat) :
    (branchTo s io newPc).Returns :=
  .done _ true rfl

theorem Flow.returns_ite (c : Prop) {d : Decidable c} {a b : Flow} (ha : a.Returns)
    (hb : b.Returns) : (@ite Flow c d a b).Returns := by
  split
  · exact ha
  · exact hb

theorem ite_exec_result (c : Prop) [Decidable c] (r1 r2 : Bool) (s1 s2 : Z16Simulator)
    (io1 io2 : Cout) :
    ∃ r, (if c then (⟨.ret r1, s1, io1⟩ : Exec) else ⟨.ret r2, s2, io2⟩).result = .ret r := by
  split
  · exact ⟨r1, rfl⟩
  · exact ⟨r2, rfl⟩

theorem returns_of_flow (s : Z16Simulator) (io : Cout) (inst : Nat)
    (h : (execSwitch s io inst).Returns) : ∃ r, (s.executeInstruction io inst).result = .ret r := by
  unfold executeInstruction
  cases hsw : execSwitch s io inst with
  | done e =>
    rw [hsw] at h
    cases h with
    | done _ r hr => exact ⟨r, hr⟩
  | brk s1 io1 u => exact ite_exec_result _ _ _ _ _ _ _

theorem execR_returns (s : Z16Simulator) (io : Cout) (inst : Nat) : (execR s io inst).Returns := by
  simp only [execR]
  repeat' (first | apply Flow.returns_ite | exact Flow.returns_brk _ _ _)

theorem execI_returns (s : Z16Simulator) (io : Cout) (inst : Nat) : (execI s io inst).Returns := by
  simp only [execI]
  repeat' (first | apply Flow.returns_ite | exact Flow.returns_brk _ _ _)

theorem execB_returns (s : Z16Simulator) (io : Cout) (inst : Nat) : (execB s io inst).Returns := by
  simp only [execB]
  repeat' (first
    | apply Flow.returns_ite
    | exact Flow.returns_brk _ _ _
    | exact branchTo_returns _ _ _)

theorem execJ_returns (s : Z16Simulator) (io : Cout) (inst : Nat) : (execJ s io inst).Returns := by
  simp only [execJ]
  repeat' (first | apply Flow.returns_ite | exact Flow.returns_brk _ _ _)

theorem execU_returns (s : Z16Simulator) (io : Cout) (inst : Nat) : (execU s io inst).Returns := by
  simp only [execU]
  repeat' (first | apply Flow.returns_ite | exact Flow.returns_brk _ _ _)

/-- Instructions of the R, I, B, J and U families always return normally. -/
theorem executeInstruction_returns (s : Z16Simulator) (io : Cout) (inst : Nat)
    (h : inst &&& 0x7 = 0 ∨ inst &&& 0x7 = 1 ∨ inst &&& 0x7 = 2 ∨ inst &&& 0x7 = 5 ∨
      inst &&& 0x7 = 6) :
    ∃ r, (s.executeInstruction io inst).result = .ret r := by
  apply returns_of_flow
  rcases h with h | h | h | h | h
  · rw [execSwitch_R s io h]; exact execR_returns s io inst
  · rw [execSwitch_I s io h]; exact execI_returns s io inst
  · rw [execSwitch_B s io h]; exact execB_returns s io inst
  · rw [execSwitch_J s io h]; exact execJ_returns s io inst
  · rw [execSwitch_U s io h]; exact execU_returns s io inst

theorem ite_exec_sim (c : Prop) [Decidable c] (r1 r2 : Outcome Bool) (s2 : Z16Simulator)
    (io : Cout) : (if c then (⟨r1, s2, io⟩ : Exec) else ⟨r2, s2, io⟩).sim = s2 := by
  split <;> rfl

theorem ite_exec_cout (c : Prop) [Decidable c] (r1 r2 : Outcome Bool) (s2 : Z16Simulator)
    (io : Cout) : (if c then (⟨r1, s2, io⟩ : Exec) else ⟨r2, s2, io⟩).cout = io := by
  split <;> rfl

theorem Flow.advances_ite {pc : Nat} (c : Prop) {d : Decidable c} {a b : Flow}
    (ha : c → a.Advances pc) (hb : ¬ c → b.Advances pc) : (@ite Flow c d a b).Advances pc := by
  split
  · exact ha ‹_›
  · exact hb ‹_›

theorem pc_of_advances (s : Z16Simulator) (io : Cout) (inst : Nat)
    (h : (execSwitch s io inst).Advances s.pc) (r : Bool)
    (hr : (s.executeInstruction io inst).result = .ret r) :
    (s.executeInstruction io inst).sim.pc = (s.pc + 2) % 65536 := by
  unfold executeInstruction at hr ⊢
  generalize execSwitch s io inst = fl at h hr ⊢
  cases h with
  | brk s1 io1 h1 =>
    simp only [Bool.false_eq_true, if_false, ite_exec_sim]
    rw [h1]; unfold toU16; omega
  | thrown what s1 io1 => simp at hr
  | diverges s1 io1 => simp at hr

theorem execR_advances (s : Z16Simulator) (io : Cout) (inst : Nat)
    (hjr : ¬ ((inst >>> 12) &&& 0xF = 4 ∧ (inst >>> 3) &&& 0x7 = 0))
    (hjalr : ¬ ((inst >>> 12) &&& 0xF = 8 ∧ (inst >>> 3) &&& 0x7 = 0)) :
    (execR s io inst).Advances s.pc := by
  simp only [execR, hjr, hjalr, if_false]
  repeat' (first | (apply Flow.advances_ite <;> intro _) | exact .brk _ _ rfl)

theorem execI_advances (s : Z16Simulator) (io : Cout) (inst : Nat) :
    (execI s io inst).Advances s.pc := by
  simp only [execI]
  repeat' (first | (apply Flow.advances_ite <;> intro _) | exact .brk _ _ rfl)

theorem execU_advances (s : Z16Simulator) (io : Cout) (inst : Nat) :
    (execU s io inst).Advances s.pc := by
  simp only [execU]
  repeat' (first | (apply Flow.advances_ite <;> intro _) | exact .brk _ _ rfl)

theorem afterWrite_advances (s : Z16Simulator) (io : Cout) (r : Outcome Unit × Z16Simulator)
    (h : r.2.pc = s.pc) : (afterWrite io r).Advances s.pc := by
  obtain ⟨o, s1⟩ := r
  cases o with
  | ret u => exact .brk _ _ h
  | thrown what => exact .thrown _ _ _
  | diverges => exact .diverges _ _

theorem writeByte_pc (s : Z16Simulator) (addr v : Nat) : (s.writeByte addr v).2.pc = s.pc := by
  unfold writeByte; split <;> rfl

theorem writeWord_pc (s : Z16Simulator) (addr v : Nat) : (s.writeWord addr v).2.pc = s.pc := by
  unfold writeWord; split <;> rfl

theorem execS_advances (s : Z16Simulator) (io : Cout) (inst : Nat) :
    (execS s io inst).Advances s.pc := by
  simp only [execS]
  apply Flow.advances_ite <;> intro _
  · exact afterWrite_advances _ _ _ (writeByte_pc _ _ _)
  · apply Flow.advances_ite <;> intro _
    · exact afterWrite_advances _ _ _ (writeWord_pc _ _ _)
    · exact .brk _ _ rfl

theorem afterRead_advances (s : Z16Simulator) (io : Cout) (rd : Fin 8) (f : Nat → Nat)
    (o : Outcome Nat) : (afterRead s io rd f o).Advances s.pc := by
  cases o with
  | ret v => exact .brk _ _ rfl
  | thrown what => exact .thrown _ _ _
  | diverges => exact .diverges _ _

theorem execL_advances (s : Z16Simulator) (io : Cout) (inst : Nat) :
    (execL s io inst).Advances s.pc := by
  simp only [execL]
  apply Flow.advances_ite <;> intro _
  · exact afterRead_advances _ _ _ _ _
  · apply Flow.advances_ite <;> intro _
    · exact afterRead_advances _ _ _ _ _
    · apply Flow.advances_ite <;> intro _
      · exact afterRead_advances _ _ _ _ _
      · exact .brk _ _ rfl

theorem execSYS_advances (s : Z16Simulator) (io : Cout) (inst : Nat)
    (h3 : ¬ ((inst >>> 3) &&& 0x7 = 0 ∧ (inst >>> 6) &&& 0x3FF = 3)) :
    (execSYS s io inst).Advances s.pc := by
  simp only [execSYS]
  apply Flow.advances_ite <;> intro hf
  · apply Flow.advances_ite <;> intro h1
    · exact .brk _ _ rfl
    · apply Flow.advances_ite <;> intro h2
      · exact absurd ⟨hf, h2⟩ h3
      · apply Flow.advances_ite <;> intro h5
        · cases printStringLoop s MEM_SIZE (s.regs 6) [] with
          | ret output => exact .brk _ _ rfl
          | thrown what => exact .thrown _ _ _
          | diverges => exact .diverges _ _
        · exact .brk _ _ rfl
  · exact .brk _ _ rfl

end Z16Simulator

/-! ## Memory helpers (C1 – C3) -/

open Z16Simulator

/-- C1: for every simulator state, every address `addr ≤ 0xFFFE` and every
16-bit value `v`, `writeWord(addr, v)` returns normally and a following
`readWord(addr)` returns normally with exactly `v`. -/
theorem C1_writeWord_then_readWord (s : Z16Simulator) (addr v : Nat)
    (haddr : addr ≤ 0xFFFE) (hv : v < 65536) :
    (s.writeWord addr v).1 = .ret () ∧
      (s.writeWord addr v).2.readWord addr = .ret v := by
  have h1 : ¬ (addr + 1 ≥ MEM_SIZE) := by unfold MEM_SIZE; omega
  simp only [writeWord, readWord, if_neg h1, setMem, true_and]
  simp only [if_true, if_neg (show ¬ addr = addr + 1 by omega), toU8_natCast, toU16_natCast,
    and_255, Nat.shiftRight_eq_div_pow]
  rw [byte_or_shift _ _ (by omega)]
  congr 1
  omega

/-- Witness for C1 at the constructor state, address `0xFFFE`, value `0xBEEF`. -/
theorem C1_writeWord_then_readWord_witness :
    (init.writeWord 0xFFFE 0xBEEF).1 = .ret () ∧
      (init.writeWord 0xFFFE 0xBEEF).2.readWord 0xFFFE = .ret 0xBEEF :=
  C1_writeWord_then_readWord init 0xFFFE 0xBEEF (by decide) (by decide)

/-- C2: for every simulator state, every address `a ≤ 0xFFFE` and every 16-bit
value `v`, after `writeWord(a, v)` the byte at `a` is `v & 0xFF`, the byte at
`a + 1` is `(v >> 8) & 0xFF`, and every other memory byte is unchanged. -/
theorem C2_writeWord_little_endian_frame (s : Z16Simulator) (a v : Nat)
    (ha : a ≤ 0xFFFE) :
    (s.writeWord a v).2.memory a = v &&& 0xFF ∧
      (s.writeWord a v).2.memory (a + 1) = (v >>> 8) &&& 0xFF ∧
      ∀ x, x ≠ a → x ≠ a + 1 → (s.writeWord a v).2.memory x = s.memory x := by
  have h1 : ¬ (a + 1 ≥ MEM_SIZE) := by unfold MEM_SIZE; omega
  simp only [writeWord, if_neg h1, setMem, toU8_natCast, and_255]
  refine ⟨?_, ?_, ?_⟩
  · rw [if_neg (show ¬ a = a + 1 by omega), if_pos trivial]; omega
  · rw [if_pos trivial]; omega
  · intro x hx hx1
    rw [if_neg hx1, if_neg hx]

/-- Witness for C2 at the constructor state, address `0x1234`, value `0xBEEF`. -/
theorem C2_writeWord_little_endian_frame_witness :
    (init.writeWord 0x1234 0xBEEF).2.memory 0x1234 = 0xBEEF &&& 0xFF ∧
      (init.writeWord 0x1234 0xBEEF).2.memory (0x1234 + 1) = (0xBEEF >>> 8) &&& 0xFF ∧
      ∀ x, x ≠ 0x1234 → x ≠ 0x1234 + 1 →
        (init.writeWord 0x1234 0xBEEF).2.memory x = init.memory x :=
  C2_writeWord_little_endian_frame init 0x1234 0xBEEF (by decide)

/-- C3: for every 16-bit address `addr`, `readWord(addr)` and
`writeWord(addr, v)` throw their out-of-bounds `runtime_error` if and only if
`addr = 0xFFFF` (and return normally otherwise), a throwing `writeWord` leaves
the whole object, memory included, unchanged, and `readByte(addr)` and
`writeByte(addr, b)` return normally. -/
theorem C3_memory_bounds (s : Z16Simulator) (addr v b : Nat) (haddr : addr < 65536) :
    (s.readWord addr = .thrown "Memory read error: address out of bounds" ↔ addr = 0xFFFF) ∧
      (addr ≠ 0xFFFF → ∃ w, s.readWord addr = .ret w) ∧
      ((s.writeWord addr v).1 = .thrown "Memory write error: address out of bounds"
        ↔ addr = 0xFFFF) ∧
      (addr ≠ 0xFFFF → (s.writeWord addr v).1 = .ret ()) ∧
      (addr = 0xFFFF → (s.writeWord addr v).2 = s) ∧
      s.readByte addr = .ret (s.memory addr) ∧
      (s.writeByte addr b).1 = .ret () := by
  have hb : ¬ (addr ≥ MEM_SIZE) := by unfold MEM_SIZE; omega
  by_cases h : addr = 0xFFFF
  · subst h
    simp [readWord, writeWord, readByte, writeByte, MEM_SIZE]
  · have hw : ¬ (addr + 1 ≥ MEM_SIZE) := by unfold MEM_SIZE; omega
    simp [readWord, writeWord, readByte, writeByte, if_neg hb, if_neg hw, h]

/-- Witness for C3 at the constructor state and the last address `0xFFFF`. -/
theorem C3_memory_bounds_witness :
    (init.readWord 0xFFFF = .thrown "Memory read error: address out of bounds"
        ↔ 0xFFFF = 0xFFFF) ∧
      (0xFFFF ≠ 0xFFFF → ∃ w, init.readWord 0xFFFF = .ret w) ∧
      ((init.writeWord 0xFFFF 7).1 = .thrown "Memory write error: address out of bounds"
        ↔ 0xFFFF = 0xFFFF) ∧
      (0xFFFF ≠ 0xFFFF → (init.writeWord 0xFFFF 7).1 = .ret ()) ∧
      (0xFFFF = 0xFFFF → (init.writeWord 0xFFFF 7).2 = init) ∧
      init.readByte 0xFFFF = .ret (init.memory 0xFFFF) ∧
      (init.writeByte 0xFFFF 9).1 = .ret () :=
  C3_memory_bounds init 0xFFFF 7 9 (by decide)

/-! ## Branches (C4) -/

/-- C4: for every well-formed state and every B-type word (opcode 010), with
`off` the 4-bit field [15:12] sign-extended, the call returns normally and:
when the condition selected by
`funct3` fails, `pc' = pc + 2`; when it holds, `pc' = pc + 2*off + 2` for
beq/bne/blt/bge/bltu/bgeu and `pc' = pc + 2*off` for bz/bnz (all modulo 2^16);
registers and memory are unchanged in every case. -/
theorem C4_branch (s : Z16Simulator) (io : Cout) (inst : Nat) (hs : s.WF)
    (hop : inst &&& 0x7 = 0x2) :
    let e := s.executeInstruction io inst
    let a := s.regs (regField inst 6)
    let b := s.regs (regField inst 9)
    let off := sext4 ((inst >>> 12) &&& 0xF)
    let funct3 := (inst >>> 3) &&& 0x7
    let cond : Prop :=
      (funct3 = 0 ∧ a = b) ∨ (funct3 = 1 ∧ a ≠ b) ∨ (funct3 = 2 ∧ a = 0) ∨
      (funct3 = 3 ∧ a ≠ 0) ∨ (funct3 = 4 ∧ signed16 a < signed16 b) ∨
      (funct3 = 5 ∧ signed16 a ≥ signed16 b) ∨ (funct3 = 6 ∧ a < b) ∨ (funct3 = 7 ∧ a ≥ b)
    (∃ r, e.result = .ret r) ∧
      (¬ cond → (e.sim.pc : Int) = (s.pc + 2) % 65536) ∧
      (cond → funct3 ≠ 2 → funct3 ≠ 3 → (e.sim.pc : Int) = (s.pc + 2 * off + 2) % 65536) ∧
      (cond → (funct3 = 2 ∨ funct3 = 3) → (e.sim.pc : Int) = (s.pc + 2 * off) % 65536) ∧
      e.sim.regs = s.regs ∧ e.sim.memory = s.memory := by
  refine ⟨executeInstruction_returns s io inst (by simp [hop]), ?_⟩
  have hf : (inst >>> 3) &&& 0x7 < 8 := Nat.lt_succ_of_le Nat.and_le_right
  have hfield : (inst >>> 12) &&& 0xF < 16 := Nat.lt_succ_of_le Nat.and_le_right
  have ha := toI16_natCast _ (hs.regs_lt (regField inst 6))
  have hb := toI16_natCast _ (hs.regs_lt (regField inst 9))
  simp only [executeInstruction, execSwitch_B s io hop, execB, rawOffset_eq _ hfield, ha, hb]
  generalize (inst >>> 3) &&& 0x7 = funct3 at hf ⊢
  generalize sext4 ((inst >>> 12) &&& 0xF) = off
  generalize s.regs (regField inst 6) = a
  generalize s.regs (regField inst 9) = b
  interval_cases funct3
  all_goals simp only [branchTo, Nat.reduceEqDiff, if_true, if_false]
  all_goals
    split_ifs with h
    all_goals simp [h, toU16, ite_exec_sim]
    all_goals omega

/-- Witness for C4: `beq t0, t0, 1` (word `0x1002`) at the constructor state
is taken and lands on `pc = 4`. -/
theorem C4_branch_witness :
    init.WF ∧ 0x1002 &&& 0x7 = 0x2 ∧
      ((init.executeInstruction ⟨false, []⟩ 0x1002).sim.pc : Int) = 4 :=
  ⟨init_WF, by decide,
    ((C4_branch init ⟨false, []⟩ 0x1002 init_WF (by decide)).2.2.1
      (Or.inl ⟨by decide, by decide⟩) (by decide) (by decide)).trans (by decide)⟩

/-! ## R-type arithmetic and logic (C5) -/

/-- C5: for every well-formed state and every R-type word (opcode 000) that
encodes add, sub, slt, sltu, or, and, xor or mv, execution returns normally and
sets `regs[rd_rs1]`
to `(a+b) mod 2^16`, `(a-b) mod 2^16`, the signed or unsigned comparison flag,
`a|b`, `a&b`, `a^b`, or `b`, where `a`, `b` are the old `regs[rd_rs1]` and
`regs[rs2]` (the two fields may coincide); every other register and all memory
are unchanged. -/
theorem C5_rtype_alu (s : Z16Simulator) (io : Cout) (inst : Nat) (hs : s.WF)
    (hop : inst &&& 0x7 = 0x0) :
    let e := s.executeInstruction io inst
    let rd := regField inst 6
    let rs2 := regField inst 9
    let a := s.regs rd
    let b := s.regs rs2
    let funct4 := (inst >>> 12) &&& 0xF
    let funct3 := (inst >>> 3) &&& 0x7
    (∃ r, e.result = .ret r) ∧
      (funct4 = 0 ∧ funct3 = 0 → e.sim.regs rd = (a + b) % 65536) ∧
      (funct4 = 1 ∧ funct3 = 0 → (e.sim.regs rd : Int) = ((a : Int) - b) % 65536) ∧
      (funct4 = 0 ∧ funct3 = 1 → e.sim.regs rd = if signed16 a < signed16 b then 1 else 0) ∧
      (funct4 = 0 ∧ funct3 = 2 → e.sim.regs rd = if a < b then 1 else 0) ∧
      (funct4 = 1 ∧ funct3 = 4 → e.sim.regs rd = a ||| b) ∧
      (funct4 = 0 ∧ funct3 = 5 → e.sim.regs rd = a &&& b) ∧
      (funct4 = 0 ∧ funct3 = 6 → e.sim.regs rd = a ^^^ b) ∧
      (funct4 = 0 ∧ funct3 = 7 → e.sim.regs rd = b) ∧
      ((funct4 = 0 ∧ funct3 = 0) ∨ (funct4 = 1 ∧ funct3 = 0) ∨ (funct4 = 0 ∧ funct3 = 1) ∨
          (funct4 = 0 ∧ funct3 = 2) ∨ (funct4 = 1 ∧ funct3 = 4) ∨ (funct4 = 0 ∧ funct3 = 5) ∨
          (funct4 = 0 ∧ funct3 = 6) ∨ (funct4 = 0 ∧ funct3 = 7) →
        (∀ r, r ≠ rd → e.sim.regs r = s.regs r) ∧ e.sim.memory = s.memory) := by
  refine ⟨executeInstruction_returns s io inst (by simp [hop]), ?_⟩
  have ha := hs.regs_lt (regField inst 6)
  have hb := hs.regs_lt (regField inst 9)
  have hsa := toI16_natCast _ ha
  have hsb := toI16_natCast _ hb
  have hor : s.regs (regField inst 6) ||| s.regs (regField inst 9) < 65536 :=
    Nat.or_lt_two_pow (n := 16) ha hb
  have hand : s.regs (regField inst 6) &&& s.regs (regField inst 9) < 65536 :=
    Nat.and_lt_two_pow (n := 16) _ hb
  have hxor : s.regs (regField inst 6) ^^^ s.regs (regField inst 9) < 65536 :=
    Nat.xor_lt_two_pow (n := 16) ha hb
  simp only [executeInstruction, execSwitch_R s io hop, execR, hsa, hsb]
  generalize (inst >>> 3) &&& 0x7 = funct3
  generalize (inst >>> 12) &&& 0xF = funct4
  generalize s.regs (regField inst 9) = b at *
  refine ⟨?_, ?_, ?_, ?_, ?_, ?_, ?_, ?_, ?_⟩
  · rintro ⟨h4, h3⟩
    subst h4 h3
    simp [setReg, ite_exec_sim, toU16]
    omega
  · rintro ⟨h4, h3⟩
    subst h4 h3
    simp [setReg, ite_exec_sim, toU16]
    omega
  · rintro ⟨h4, h3⟩
    subst h4 h3
    simp [setReg, ite_exec_sim]
  · rintro ⟨h4, h3⟩
    subst h4 h3
    simp [setReg, ite_exec_sim]
  · rintro ⟨h4, h3⟩
    subst h4 h3
    simp [setReg, ite_exec_sim, toU16_natCast]
    omega
  · rintro ⟨h4, h3⟩
    subst h4 h3
    simp [setReg, ite_exec_sim, toU16_natCast]
    omega
  · rintro ⟨h4, h3⟩
    subst h4 h3
    simp [setReg, ite_exec_sim, toU16_natCast]
    omega
  · rintro ⟨h4, h3⟩
    subst h4 h3
    simp [setReg, ite_exec_sim]
  · intro h
    rcases h with h | h | h | h | h | h | h | h <;> obtain ⟨h4, h3⟩ := h <;> subst h4 h3 <;>
      simp +contextual [setReg, ite_exec_sim]

/-- Witness for C5: `add t0, ra` (word `0x0200`) with `t0 = 0xFFFF`, `ra = 7`
wraps around to `t0 = 6`. -/
theorem C5_rtype_alu_witness :
    ((init.setReg 0 0xFFFF).setReg 1 7).WF ∧ 0x0200 &&& 0x7 = 0x0 ∧
      ((((init.setReg 0 0xFFFF).setReg 1 7).executeInstruction ⟨false, []⟩ 0x0200).sim.regs
        (regField 0x0200 6)) = 6 :=
  ⟨(init_WF.setReg 0 (by decide)).setReg 1 (by decide), by decide,
    ((C5_rtype_alu ((init.setReg 0 0xFFFF).setReg 1 7) ⟨false, []⟩ 0x0200
      ((init_WF.setReg 0 (by decide)).setReg 1 (by decide)) (by decide)).2.1
      ⟨by decide, by decide⟩).trans (by decide)⟩

/-! ## Shifts (C6) -/

theorem sll_val (x n : Nat) : toU16 ((x <<< n : Nat)) = (x * 2 ^ n) % 65536 := by
  rw [toU16_natCast, Nat.shiftLeft_eq]

theorem srl_val (x n : Nat) (hx : x < 65536) (hn : n < 16) :
    toU16 ((x >>> n : Nat)) = x / 2 ^ n ∧ x / 2 ^ n < 2 ^ (16 - n) := by
  rw [toU16_natCast, Nat.shiftRight_eq_div_pow]
  interval_cases n <;> simp <;> omega

theorem sra_val (x n : Nat) (hx : x < 65536) (hn : n < 16) :
    ((toU16 (Int.shiftRight (toI16 x) n) : Nat) : Int) = (Int.fdiv (signed16 x) (2 ^ n)) % 65536 ∧
      (32768 ≤ toU16 (Int.shiftRight (toI16 x) n) ↔ 32768 ≤ x) := by
  have h : Int.shiftRight (toI16 x) n = signed16 x / ((2 ^ n : Nat) : Int) := by
    rw [toI16_natCast x hx]
    exact Int.shiftRight_eq_div_pow _ _
  rw [h, Int.fdiv_eq_ediv _ (by positivity)]
  unfold toU16 signed16
  interval_cases n <;> simp <;> split <;> omega

theorem shamt_eq (y : Nat) : (y &&& 0x7F) &&& 0xF = y &&& 0xF := by
  rw [Nat.and_assoc]; rfl

/-- C6: for every well-formed state, with `x` the old `regs[rd_rs1]` and `n`
the shift amount (`regs[rs2] & 0xF` for sll/srl/sra, bits [12:9] of the word
for slli/srli/srai selected by `imm3` = 001/010/100), `n` is at most 15 and the
register afterwards is `(x * 2^n) mod 2^16` for a left shift, `floor(x / 2^n)`
with the top `n` bits zero for a logical right shift, and the 16-bit
two's-complement encoding of `floor(signed16(x) / 2^n)` for an arithmetic right
shift, whose sign bit is the sign bit of `x`. -/
theorem C6_shifts (s : Z16Simulator) (io : Cout) (inst : Nat) (hs : s.WF) :
    let e := s.executeInstruction io inst
    let rd := regField inst 6
    let x := s.regs rd
    let opcode := inst &&& 0x7
    let funct3 := (inst >>> 3) &&& 0x7
    let funct4 := (inst >>> 12) &&& 0xF
    let imm3 := (inst >>> 13) &&& 0x7
    let n := if opcode = 0 then s.regs (regField inst 9) &&& 0xF else (inst >>> 9) &&& 0xF
    let isSll := (opcode = 0 ∧ funct4 = 2 ∧ funct3 = 3) ∨ (opcode = 1 ∧ funct3 = 3 ∧ imm3 = 1)
    let isSrl := (opcode = 0 ∧ funct4 = 4 ∧ funct3 = 3) ∨ (opcode = 1 ∧ funct3 = 3 ∧ imm3 = 2)
    let isSra := (opcode = 0 ∧ funct4 = 8 ∧ funct3 = 3) ∨ (opcode = 1 ∧ funct3 = 3 ∧ imm3 = 4)
    n ≤ 15 ∧
      (isSll → e.sim.regs rd = (x * 2 ^ n) % 65536) ∧
      (isSrl → e.sim.regs rd = x / 2 ^ n ∧ e.sim.regs rd < 2 ^ (16 - n)) ∧
      (isSra → (e.sim.regs rd : Int) = (Int.fdiv (signed16 x) (2 ^ n)) % 65536 ∧
        (32768 ≤ e.sim.regs rd ↔ 32768 ≤ x)) := by
  have hx := hs.regs_lt (regField inst 6)
  have hnR : s.regs (regField inst 9) &&& 0xF < 16 := Nat.lt_succ_of_le Nat.and_le_right
  have hnI : (inst >>> 9) &&& 0xF < 16 := Nat.lt_succ_of_le Nat.and_le_right
  refine ⟨?_, ?_, ?_, ?_⟩
  · show (if inst &&& 0x7 = 0 then _ else _) ≤ 15
    split <;> omega
  · rintro (⟨hop, h4, h3⟩ | ⟨hop, h3, him⟩)
    · simp [executeInstruction, execSwitch_R s io hop, hop, execR, h4, h3, setReg, ite_exec_sim, sll_val]
    · simp [executeInstruction, execSwitch_I s io hop, hop, execI, h3, him, setReg, ite_exec_sim, sll_val,
        shamt_eq]
  · rintro (⟨hop, h4, h3⟩ | ⟨hop, h3, him⟩)
    · have := srl_val _ _ hx hnR
      simp [executeInstruction, execSwitch_R s io hop, hop, execR, h4, h3, setReg, ite_exec_sim, this]
    · have := srl_val _ _ hx hnI
      simp [executeInstruction, execSwitch_I s io hop, hop, execI, h3, him, setReg, ite_exec_sim, this,
        shamt_eq]
  · rintro (⟨hop, h4, h3⟩ | ⟨hop, h3, him⟩)
    · have := sra_val _ _ hx hnR
      simpa [executeInstruction, execSwitch_R s io hop, hop, execR, h4, h3, setReg, ite_exec_sim] using this
    · have := sra_val _ _ hx hnI
      simpa [executeInstruction, execSwitch_I s io hop, hop, execI, h3, him, setReg, ite_exec_sim,
        shamt_eq] using this

/-- Witness for C6: `srai t0, 1` (word `0x8219`) on `t0 = 0x8000` gives
`0xC000`, keeping the sign bit. -/
theorem C6_shifts_witness :
    (init.setReg 0 0x8000).WF ∧
      (((init.setReg 0 0x8000).executeInstruction ⟨false, []⟩ 0x8219).sim.regs
        (regField 0x8219 6) : Int) = 0xC000 :=
  ⟨init_WF.setReg 0 (by decide),
    ((C6_shifts (init.setReg 0 0x8000) ⟨false, []⟩ 0x8219
      (init_WF.setReg 0 (by decide))).2.2.2
      (Or.inr ⟨by decide, by decide, by decide⟩)).1.trans (by decide)⟩

/-! ## I-type immediates (C7, C8) -/

theorem simm_eq (imm7 : Nat) (h : imm7 < 128) :
    toI16 (if imm7 &&& 0x40 ≠ 0 then ((imm7 ||| 0xFF80 : Nat) : Int) else imm7) = sext7 imm7 := by
  interval_cases imm7 <;> decide

theorem testBit_toU16 (z : Int) (i : Nat) :
    (toU16 z).testBit i = (decide (i < 16) && z.testBit i) := by
  cases z with
  | ofNat m =>
    have h : toU16 (Int.ofNat m) = m % 2 ^ 16 := by
      simp only [Int.ofNat_eq_coe, toU16_natCast]; rfl
    rw [h, Nat.testBit_mod_two_pow]
    rfl
  | negSucc m =>
    have h : toU16 (Int.negSucc m) = 2 ^ 16 - (m % 2 ^ 16 + 1) := by
      unfold toU16
      rw [Int.negSucc_eq]
      simp only [Nat.reducePow]
      omega
    rw [h, Nat.testBit_two_pow_sub_succ (Nat.mod_lt _ (by decide)), Nat.testBit_mod_two_pow]
    by_cases hi : i < 16 <;> simp [hi, Int.testBit]

theorem testBit_u16_high (a i : Nat) (ha : a < 65536) (hi : ¬ i < 16) : a.testBit i = false :=
  Nat.testBit_lt_two_pow (Nat.lt_of_lt_of_le ha
    (Nat.pow_le_pow_right (by decide) (Nat.le_of_not_lt hi) : 2 ^ 16 ≤ 2 ^ i))

theorem lor_u16 (a : Nat) (z : Int) (ha : a < 65536) :
    toU16 (Int.lor a z) = a ||| toU16 z := by
  apply Nat.eq_of_testBit_eq
  intro i
  rw [testBit_toU16, Int.testBit_lor, Nat.testBit_or, testBit_toU16]
  by_cases hi : i < 16
  · simp [hi, Int.testBit]
  · simp [hi, testBit_u16_high a i ha hi]

theorem land_u16 (a : Nat) (z : Int) (ha : a < 65536) :
    toU16 (Int.land a z) = a &&& toU16 z := by
  apply Nat.eq_of_testBit_eq
  intro i
  rw [testBit_toU16, Int.testBit_land, Nat.testBit_and, testBit_toU16]
  by_cases hi : i < 16
  · simp [hi, Int.testBit]
  · simp [hi, testBit_u16_high a i ha hi]

theorem xor_u16 (a : Nat) (z : Int) (ha : a < 65536) :
    toU16 (Int.xor a z) = a ^^^ toU16 z := by
  apply Nat.eq_of_testBit_eq
  intro i
  rw [testBit_toU16, Int.testBit_lxor, Nat.testBit_xor, testBit_toU16]
  by_cases hi : i < 16
  · simp [hi, Int.testBit]
  · simp [hi, testBit_u16_high a i ha hi]

/-- C7: for every well-formed state and every I-type word (opcode 001) with
`funct3` one of 000 addi, 001 slti, 100 ori, 101 andi, 110 xori, 111 li, with
`simm` the 7-bit field [15:9] sign-extended from bit 6 (range -64..63), the
call returns normally and
`regs[rd_rs1]` becomes `(old + simm) mod 2^16`, the signed comparison flag,
`old | simm`, `old & simm`, `old ^ simm` (with `simm` as a 16-bit pattern), or
`simm` as 16-bit two's complement; other registers and memory are unchanged.
In particular addi with immediate -1 on a register holding 0 yields 0xFFFF. -/
theorem C7_itype_immediate (s : Z16Simulator) (io : Cout) (inst : Nat) (hs : s.WF)
    (hop : inst &&& 0x7 = 0x1) :
    let e := s.executeInstruction io inst
    let rd := regField inst 6
    let old := s.regs rd
    let simm := sext7 ((inst >>> 9) &&& 0x7F)
    let funct3 := (inst >>> 3) &&& 0x7
    (∃ r, e.result = .ret r) ∧ (-64 ≤ simm ∧ simm ≤ 63) ∧
      (funct3 = 0 → (e.sim.regs rd : Int) = (old + simm) % 65536) ∧
      (funct3 = 1 → e.sim.regs rd = if signed16 old < simm then 1 else 0) ∧
      (funct3 = 4 → e.sim.regs rd = old ||| (simm % 65536).toNat) ∧
      (funct3 = 5 → e.sim.regs rd = old &&& (simm % 65536).toNat) ∧
      (funct3 = 6 → e.sim.regs rd = old ^^^ (simm % 65536).toNat) ∧
      (funct3 = 7 → (e.sim.regs rd : Int) = simm % 65536) ∧
      (funct3 = 0 ∨ funct3 = 1 ∨ funct3 = 4 ∨ funct3 = 5 ∨ funct3 = 6 ∨ funct3 = 7 →
        (∀ r, r ≠ rd → e.sim.regs r = s.regs r) ∧ e.sim.memory = s.memory) ∧
      (funct3 = 0 → old = 0 → simm = -1 → e.sim.regs rd = 0xFFFF) := by
  refine ⟨executeInstruction_returns s io inst (by simp [hop]), ?_⟩
  have hold := hs.regs_lt (regField inst 6)
  have himm : (inst >>> 9) &&& 0x7F < 128 := Nat.lt_succ_of_le Nat.and_le_right
  have hsold := toI16_natCast _ hold
  simp only [executeInstruction, execSwitch_I s io hop, execI, simm_eq _ himm, hsold,
    lor_u16 _ _ hold, land_u16 _ _ hold, xor_u16 _ _ hold]
  have hrange : -64 ≤ sext7 ((inst >>> 9) &&& 0x7F) ∧ sext7 ((inst >>> 9) &&& 0x7F) ≤ 63 := by
    unfold sext7; split <;> omega
  generalize sext7 ((inst >>> 9) &&& 0x7F) = simm at hrange ⊢
  generalize (inst >>> 3) &&& 0x7 = funct3
  generalize s.regs (regField inst 6) = old at hold ⊢
  refine ⟨hrange, ?_, ?_, ?_, ?_, ?_, ?_, ?_, ?_⟩
  · rintro rfl
    simp [setReg, ite_exec_sim, toU16]
    omega
  · rintro rfl
    simp [setReg, ite_exec_sim]
  · rintro rfl
    simp [setReg, ite_exec_sim, toU16]
  · rintro rfl
    simp [setReg, ite_exec_sim, toU16]
  · rintro rfl
    simp [setReg, ite_exec_sim, toU16]
  · rintro rfl
    simp [setReg, ite_exec_sim, toU16]
    omega
  · intro h
    rcases h with h | h | h | h | h | h <;> subst h <;>
      simp +contextual [setReg, ite_exec_sim]
  · rintro rfl h0 h1
    subst h0 h1
    simp [setReg, ite_exec_sim, toU16]

/-- Witness for C7: `addi t0, -1` (word `0xFE01`) at the constructor state,
where `t0 = 0`, yields `t0 = 0xFFFF`. -/
theorem C7_itype_immediate_witness :
    init.WF ∧ 0xFE01 &&& 0x7 = 0x1 ∧
      (init.executeInstruction ⟨false, []⟩ 0xFE01).sim.regs (regField 0xFE01 6) = 0xFFFF :=
  ⟨init_WF, by decide,
    (C7_itype_immediate init ⟨false, []⟩ 0xFE01 init_WF (by decide)).2.2.2.2.2.2.2.2.2
      (by decide) (by decide) (by decide)⟩

/-- C8: for every well-formed state and every I-type word with `funct3 = 010`
(sltui), the call returns normally and `regs[rd_rs1]` becomes 1 if its old value is below, as unsigned 16-bit
numbers, the 7-bit immediate sign-extended to 16 bits and reinterpreted as
unsigned, and 0 otherwise; immediates `0x40..0x7F` therefore compare against
`0xFFC0..0xFFFF`, and the outcome differs from a comparison against the
zero-extended field whenever `imm7 ≥ 0x40` and `imm7 ≤ old < 0xFF80 + imm7`. -/
theorem C8_sltui (s : Z16Simulator) (io : Cout) (inst : Nat) (hs : s.WF)
    (hop : inst &&& 0x7 = 0x1) (hf : (inst >>> 3) &&& 0x7 = 0x2) :
    let e := s.executeInstruction io inst
    let rd := regField inst 6
    let old := s.regs rd
    let imm7 := (inst >>> 9) &&& 0x7F
    let uimm := (sext7 imm7 % 65536).toNat
    (∃ r, e.result = .ret r) ∧
      e.sim.regs rd = (if old < uimm then 1 else 0) ∧
      (0x40 ≤ imm7 → uimm = 0xFF80 + imm7 ∧ 0xFFC0 ≤ uimm ∧ uimm ≤ 0xFFFF) ∧
      (imm7 < 0x40 → uimm = imm7) ∧
      (0x40 ≤ imm7 → imm7 ≤ old → old < 0xFF80 + imm7 →
        e.sim.regs rd = 1 ∧ ¬ old < imm7) := by
  have hold := hs.regs_lt (regField inst 6)
  have himm : (inst >>> 9) &&& 0x7F < 128 := Nat.lt_succ_of_le Nat.and_le_right
  have hu : toU16 (s.regs (regField inst 6) : Int) = s.regs (regField inst 6) := by
    rw [toU16_natCast]; omega
  have key : (s.executeInstruction io inst).sim.regs (regField inst 6) =
      if s.regs (regField inst 6) < (sext7 ((inst >>> 9) &&& 0x7F) % 65536).toNat then 1
      else 0 := by
    simp only [executeInstruction, execSwitch_I s io hop, execI, hf, simm_eq _ himm, hu]
    simp only [setReg, Nat.reduceEqDiff, Bool.false_eq_true, if_false, ite_exec_sim, if_true]
    rfl
  intro e rd old imm7 uimm
  have hlow : imm7 < 0x40 → uimm = imm7 := by
    intro h
    show (sext7 imm7 % 65536).toNat = imm7
    unfold sext7
    rw [if_pos (by omega)]
    omega
  have hhigh : 0x40 ≤ imm7 → uimm = 0xFF80 + imm7 := by
    intro h
    show (sext7 imm7 % 65536).toNat = 0xFF80 + imm7
    unfold sext7
    rw [if_neg (by omega)]
    omega
  refine ⟨executeInstruction_returns s io inst (by simp [hop]), key, fun h => ⟨hhigh h, ?_, ?_⟩, hlow, fun h h1 h2 => ⟨?_, by omega⟩⟩
  · rw [hhigh h]; omega
  · rw [hhigh h]; omega
  · show (s.executeInstruction io inst).sim.regs (regField inst 6) = 1
    rw [key]
    exact if_pos (by
      show old < uimm
      rw [hhigh h]
      exact h2)

/-- Witness for C8: `sltui t0, 0x40` (word `0x8011`) on `t0 = 0x0100` sets
`t0 = 1`, although `0x0100` is not below the zero-extended field `0x40`. -/
theorem C8_sltui_witness :
    (init.setReg 0 0x100).WF ∧ 0x8011 &&& 0x7 = 0x1 ∧ (0x8011 >>> 3) &&& 0x7 = 0x2 ∧
      ((init.setReg 0 0x100).executeInstruction ⟨false, []⟩ 0x8011).sim.regs
        (regField 0x8011 6) = 1 :=
  ⟨init_WF.setReg 0 (by decide), by decide, by decide,
    ((C8_sltui (init.setReg 0 0x100) ⟨false, []⟩ 0x8011 (init_WF.setReg 0 (by decide))
      (by decide) (by decide)).2.2.2.2 (by decide) (by decide) (by decide)).1⟩

/-! ## Jumps (C9, C10) -/

theorem rawImm_eq (c : Nat) (hc : c < 512) :
    (if c &&& (1 <<< 8) ≠ 0 then toI16 ((c ||| 0xFE00 : Nat)) else toI16 c) = sext9 c := by
  interval_cases c <;> decide

theorem jimm_lt (inst : Nat) :
    ((inst >>> 3) &&& 0x7) ||| (((inst >>> 9) &&& 0x3F) <<< 3) < 512 := by
  have h3 : (inst >>> 3) &&& 0x7 < 8 := Nat.lt_succ_of_le Nat.and_le_right
  have h6 : (inst >>> 9) &&& 0x3F < 64 := Nat.lt_succ_of_le Nat.and_le_right
  refine Nat.or_lt_two_pow (n := 9) (by omega) ?_
  rw [Nat.shiftLeft_eq]
  omega

/-- C9: for every state and every J-type word (opcode 101), with `imm` the
9-bit value `(imm6 << 3) | imm3` sign-extended from bit 8 (range -256..255),
the call returns normally and
`pc' = (pc + 2*imm) mod 2^16`; for `f = 0` (j) no register changes; for `f = 1`
(jal) `regs[rd] = (pc + 2) mod 2^16` and no other register changes; memory is
unchanged in both cases. -/
theorem C9_jump (s : Z16Simulator) (io : Cout) (inst : Nat) (hop : inst &&& 0x7 = 0x5) :
    let e := s.executeInstruction io inst
    let f := (inst >>> 15) &&& 0x1
    let imm6 := (inst >>> 9) &&& 0x3F
    let imm3 := (inst >>> 3) &&& 0x7
    let rd := regField inst 6
    let imm := sext9 ((imm6 <<< 3) ||| imm3)
    (∃ r, e.result = .ret r) ∧ (-256 ≤ imm ∧ imm ≤ 255) ∧ (f = 0 ∨ f = 1) ∧
      (e.sim.pc : Int) = (s.pc + 2 * imm) % 65536 ∧
      (f = 0 → e.sim.regs = s.regs) ∧
      (f = 1 → e.sim.regs rd = (s.pc + 2) % 65536 ∧ ∀ r, r ≠ rd → e.sim.regs r = s.regs r) ∧
      e.sim.memory = s.memory := by
  refine ⟨executeInstruction_returns s io inst (by simp [hop]), ?_⟩
  have hc := jimm_lt inst
  have hf : (inst >>> 15) &&& 0x1 < 2 := Nat.lt_succ_of_le Nat.and_le_right
  simp only [executeInstruction, execSwitch_J s io hop, execJ, rawImm_eq _ hc]
  rw [Nat.or_comm ((inst >>> 3) &&& 0x7)] at hc ⊢
  have hrange : -256 ≤ sext9 ((((inst >>> 9) &&& 0x3F) <<< 3) ||| ((inst >>> 3) &&& 0x7)) ∧
      sext9 ((((inst >>> 9) &&& 0x3F) <<< 3) ||| ((inst >>> 3) &&& 0x7)) ≤ 255 := by
    unfold sext9; split <;> omega
  generalize sext9 ((((inst >>> 9) &&& 0x3F) <<< 3) ||| ((inst >>> 3) &&& 0x7)) = imm
    at hrange ⊢
  generalize (inst >>> 15) &&& 0x1 = f at hf ⊢
  refine ⟨hrange, by omega, ?_⟩
  interval_cases f
  · simp [ite_exec_sim, toU16]
    omega
  · simp +contextual [ite_exec_sim, toU16, setReg]
    omega

/-- Witness for C9: `jal ra, -1` (word `0xFE7D`) at `pc = 0` links `ra = 2` and
jumps to `0xFFFE`. -/
theorem C9_jump_witness :
    0xFE7D &&& 0x7 = 0x5 ∧
      ((init.executeInstruction ⟨false, []⟩ 0xFE7D).sim.pc : Int) = 0xFFFE ∧
      (init.executeInstruction ⟨false, []⟩ 0xFE7D).sim.regs (regField 0xFE7D 6) = 2 :=
  ⟨by decide,
    (C9_jump init ⟨false, []⟩ 0xFE7D (by decide)).2.2.2.1.trans (by decide),
    ((C9_jump init ⟨false, []⟩ 0xFE7D (by decide)).2.2.2.2.2.1 (by decide)).1.trans (by decide)⟩

/-- C10: for every state the call returns normally; jr (R-type,
funct4 = 0100, funct3 = 000) sets
`pc' = regs[rd_rs1]` and changes no register; jalr (funct4 = 1000,
funct3 = 000) sets `regs[rd_rs1] = (pc + 2) mod 2^16` and then `pc'` to
`regs[rs2]` as read after that write, which is the old `regs[rs2]` when
`rs2 ≠ rd_rs1` and `(pc + 2) mod 2^16` when `rs2 = rd_rs1`; no other register
and no memory byte changes. -/
theorem C10_jr_jalr (s : Z16Simulator) (io : Cout) (inst : Nat)
    (hop : inst &&& 0x7 = 0x0) (h3 : (inst >>> 3) &&& 0x7 = 0x0) :
    let e := s.executeInstruction io inst
    let rd := regField inst 6
    let rs2 := regField inst 9
    let funct4 := (inst >>> 12) &&& 0xF
    (∃ r, e.result = .ret r) ∧
      (funct4 = 4 → e.sim.pc = s.regs rd ∧ e.sim.regs = s.regs ∧ e.sim.memory = s.memory) ∧
      (funct4 = 8 →
        e.sim.regs rd = (s.pc + 2) % 65536 ∧
        e.sim.pc = e.sim.regs rs2 ∧
        (rs2 ≠ rd → e.sim.pc = s.regs rs2) ∧
        (rs2 = rd → e.sim.pc = (s.pc + 2) % 65536) ∧
        (∀ r, r ≠ rd → e.sim.regs r = s.regs r) ∧
        e.sim.memory = s.memory) := by
  refine ⟨executeInstruction_returns s io inst (by simp [hop]), ?_⟩
  simp only [executeInstruction, execSwitch_R s io hop, execR, h3]
  generalize (inst >>> 12) &&& 0xF = funct4
  refine ⟨?_, ?_⟩
  · rintro rfl
    simp [ite_exec_sim]
  · rintro rfl
    simp +contextual [ite_exec_sim, setReg, toU16]
    omega

/-- Witness for C10: `jalr` with `rd_rs1 = rs2 = ra` (word `0x8240`) at
`pc = 0` links `ra = 2` and then jumps to the freshly written `ra`, so
`pc' = 2`. -/
theorem C10_jr_jalr_witness :
    0x8240 &&& 0x7 = 0x0 ∧ (0x8240 >>> 3) &&& 0x7 = 0x0 ∧
      (init.executeInstruction ⟨false, []⟩ 0x8240).sim.pc = 2 :=
  ⟨by decide, by decide,
    ((C10_jr_jalr init ⟨false, []⟩ 0x8240 (by decide) (by decide)).2.2 (by decide)).2.2.2.1
      (by decide)⟩

/-! ## Stores and loads (C13 – C15) -/

theorem toI8_field (f : Nat) (hf : f < 16) : toI8 (f : Int) = f := by
  unfold toI8; split <;> omega

theorem field4_lt (inst : Nat) : (inst >>> 12) &&& 0xF < 16 :=
  Nat.lt_succ_of_le Nat.and_le_right

/-- C14: for every state and every S-type word, with
`addr = (regs[rs1] + offset) mod 2^16` where `offset` is the field [15:12] read
as 0..15 (so in particular for offset fields 0..7): sb (funct3 = 000) returns
normally, sets `memory[addr]` to `regs[rs2] & 0xFF` and changes no other byte;
sw (funct3 = 001), when `addr ≠ 0xFFFF`, returns normally, sets `memory[addr]`
to the low byte and `memory[addr+1]` to the high byte of `regs[rs2]` and
changes no other byte.  In both cases every register is unchanged and `pc`
advances by 2 (mod 2^16). -/
theorem C14_store (s : Z16Simulator) (io : Cout) (inst : Nat)
    (hop : inst &&& 0x7 = 0x3) :
    let e := s.executeInstruction io inst
    let rs1 := regField inst 6
    let rs2 := regField inst 9
    let funct3 := (inst >>> 3) &&& 0x7
    let addr := (s.regs rs1 + ((inst >>> 12) &&& 0xF)) % 65536
    (funct3 = 0 →
        (∃ r, e.result = .ret r) ∧
        e.sim.memory addr = s.regs rs2 &&& 0xFF ∧
        (∀ x, x ≠ addr → e.sim.memory x = s.memory x) ∧
        e.sim.regs = s.regs ∧ e.sim.pc = (s.pc + 2) % 65536) ∧
      (funct3 = 1 → addr ≠ 0xFFFF →
        (∃ r, e.result = .ret r) ∧
        e.sim.memory addr = s.regs rs2 &&& 0xFF ∧
        e.sim.memory (addr + 1) = (s.regs rs2 >>> 8) &&& 0xFF ∧
        (∀ x, x ≠ addr → x ≠ addr + 1 → e.sim.memory x = s.memory x) ∧
        e.sim.regs = s.regs ∧ e.sim.pc = (s.pc + 2) % 65536) := by
  have hfld := toI8_field _ (field4_lt inst)
  have haddr : toU16 ((s.regs (regField inst 6) : Int) + (((inst >>> 12) &&& 0xF : Nat) : Int)) =
      (s.regs (regField inst 6) + ((inst >>> 12) &&& 0xF)) % 65536 := by
    unfold toU16; omega
  have hlt : (s.regs (regField inst 6) + ((inst >>> 12) &&& 0xF)) % 65536 < 65536 :=
    Nat.mod_lt _ (by decide)
  simp only [executeInstruction, execSwitch_S s io hop, execS, hfld, haddr]
  generalize (s.regs (regField inst 6) + ((inst >>> 12) &&& 0xF)) % 65536 = addr at hlt ⊢
  generalize (inst >>> 3) &&& 0x7 = funct3
  have hb : ¬ addr ≥ MEM_SIZE := by unfold MEM_SIZE; omega
  refine ⟨?_, ?_⟩
  · rintro rfl
    simp only [if_true, writeByte, if_neg hb, afterWrite, Bool.false_eq_true, if_false,
      ite_exec_sim, setMem, toU8_natCast, and_255]
    refine ⟨ite_exec_result _ _ _ _ _ _ _, ?_, ?_, ?_⟩
    · omega
    · intro x hx; rw [if_neg hx]
    · refine ⟨trivial, ?_⟩
      unfold toU16; omega
  · rintro rfl hne
    have hw : ¬ addr + 1 ≥ MEM_SIZE := by unfold MEM_SIZE; omega
    simp only [Nat.reduceEqDiff, if_true, if_false, writeWord, if_neg hw, afterWrite,
      Bool.false_eq_true, ite_exec_sim, setMem, toU8_natCast, and_255]
    refine ⟨ite_exec_result _ _ _ _ _ _ _, ?_, ?_, ?_, ?_⟩
    · rw [if_neg (by omega)]; omega
    · omega
    · intro x hx hx1; rw [if_neg hx1, if_neg hx]
    · refine ⟨trivial, ?_⟩
      unfold toU16; omega

/-- Witness for C14: `sw t0, 2(s0)` (word `0x20CB`) with `s0 = 0x0100` and
`t0 = 0xBEEF` stores `0xEF` at `0x0102` and `0xBE` at `0x0103`. -/
theorem C14_store_witness :
    0x20CB &&& 0x7 = 0x3 ∧
      (((init.setReg 3 0x100).setReg 0 0xBEEF).executeInstruction ⟨false, []⟩ 0x20CB).sim.memory
        0x0102 = 0xEF ∧
      (((init.setReg 3 0x100).setReg 0 0xBEEF).executeInstruction ⟨false, []⟩ 0x20CB).sim.memory
        0x0103 = 0xBE :=
  ⟨by decide,
    ((C14_store ((init.setReg 3 0x100).setReg 0 0xBEEF) ⟨false, []⟩ 0x20CB (by decide)).2
      (by decide) (by decide)).2.1.trans (by decide),
    ((C14_store ((init.setReg 3 0x100).setReg 0 0xBEEF) ⟨false, []⟩ 0x20CB (by decide)).2
      (by decide) (by decide)).2.2.1.trans (by decide)⟩

/-- C15: for every well-formed state and every L-type word, with
`addr = (regs[rs2] + offset) mod 2^16` where `offset` is the field [15:12] read
as 0..15 (so in particular for offset fields 0..7) and `rd` the field [8:6]:
lb (funct3 = 000) sets `regs[rd]` to `memory[addr]` sign-extended from bit 7
to 16 bits; lbu (funct3 = 100) sets it to `memory[addr]` (at most `0x00FF`);
lw (funct3 = 001), when `addr ≠ 0xFFFF`, sets it to
`memory[addr] | (memory[addr+1] << 8)`.  The call returns normally, no other
register and no memory byte changes, and `pc` advances by 2 (mod 2^16). -/
theorem C15_load (s : Z16Simulator) (io : Cout) (inst : Nat) (hs : s.WF)
    (hop : inst &&& 0x7 = 0x4) :
    let e := s.executeInstruction io inst
    let rs2 := regField inst 9
    let rd := regField inst 6
    let funct3 := (inst >>> 3) &&& 0x7
    let addr := (s.regs rs2 + ((inst >>> 12) &&& 0xF)) % 65536
    let frame : Prop :=
      (∃ r, e.result = .ret r) ∧ (∀ r, r ≠ rd → e.sim.regs r = s.regs r) ∧
      e.sim.memory = s.memory ∧ e.sim.pc = (s.pc + 2) % 65536
    (funct3 = 0 →
        e.sim.regs rd =
          (if s.memory addr < 128 then s.memory addr else s.memory addr + 0xFF00) ∧ frame) ∧
      (funct3 = 4 → e.sim.regs rd = s.memory addr ∧ e.sim.regs rd ≤ 0x00FF ∧ frame) ∧
      (funct3 = 1 → addr ≠ 0xFFFF →
        e.sim.regs rd = s.memory addr ||| (s.memory (addr + 1) <<< 8) ∧ frame) := by
  have hfld := toI8_field _ (field4_lt inst)
  have haddr : toU16 ((s.regs (regField inst 9) : Int) + (((inst >>> 12) &&& 0xF : Nat) : Int)) =
      (s.regs (regField inst 9) + ((inst >>> 12) &&& 0xF)) % 65536 := by
    unfold toU16; omega
  have hlt : (s.regs (regField inst 9) + ((inst >>> 12) &&& 0xF)) % 65536 < 65536 :=
    Nat.mod_lt _ (by decide)
  simp only [executeInstruction, execSwitch_L s io hop, execL, hfld, haddr]
  generalize (s.regs (regField inst 9) + ((inst >>> 12) &&& 0xF)) % 65536 = addr at hlt ⊢
  generalize (inst >>> 3) &&& 0x7 = funct3
  have hb : ¬ addr ≥ MEM_SIZE := by unfold MEM_SIZE; omega
  have hm := hs.memory_lt addr
  have hm1 := hs.memory_lt (addr + 1)
  have hpc : toU16 ((s.pc : Int) + 2) = (s.pc + 2) % 65536 := by unfold toU16; omega
  refine ⟨?_, ?_, ?_⟩
  · rintro rfl
    simp only [if_true, readByte, if_neg hb, afterRead, Bool.false_eq_true, if_false,
      ite_exec_sim, setReg, hpc]
    refine ⟨?_, ite_exec_result _ _ _ _ _ _ _, ?_, trivial, trivial⟩
    · unfold toU16 toI8
      split <;> split <;> omega
    · intro r hr; rw [if_neg hr]
  · rintro rfl
    simp only [Nat.reduceEqDiff, if_true, readByte, if_neg hb, afterRead, Bool.false_eq_true,
      if_false, ite_exec_sim, setReg, hpc]
    refine ⟨trivial, by omega, ite_exec_result _ _ _ _ _ _ _, ?_, trivial, trivial⟩
    intro r hr; rw [if_neg hr]
  · rintro rfl hne
    have hw : ¬ addr + 1 ≥ MEM_SIZE := by unfold MEM_SIZE; omega
    simp only [Nat.reduceEqDiff, if_true, readWord, if_neg hw, afterRead, Bool.false_eq_true,
      if_false, ite_exec_sim, setReg, hpc]
    refine ⟨?_, ite_exec_result _ _ _ _ _ _ _, ?_, trivial, trivial⟩
    · rw [toU16_natCast, byte_or_shift _ _ hm]; omega
    · intro r hr; rw [if_neg hr]

/-- Witness for C15: `lb t0, 0(ra)` (word `0x0204`) with `ra = 0x0100` and
`memory[0x0100] = 0x80` loads `0xFF80`. -/
theorem C15_load_witness :
    ((init.setReg 1 0x100).setMem 0x100 0x80).WF ∧ 0x0204 &&& 0x7 = 0x4 ∧
      (((init.setReg 1 0x100).setMem 0x100 0x80).executeInstruction ⟨false, []⟩ 0x0204).sim.regs
        (regField 0x0204 6) = 0xFF80 :=
  ⟨(init_WF.setReg 1 (by decide)).setMem 0x100 (by decide), by decide,
    ((C15_load ((init.setReg 1 0x100).setMem 0x100 0x80) ⟨false, []⟩ 0x0204
      ((init_WF.setReg 1 (by decide)).setMem 0x100 (by decide)) (by decide)).1
      (by decide)).1.trans (by decide)⟩

/-! ## Upper immediates (C16) -/

theorem uimm_lt (inst : Nat) :
    (((inst >>> 9) &&& 0x3F) <<< 3) ||| ((inst >>> 3) &&& 0x7) < 512 := by
  have h := jimm_lt inst
  rwa [Nat.or_comm] at h

/-- C16: for every state and every U-type word (opcode 110), with
`imm = (imm_upper << 3) | imm_lower` in 0..511: lui (`f = 0`) sets `regs[rd]`
to `imm * 128` exactly (low 7 bits zero, `result >> 7 = imm`); auipc (`f = 1`)
sets `regs[rd]` to `(pc + imm * 128) mod 2^16` with the `pc` of the instruction
itself.  The call returns normally, no other register and no memory byte
changes, and `pc` advances by 2 (mod 2^16). -/
theorem C16_lui_auipc (s : Z16Simulator) (io : Cout) (inst : Nat)
    (hop : inst &&& 0x7 = 0x6) :
    let e := s.executeInstruction io inst
    let f := (inst >>> 15) &&& 0x1
    let rd := regField inst 6
    let imm := (((inst >>> 9) &&& 0x3F) <<< 3) ||| ((inst >>> 3) &&& 0x7)
    imm ≤ 511 ∧ (f = 0 ∨ f = 1) ∧
      (f = 0 → e.sim.regs rd = imm * 128 ∧ e.sim.regs rd % 128 = 0 ∧
        e.sim.regs rd >>> 7 = imm) ∧
      (f = 1 → e.sim.regs rd = (s.pc + imm * 128) % 65536) ∧
      (∃ r, e.result = .ret r) ∧
      (∀ r, r ≠ rd → e.sim.regs r = s.regs r) ∧
      e.sim.memory = s.memory ∧ e.sim.pc = (s.pc + 2) % 65536 := by
  have himm := uimm_lt inst
  have hf : (inst >>> 15) &&& 0x1 < 2 := Nat.lt_succ_of_le Nat.and_le_right
  have hpc : toU16 ((s.pc : Int) + 2) = (s.pc + 2) % 65536 := by unfold toU16; omega
  refine ⟨by omega, by omega, ?_⟩
  simp only [executeInstruction, execSwitch_U s io hop, execU, toU16_natCast,
    Nat.shiftLeft_eq _ 7, Nat.shiftRight_eq_div_pow _ 7]
  generalize (((inst >>> 9) &&& 0x3F) <<< 3) ||| ((inst >>> 3) &&& 0x7) = imm at himm ⊢
  generalize (inst >>> 15) &&& 0x1 = f at hf ⊢
  interval_cases f
  · simp only [if_true, Bool.false_eq_true, if_false, ite_exec_sim, setReg, hpc]
    refine ⟨fun _ => ⟨?_, ?_, ?_⟩, fun h => absurd h (by decide), ite_exec_result _ _ _ _ _ _ _,
      ?_, trivial, trivial⟩
    · omega
    · omega
    · omega
    · intro r hr; rw [if_neg hr]
  · simp only [Nat.reduceEqDiff, if_true, Bool.false_eq_true, if_false, ite_exec_sim, setReg, hpc]
    refine ⟨fun h => absurd h (by decide), fun _ => ?_, ite_exec_result _ _ _ _ _ _ _,
      ?_, trivial, trivial⟩
    · unfold toU16; omega
    · intro r hr; rw [if_neg hr]

/-- Witness for C16: `lui t0, 511` (word `0x7E3E`) sets `t0 = 0xFF80`. -/
theorem C16_lui_auipc_witness :
    0x7E3E &&& 0x7 = 0x6 ∧
      (init.executeInstruction ⟨false, []⟩ 0x7E3E).sim.regs (regField 0x7E3E 6) = 0xFF80 :=
  ⟨by decide,
    ((C16_lui_auipc init ⟨false, []⟩ 0x7E3E (by decide)).2.2.1 (by decide)).1.trans (by decide)⟩

/-! ## Program counter after a plain instruction (C11) -/

namespace Z16Simulator

theorem execSYS_returns (s : Z16Simulator) (io : Cout) (inst : Nat)
    (h5 : ¬ ((inst >>> 3) &&& 0x7 = 0 ∧ (inst >>> 6) &&& 0x3FF = 5)) :
    (execSYS s io inst).Returns := by
  simp only [execSYS]
  by_cases hf : (inst >>> 3) &&& 0x7 = 0
  · have h5' : ¬ (inst >>> 6) &&& 0x3FF = 5 := fun h => h5 ⟨hf, h⟩
    simp only [hf, h5', if_true, if_false]
    repeat' (first | apply Flow.returns_ite | exact Flow.returns_brk _ _ _)
    exact .done _ false rfl
  · simp only [hf, if_false]
    exact Flow.returns_brk _ _ _

end Z16Simulator

/-- C11 (counterexample): ecall 3 (word `0x00C7`) is neither a branch nor a
jump and raises no memory fault, yet it returns with `pc` unchanged, not
`pc + 2`. -/
theorem C11_counterexample :
    0x00C7 &&& 0x7 ≠ 0x2 ∧ 0x00C7 &&& 0x7 ≠ 0x5 ∧ 0x00C7 &&& 0x7 ≠ 0x0 ∧
      (init.executeInstruction ⟨false, []⟩ 0x00C7).result = .ret false ∧
      (init.executeInstruction ⟨false, []⟩ 0x00C7).sim.pc = init.pc ∧
      (init.executeInstruction ⟨false, []⟩ 0x00C7).sim.pc ≠ (init.pc + 2) % 65536 := by
  decide

/-- C11 (amended): for every state and every instruction word that is neither
a branch (B-type), nor a jump (j, jal, jr, jalr), nor ecall 3: if the call
returns (no memory fault, and the loop of ecall 5 ends) then the program
counter afterwards is `(pc + 2) mod 2^16`.  The call does return for every
R-, I- and U-type word and for every SYS word other than ecall 5. -/
theorem C11_pc_advance (s : Z16Simulator) (io : Cout) (inst : Nat)
    (hB : inst &&& 0x7 ≠ 0x2) (hJ : inst &&& 0x7 ≠ 0x5)
    (hjr : ¬ (inst &&& 0x7 = 0x0 ∧ (inst >>> 12) &&& 0xF = 4 ∧ (inst >>> 3) &&& 0x7 = 0))
    (hjalr : ¬ (inst &&& 0x7 = 0x0 ∧ (inst >>> 12) &&& 0xF = 8 ∧ (inst >>> 3) &&& 0x7 = 0))
    (hhalt : ¬ (inst &&& 0x7 = 0x7 ∧ (inst >>> 3) &&& 0x7 = 0 ∧ (inst >>> 6) &&& 0x3FF = 3)) :
    let e := s.executeInstruction io inst
    (∀ r, e.result = .ret r → e.sim.pc = (s.pc + 2) % 65536) ∧
      (inst &&& 0x7 = 0x0 ∨ inst &&& 0x7 = 0x1 ∨ inst &&& 0x7 = 0x6 ∨
          (inst &&& 0x7 = 0x7 ∧ ¬ ((inst >>> 3) &&& 0x7 = 0 ∧ (inst >>> 6) &&& 0x3FF = 5)) →
        ∃ r, e.result = .ret r) := by
  have hop : inst &&& 0x7 < 8 := Nat.lt_succ_of_le Nat.and_le_right
  refine ⟨fun r hr => pc_of_advances s io inst ?_ r hr, ?_⟩
  · generalize hk : inst &&& 0x7 = k at hop
    interval_cases k
    · rw [execSwitch_R s io hk]
      exact execR_advances s io inst (fun h => hjr ⟨hk, h.1, h.2⟩) (fun h => hjalr ⟨hk, h.1, h.2⟩)
    · rw [execSwitch_I s io hk]; exact execI_advances s io inst
    · exact absurd hk hB
    · rw [execSwitch_S s io hk]; exact execS_advances s io inst
    · rw [execSwitch_L s io hk]; exact execL_advances s io inst
    · exact absurd hk hJ
    · rw [execSwitch_U s io hk]; exact execU_advances s io inst
    · rw [execSwitch_SYS s io hk]
      exact execSYS_advances s io inst (fun h => hhalt ⟨hk, h.1, h.2⟩)
  · rintro (h | h | h | ⟨h, h5⟩)
    · exact executeInstruction_returns s io inst (Or.inl h)
    · exact executeInstruction_returns s io inst (Or.inr (Or.inl h))
    · exact executeInstruction_returns s io inst (Or.inr (Or.inr (Or.inr (Or.inr h))))
    · apply returns_of_flow
      rw [execSwitch_SYS s io h]
      exact execSYS_returns s io inst h5

/-- Witness for C11 (amended): `li t0, 6` (word `0x0C39`) at the constructor
state returns and leaves `pc = 2`. -/
theorem C11_pc_advance_witness :
    (init.executeInstruction ⟨false, []⟩ 0x0C39).result = .ret false ∧
      (init.executeInstruction ⟨false, []⟩ 0x0C39).sim.pc = 2 :=
  ⟨by decide,
    ((C11_pc_advance init ⟨false, []⟩ 0x0C39 (by decide) (by decide) (by decide) (by decide)
      (by decide)).1 false (by decide)).trans (by decide)⟩

/-! ## Offset of stores and loads (C13) -/

/-- C13 (the code at the failing input): with `s0 = 0x0100` and `t0 = 0xAB`,
`sb t0, 15(s0)` (word `0xF0C3`, offset field `0xF`, which is -1 as a signed
4-bit value) stores at `0x0100 + 15 = 0x010F` and leaves `0x00FF` alone; with
`ra = 0x0100`, `lb t0, 15(ra)` (word `0xF204`) loads the byte at `0x010F`, not
the one at `0x00FF`.  The offset field is used as 0..15, without the sign
extension that the branch case applies to the same field. -/
theorem C13_offset_not_sign_extended :
    sext4 ((0xF0C3 >>> 12) &&& 0xF) = -1 ∧
      (((init.setReg 3 0x100).setReg 0 0xAB).executeInstruction ⟨false, []⟩ 0xF0C3).sim.memory
        0x010F = 0xAB ∧
      (((init.setReg 3 0x100).setReg 0 0xAB).executeInstruction ⟨false, []⟩ 0xF0C3).sim.memory
        0x00FF = 0 ∧
      ((((init.setReg 1 0x100).setMem 0x10F 0x55).setMem 0xFF 0x77).executeInstruction
        ⟨false, []⟩ 0xF204).sim.regs 0 = 0x55 := by
  decide

/-! ## Halting and the run loop (C17, C18) -/

theorem exec_ecall3 (s : Z16Simulator) (io : Cout) (inst : Nat)
    (hop : inst &&& 0x7 = 0x7) (hf : (inst >>> 3) &&& 0x7 = 0)
    (hsv : (inst >>> 6) &&& 0x3FF = 3) :
    s.executeInstruction io inst =
      ⟨.ret false, s, (io.put "ecall 3").put "ecall terminate simulation"⟩ := by
  simp [executeInstruction, execSwitch_SYS s io hop, execSYS, hf, hsv]

/-- C17: for every state, executing a SYS word with `funct3 = 000` and
`service = 3` (ecall 3) writes exactly the two lines `ecall 3` and
`ecall terminate simulation`, in that order, returns `false`, and leaves the
simulator object (registers, memory, `pc`) unchanged.  When an iteration of the
run loop fetches it (within the cycle budget), the loop writes the trace line
of that instruction, executes it and returns at once: nothing further is
executed or traced. -/
theorem C17_ecall3_halts (s : Z16Simulator) (io : Cout) (inst : Nat) (out : List String)
    (fuel cycleCount : Nat)
    (hop : inst &&& 0x7 = 0x7) (hf : (inst >>> 3) &&& 0x7 = 0)
    (hsv : (inst >>> 6) &&& 0x3FF = 3) :
    let e := s.executeInstruction io inst
    e.result = .ret false ∧
      e.cout.lines = io.lines ++ ["ecall 3", "ecall terminate simulation"] ∧
      e.sim = s ∧
      (s.pc < s.programSize → cycleCount ≤ MAX_CYCLES → s.readWord s.pc = .ret inst →
        runLoop (fuel + 1) s io out cycleCount =
          ⟨.ret true, s, e.cout, out ++ [traceLine s.pc inst]⟩) ∧
      (s.pc < s.programSize → s.readWord s.pc = .ret inst →
        runExecution s io out = ⟨.ret true, s, e.cout, out ++ [traceLine s.pc inst]⟩) := by
  have he := exec_ecall3 s io inst hop hf hsv
  have hloop : ∀ fuel cycleCount, s.pc < s.programSize → cycleCount ≤ MAX_CYCLES →
      s.readWord s.pc = .ret inst →
      runLoop (fuel + 1) s io out cycleCount =
        ⟨.ret true, s, (s.executeInstruction io inst).cout, out ++ [traceLine s.pc inst]⟩ := by
    intro fuel cycleCount hpc hc hrd
    rw [runLoop, if_pos hpc, if_neg (Nat.not_lt.mpr hc), hrd]
    simp only [he]
  refine ⟨by rw [he], by rw [he]; simp [Cout.put], by rw [he], hloop fuel cycleCount, ?_⟩
  intro hpc hrd
  exact hloop _ 0 hpc (Nat.zero_le _) hrd

/-- Witness for C17: the image `[0xC7, 0x00]` (ecall 3 at address 0,
`programSize = 2`) run from the initial state. -/
theorem C17_ecall3_halts_witness :
    (runExecution (loadImage [0xC7, 0x00]) ⟨false, []⟩ []).out = ["0x0000: 00c7  ecall 3\n"] ∧
      (runExecution (loadImage [0xC7, 0x00]) ⟨false, []⟩ []).cout.lines =
        ["ecall 3", "ecall terminate simulation"] := by
  rw [(C17_ecall3_halts (loadImage [0xC7, 0x00]) ⟨false, []⟩ 0x00C7 [] 0 0
    (by decide) (by decide) (by decide)).2.2.2.2 (by decide) (by decide)]
  exact ⟨by decide, by decide⟩

theorem jself_exec (io : Cout) :
    (loadImage [0x05, 0x00]).executeInstruction io 0x0005 =
      ⟨.ret true, loadImage [0x05, 0x00], io⟩ := by
  rfl

theorem jself_read : (loadImage [0x05, 0x00]).readWord 0 = .ret 0x0005 := by
  decide

theorem jself_loop (io : Cout) :
    ∀ (n fuel : Nat) (out : List String) (cycleCount : Nat),
      cycleCount + n = MAX_CYCLES + 1 → n < fuel →
      runLoop fuel (loadImage [0x05, 0x00]) io out cycleCount =
        ⟨.ret false, loadImage [0x05, 0x00], io,
          out ++ List.replicate n (traceLine 0 0x0005) ++ [loopNotice 0]⟩ := by
  intro n
  induction n with
  | zero =>
    intro fuel out c hc hf
    obtain ⟨f, rfl⟩ : ∃ f, fuel = f + 1 := ⟨fuel - 1, by omega⟩
    have hgt : c > MAX_CYCLES := by omega
    rw [runLoop, if_pos (by decide), if_pos hgt]
    simp [loadImage, init]
  | succ n ih =>
    intro fuel out c hc hf
    obtain ⟨f, rfl⟩ : ∃ f, fuel = f + 1 := ⟨fuel - 1, by omega⟩
    have hle : ¬ c > MAX_CYCLES := by omega
    rw [runLoop, if_pos (by decide), if_neg hle]
    have hpc : (loadImage [0x05, 0x00]).pc = 0 := rfl
    rw [hpc, jself_read]
    simp only [jself_exec]
    rw [ih f _ (c + 1) (by omega) (by omega)]
    simp [List.replicate_succ]

/-- C18 (the code at the failing input): for the image that is a single `j` to
itself (word `0x0005` at address 0, `programSize = 2`) the run loop writes
10 001 trace lines, one per executed instruction, before it writes the notice
naming `pc = 0` and returns `false`: the test `cycleCount++ > MAX_CYCLES` still
lets the iteration with `cycleCount = 10000` through. -/
theorem C18_budget_off_by_one (io : Cout) (out : List String) :
    runExecution (loadImage [0x05, 0x00]) io out =
      ⟨.ret false, loadImage [0x05, 0x00], io,
        out ++ List.replicate 10001 (traceLine 0 0x0005) ++ [loopNotice 0]⟩ :=
  jself_loop io 10001 (MAX_CYCLES + 2) out 0 (by decide) (by decide)

/-! ## Disassembler and executor agree on targets (C12) -/

theorem hex4_length (n : Nat) (h : n < 65536) : (hex4 n).length = 4 := by
  have hle : (Nat.toDigits 16 n).length ≤ 4 :=
    Nat.toDigitsCore_length 16 (by decide) (n + 1) n 4 (by simpa using h) (by decide)
  simp only [hex4, String.length, List.length_append, List.length_replicate]
  omega

theorem branch_target_eq (pc : Nat) (off : Int) :
    toU16 ((toU16 ((pc : Int) + off * 2) : Int) + 2) = toU16 ((pc : Int) + 2 + off * 2) := by
  unfold toU16; omega

theorem bz_target_eq (pc : Nat) (off : Int) :
    toU16 ((toU16 ((pc : Int) + 2 + off * 2) : Int) - 2) = toU16 ((pc : Int) + off * 2) := by
  unfold toU16; omega

/-- C12: the disassembler and the executor agree on PC-relative targets.  For
every well-formed state and every B-type word whose branch condition holds in
that state, and for every J-type word, the text `disassemble(pc, w)` ends with
the four hexadecimal digits of the value that executing `w` at that `pc`
assigns to `pc`. -/
theorem C12_targets_agree (s : Z16Simulator) (io : Cout) (inst : Nat) (hs : s.WF) :
    let e := s.executeInstruction io inst
    let a := s.regs (regField inst 6)
    let b := s.regs (regField inst 9)
    let funct3 := (inst >>> 3) &&& 0x7
    let cond : Prop :=
      (funct3 = 0 ∧ a = b) ∨ (funct3 = 1 ∧ a ≠ b) ∨ (funct3 = 2 ∧ a = 0) ∨
      (funct3 = 3 ∧ a ≠ 0) ∨ (funct3 = 4 ∧ signed16 a < signed16 b) ∨
      (funct3 = 5 ∧ signed16 a ≥ signed16 b) ∨ (funct3 = 6 ∧ a < b) ∨ (funct3 = 7 ∧ a ≥ b)
    (inst &&& 0x7 = 0x2 → cond →
        (∃ pre, disassemble s.pc inst = pre ++ hex4 e.sim.pc) ∧ (hex4 e.sim.pc).length = 4) ∧
      (inst &&& 0x7 = 0x5 →
        (∃ pre, disassemble s.pc inst = pre ++ hex4 e.sim.pc) ∧ (hex4 e.sim.pc).length = 4) := by
  refine ⟨?_, ?_⟩
  · intro hop
    have hf : (inst >>> 3) &&& 0x7 < 8 := Nat.lt_succ_of_le Nat.and_le_right
    have ha := toI16_natCast _ (hs.regs_lt (regField inst 6))
    have hb := toI16_natCast _ (hs.regs_lt (regField inst 9))
    simp only [executeInstruction, execSwitch_B s io hop, execB, disassemble, hop, ha, hb,
      Nat.reduceEqDiff, if_false, if_true, branch_target_eq, bz_target_eq]
    generalize (inst >>> 3) &&& 0x7 = funct3 at hf ⊢
    generalize s.regs (regField inst 6) = a
    generalize s.regs (regField inst 9) = b
    interval_cases funct3
    all_goals simp only [branchTo, Nat.reduceEqDiff, if_true, if_false, true_and, false_and,
      or_false, false_or]
    all_goals intro hc
    all_goals rw [if_pos hc]
    all_goals exact ⟨⟨_, rfl⟩, hex4_length _ (toU16_lt _)⟩
  · intro hop
    have hf : (inst >>> 15) &&& 0x1 < 2 := Nat.lt_succ_of_le Nat.and_le_right
    simp only [executeInstruction, execSwitch_J s io hop, execJ, disassemble, hop,
      Nat.reduceEqDiff, if_false, if_true, Nat.or_comm ((inst >>> 3) &&& 0x7)]
    generalize (inst >>> 15) &&& 0x1 = f at hf ⊢
    interval_cases f
    all_goals simp only [Nat.reduceEqDiff, if_true, if_false, ite_exec_sim]
    all_goals exact ⟨⟨_, rfl⟩, hex4_length _ (toU16_lt _)⟩

/-- Witness for C12: `beq t0, t0, 1` (word `0x1002`) at the constructor state:
the disassembly ends in `0004` and execution sets `pc = 4`. -/
theorem C12_targets_agree_witness :
    init.WF ∧ 0x1002 &&& 0x7 = 0x2 ∧
      disassemble init.pc 0x1002 = "beq t0, t0, 0x0004" ∧
      (∃ pre, disassemble init.pc 0x1002 =
        pre ++ hex4 (init.executeInstruction ⟨false, []⟩ 0x1002).sim.pc) ∧
      (init.executeInstruction ⟨false, []⟩ 0x1002).sim.pc = 4 :=
  ⟨init_WF, by decide, by decide,
    ((C12_targets_agree init ⟨false, []⟩ 0x1002 init_WF).1 (by decide)
      (Or.inl ⟨by decide, by decide⟩)).1,
    by decide⟩

/-! ## Unrecognised encodings (C19, C20) -/

theorem not_unknown (c : Char) (cs : List Char) (rest : String) (hc : c ≠ 'U') :
    ¬ IsUnknownText (String.mk (c :: cs) ++ rest) := by
  intro h
  have h' : ('U' :: ['n', 'k', 'n', 'o', 'w', 'n']) <+: (c :: (cs ++ rest.data)) := h
  exact hc (List.cons_prefix_cons.mp h').1.symm

theorem unknown_ite {c : Prop} {d : Decidable c} {a b : String}
    (h : IsUnknownText (@ite String c d a b)) (ha : ¬ IsUnknownText a) :
    ¬ c ∧ IsUnknownText b := by
  by_cases hc : c
  · rw [if_pos hc] at h; exact absurd h ha
  · rw [if_neg hc] at h; exact ⟨hc, h⟩

namespace Z16Simulator

theorem unknown_R (s : Z16Simulator) (io : Cout) (addr inst : Nat) (hk : inst &&& 0x7 = 0x0)
    (h : IsUnknownText (disassemble addr inst)) :
    execSwitch s io inst = .brk s ({ io with hex := true }.put
      ("Unknown R-type instruction at PC = 0x" ++ hexStr s.pc)) false := by
  rw [execSwitch_R s io hk]
  simp only [disassemble, hk, if_true, String.append_assoc] at h
  simp only [execR]
  repeat (
    have h2 := unknown_ite h (not_unknown _ _ _ (by decide))
    have := h2.1
    replace h := h2.2
    clear h2)
  simp only [*, if_false]

theorem unknown_I (s : Z16Simulator) (io : Cout) (addr inst : Nat) (hk : inst &&& 0x7 = 0x1)
    (h : IsUnknownText (disassemble addr inst)) :
    ((inst >>> 3) &&& 0x7 = 3 ∧ (inst >>> 13) &&& 0x7 ≠ 1 ∧ (inst >>> 13) &&& 0x7 ≠ 2 ∧
      (inst >>> 13) &&& 0x7 ≠ 4) ∧
    execSwitch s io inst = .brk s ({ io with hex := true }.put
      ("Unimplemented I-type shift instruction at PC = 0x" ++ hexStr s.pc)) false := by
  rw [execSwitch_I s io hk]
  simp only [disassemble, hk, Nat.reduceEqDiff, if_true, if_false, String.append_assoc] at h
  have hf : (inst >>> 3) &&& 0x7 < 8 := Nat.lt_succ_of_le Nat.and_le_right
  obtain ⟨h0, h⟩ := unknown_ite h (not_unknown _ _ _ (by decide))
  obtain ⟨h1, h⟩ := unknown_ite h (not_unknown _ _ _ (by decide))
  obtain ⟨h2, h⟩ := unknown_ite h (not_unknown _ _ _ (by decide))
  obtain ⟨hs1, h⟩ := unknown_ite h (not_unknown _ _ _ (by decide))
  obtain ⟨hs2, h⟩ := unknown_ite h (not_unknown _ _ _ (by decide))
  obtain ⟨hs4, h⟩ := unknown_ite h (not_unknown _ _ _ (by decide))
  obtain ⟨h4, h⟩ := unknown_ite h (not_unknown _ _ _ (by decide))
  obtain ⟨h5, h⟩ := unknown_ite h (not_unknown _ _ _ (by decide))
  obtain ⟨h6, h⟩ := unknown_ite h (not_unknown _ _ _ (by decide))
  obtain ⟨h7, h⟩ := unknown_ite h (not_unknown _ _ _ (by decide))
  have h3 : (inst >>> 3) &&& 0x7 = 3 := by omega
  have i1 : (inst >>> 13) &&& 0x7 ≠ 1 := fun hi => hs1 ⟨h3, hi⟩
  have i2 : (inst >>> 13) &&& 0x7 ≠ 2 := fun hi => hs2 ⟨h3, hi⟩
  have i4 : (inst >>> 13) &&& 0x7 ≠ 4 := fun hi => hs4 ⟨h3, hi⟩
  refine ⟨⟨h3, i1, i2, i4⟩, ?_⟩
  simp only [execI, h3, i1, i2, i4, Nat.reduceEqDiff, if_true, if_false]

theorem unknown_S (s : Z16Simulator) (io : Cout) (addr inst : Nat) (hk : inst &&& 0x7 = 0x3)
    (h : IsUnknownText (disassemble addr inst)) :
    ((inst >>> 3) &&& 0x7 ≠ 0 ∧ (inst >>> 3) &&& 0x7 ≠ 1) ∧
    execSwitch s io inst = .brk s io false := by
  rw [execSwitch_S s io hk]
  simp only [disassemble, hk, Nat.reduceEqDiff, if_true, if_false, String.append_assoc] at h
  obtain ⟨h0, h⟩ := unknown_ite h (not_unknown _ _ _ (by decide))
  obtain ⟨h1, h⟩ := unknown_ite h (not_unknown _ _ _ (by decide))
  refine ⟨⟨h0, h1⟩, ?_⟩
  simp only [execS, h0, h1, if_false]

theorem unknown_L (s : Z16Simulator) (io : Cout) (addr inst : Nat) (hk : inst &&& 0x7 = 0x4)
    (h : IsUnknownText (disassemble addr inst)) :
    ((inst >>> 3) &&& 0x7 ≠ 0 ∧ (inst >>> 3) &&& 0x7 ≠ 1 ∧ (inst >>> 3) &&& 0x7 ≠ 4) ∧
    execSwitch s io inst = .brk s io false := by
  rw [execSwitch_L s io hk]
  simp only [disassemble, hk, Nat.reduceEqDiff, if_true, if_false, String.append_assoc] at h
  obtain ⟨h0, h⟩ := unknown_ite h (not_unknown _ _ _ (by decide))
  obtain ⟨h1, h⟩ := unknown_ite h (not_unknown _ _ _ (by decide))
  obtain ⟨h4, h⟩ := unknown_ite h (not_unknown _ _ _ (by decide))
  refine ⟨⟨h0, h1, h4⟩, ?_⟩
  simp only [execL, h0, h1, h4, if_false]

theorem unknown_SYS (s : Z16Simulator) (io : Cout) (addr inst : Nat) (hk : inst &&& 0x7 = 0x7)
    (h : IsUnknownText (disassemble addr inst)) :
    (inst >>> 3) &&& 0x7 ≠ 0 ∧
    execSwitch s io inst = .brk s (io.put "Unknown SYS-type instruction") false := by
  rw [execSwitch_SYS s io hk]
  simp only [disassemble, hk, Nat.reduceEqDiff, if_true, if_false, String.append_assoc] at h
  obtain ⟨h0, h⟩ := unknown_ite h (not_unknown _ _ _ (by decide))
  refine ⟨h0, ?_⟩
  simp only [execSYS, h0, if_false]

theorem known_B (addr inst : Nat) (hk : inst &&& 0x7 = 0x2) :
    ¬ IsUnknownText (disassemble addr inst) := by
  intro h
  simp only [disassemble, hk, Nat.reduceEqDiff, if_true, if_false, String.append_assoc] at h
  repeat (
    have h2 := unknown_ite h (not_unknown _ _ _ (by decide))
    replace h := h2.2
    clear h2)
  revert h
  decide

theorem known_J (addr inst : Nat) (hk : inst &&& 0x7 = 0x5) :
    ¬ IsUnknownText (disassemble addr inst) := by
  intro h
  simp only [disassemble, hk, Nat.reduceEqDiff, if_true, if_false, String.append_assoc] at h
  exact not_unknown _ _ _ (by decide) (unknown_ite h (not_unknown _ _ _ (by decide))).2

theorem known_U (addr inst : Nat) (hk : inst &&& 0x7 = 0x6) :
    ¬ IsUnknownText (disassemble addr inst) := by
  intro h
  simp only [disassemble, hk, Nat.reduceEqDiff, if_true, if_false, String.append_assoc] at h
  exact not_unknown _ _ _ (by decide) (unknown_ite h (not_unknown _ _ _ (by decide))).2

end Z16Simulator

theorem exec_skip (s : Z16Simulator) (io io1 : Cout) (inst : Nat)
    (hsw : execSwitch s io inst = .brk s io1 false) :
    (s.executeInstruction io inst).result =
        .ret (decide ((s.executeInstruction io inst).sim.pc < s.programSize)) ∧
      (s.executeInstruction io inst).sim.regs = s.regs ∧
      (s.executeInstruction io inst).sim.memory = s.memory ∧
      (s.executeInstruction io inst).sim.pc = (s.pc + 2) % 65536 ∧
      (s.executeInstruction io inst).cout = io1 := by
  have hpc : toU16 ((s.pc : Int) + 2) = (s.pc + 2) % 65536 := by unfold toU16; omega
  simp only [executeInstruction, hsw, Bool.false_eq_true, if_false, ite_exec_sim, ite_exec_cout,
    hpc, true_and, and_true]
  split <;> simp_all

/-- C19: for every state and every word whose single-instruction disassembly
is an `Unknown ...` text, the word is an R-type word, an I-type shift with
`imm3` outside {001, 010, 100}, an S-type word with `funct3` outside
{000, 001}, an L-type word with `funct3` outside {000, 001, 100}, or a SYS word
with `funct3 ≠ 000`; executing it returns normally (with `true` exactly when
the new `pc` is below `programSize`, as after any plain instruction), leaves
every register and every memory byte unchanged, and sets
`pc' = (pc + 2) mod 2^16`. -/
theorem C19_unknown_encoding_skipped (s : Z16Simulator) (io : Cout) (addr inst : Nat)
    (h : IsUnknownText (disassemble addr inst)) :
    let e := s.executeInstruction io inst
    let opcode := inst &&& 0x7
    let funct3 := (inst >>> 3) &&& 0x7
    let imm3 := (inst >>> 13) &&& 0x7
    (opcode = 0 ∨ (opcode = 1 ∧ funct3 = 3 ∧ imm3 ≠ 1 ∧ imm3 ≠ 2 ∧ imm3 ≠ 4) ∨
        (opcode = 3 ∧ funct3 ≠ 0 ∧ funct3 ≠ 1) ∨
        (opcode = 4 ∧ funct3 ≠ 0 ∧ funct3 ≠ 1 ∧ funct3 ≠ 4) ∨ (opcode = 7 ∧ funct3 ≠ 0)) ∧
      e.result = .ret (decide (e.sim.pc < s.programSize)) ∧
      e.sim.regs = s.regs ∧ e.sim.memory = s.memory ∧ e.sim.pc = (s.pc + 2) % 65536 := by
  have hop : inst &&& 0x7 < 8 := Nat.lt_succ_of_le Nat.and_le_right
  generalize hk : inst &&& 0x7 = k at hop
  interval_cases k
  · have hsw := unknown_R s io addr inst hk h
    have hx := exec_skip s io _ inst hsw
    exact ⟨Or.inl rfl, hx.1, hx.2.1, hx.2.2.1, hx.2.2.2.1⟩
  · obtain ⟨hc, hsw⟩ := unknown_I s io addr inst hk h
    have hx := exec_skip s io _ inst hsw
    exact ⟨Or.inr (Or.inl ⟨rfl, hc⟩), hx.1, hx.2.1, hx.2.2.1, hx.2.2.2.1⟩
  · exact absurd h (known_B addr inst hk)
  · obtain ⟨hc, hsw⟩ := unknown_S s io addr inst hk h
    have hx := exec_skip s io _ inst hsw
    exact ⟨Or.inr (Or.inr (Or.inl ⟨rfl, hc⟩)), hx.1, hx.2.1, hx.2.2.1, hx.2.2.2.1⟩
  · obtain ⟨hc, hsw⟩ := unknown_L s io addr inst hk h
    have hx := exec_skip s io _ inst hsw
    exact ⟨Or.inr (Or.inr (Or.inr (Or.inl ⟨rfl, hc⟩))), hx.1, hx.2.1, hx.2.2.1, hx.2.2.2.1⟩
  · exact absurd h (known_J addr inst hk)
  · exact absurd h (known_U addr inst hk)
  · obtain ⟨hc, hsw⟩ := unknown_SYS s io addr inst hk h
    have hx := exec_skip s io _ inst hsw
    exact ⟨Or.inr (Or.inr (Or.inr (Or.inr ⟨rfl, hc⟩))), hx.1, hx.2.1, hx.2.2.1, hx.2.2.2.1⟩

/-- Witness for C19: the R-type word `0xF000` (funct4 = 1111) disassembles to
`Unknown R-type instruction`; executed at the constructor state it only moves
`pc` to 2. -/
theorem C19_unknown_encoding_skipped_witness :
    disassemble 0 0xF000 = "Unknown R-type instruction" ∧
      (init.executeInstruction ⟨false, []⟩ 0xF000).sim.pc = 2 ∧
      (init.executeInstruction ⟨false, []⟩ 0xF000).sim.regs = init.regs :=
  ⟨by decide,
    (C19_unknown_encoding_skipped init ⟨false, []⟩ 0 0xF000 (by decide)).2.2.2.2.trans
      (by decide),
    (C19_unknown_encoding_skipped init ⟨false, []⟩ 0 0xF000 (by decide)).2.2.1⟩

/-- C20 (the code at the failing inputs): the S-type word `0x0013` and the
L-type word `0x0014` (both `funct3 = 010`) disassemble to `Unknown S-type
instruction` and `Unknown L-type instruction`, yet executing them in any state
leaves `std::cout` exactly as it was: no diagnostic line is written, because
the store and load cases have no final `else`. -/
theorem C20_store_load_unknown_is_silent (s : Z16Simulator) (io : Cout) (addr : Nat) :
    disassemble addr 0x0013 = "Unknown S-type instruction" ∧
      (s.executeInstruction io 0x0013).cout = io ∧
      disassemble addr 0x0014 = "Unknown L-type instruction" ∧
      (s.executeInstruction io 0x0014).cout = io := by
  have hS : disassemble addr 0x0013 = "Unknown S-type instruction" := rfl
  have hL : disassemble addr 0x0014 = "Unknown L-type instruction" := rfl
  refine ⟨hS, ?_, hL, ?_⟩
  · exact (exec_skip s io io 0x0013
      (unknown_S s io addr 0x0013 (by decide) (by rw [hS]; decide)).2).2.2.2.2
  · exact (exec_skip s io io 0x0014
      (unknown_L s io addr 0x0014 (by decide) (by rw [hL]; decide)).2).2.2.2.2

/-! ## Parity of the program counter (C30) and the bound test (C27) -/

namespace Z16Simulator

theorem Flow.evenPc_ite (c : Prop) {d : Decidable c} {a b : Flow} (ha : a.EvenPc)
    (hb : b.EvenPc) : (@ite Flow c d a b).EvenPc := by
  split
  · exact ha
  · exact hb

theorem even_of_flow (s : Z16Simulator) (io : Cout) (inst : Nat)
    (h : (execSwitch s io inst).EvenPc) : (s.executeInstruction io inst).sim.pc % 2 = 0 := by
  unfold executeInstruction
  generalize execSwitch s io inst = fl at h ⊢
  cases h with
  | done e he => exact he
  | brk s1 io1 u h1 =>
    simp only [ite_exec_sim]
    cases u
    · simp only [Bool.false_eq_true, if_false]
      unfold toU16; omega
    · simpa using h1

theorem toU16_even (x : Int) (h : x % 2 = 0) : toU16 x % 2 = 0 := by
  unfold toU16; omega

theorem execR_even (s : Z16Simulator) (io : Cout) (inst : Nat) (hpc : s.pc % 2 = 0)
    (hjr : ¬ ((inst >>> 12) &&& 0xF = 4 ∧ (inst >>> 3) &&& 0x7 = 0))
    (hjalr : ¬ ((inst >>> 12) &&& 0xF = 8 ∧ (inst >>> 3) &&& 0x7 = 0)) :
    (execR s io inst).EvenPc := by
  simp only [execR, hjr, hjalr, if_false]
  repeat' (first | apply Flow.evenPc_ite | exact .brk _ _ _ hpc)

theorem execI_even (s : Z16Simulator) (io : Cout) (inst : Nat) (hpc : s.pc % 2 = 0) :
    (execI s io inst).EvenPc := by
  simp only [execI]
  repeat' (first | apply Flow.evenPc_ite | exact .brk _ _ _ hpc)

theorem execU_even (s : Z16Simulator) (io : Cout) (inst : Nat) (hpc : s.pc % 2 = 0) :
    (execU s io inst).EvenPc := by
  simp only [execU]
  repeat' (first | apply Flow.evenPc_ite | exact .brk _ _ _ hpc)

theorem branchTo_even (s : Z16Simulator) (io : Cout) (newPc : Nat) (h : newPc % 2 = 0) :
    (branchTo s io newPc).EvenPc :=
  .done _ h

theorem execB_even (s : Z16Simulator) (io : Cout) (inst : Nat) (hpc : s.pc % 2 = 0) :
    (execB s io inst).EvenPc := by
  simp only [execB]
  generalize (if ((inst >>> 12) &&& 0xF) &&& 0x8 ≠ 0
    then toI8 ((((inst >>> 12) &&& 0xF) ||| 0xF0 : Nat)) else toI8 (((inst >>> 12) &&& 0xF : Nat))) = raw
  have ht : toU16 ((s.pc : Int) + raw * 2) % 2 = 0 := toU16_even _ (by omega)
  have ht2 : toU16 ((toU16 ((s.pc : Int) + raw * 2) : Int) + 2) % 2 = 0 :=
    toU16_even _ (by omega)
  repeat' (first
    | apply Flow.evenPc_ite
    | exact .brk _ _ _ hpc
    | exact branchTo_even _ _ _ ht2
    | exact branchTo_even _ _ _ ht)

theorem execJ_even (s : Z16Simulator) (io : Cout) (inst : Nat) (hpc : s.pc % 2 = 0) :
    (execJ s io inst).EvenPc := by
  simp only [execJ]
  generalize (if (((inst >>> 3) &&& 0x7) ||| (((inst >>> 9) &&& 0x3F) <<< 3)) &&& (1 <<< 8) ≠ 0
    then toI16 (((((inst >>> 3) &&& 0x7) ||| (((inst >>> 9) &&& 0x3F) <<< 3)) ||| 0xFE00 : Nat))
    else toI16 ((((inst >>> 3) &&& 0x7) ||| (((inst >>> 9) &&& 0x3F) <<< 3) : Nat))) = raw
  have ht : toU16 ((s.pc : Int) + raw * 2) % 2 = 0 := toU16_even _ (by omega)
  repeat' (first
    | apply Flow.evenPc_ite
    | exact .brk _ _ _ hpc
    | exact .brk _ _ _ ht)

theorem afterWrite_even (io : Cout) (r : Outcome Unit × Z16Simulator)
    (h : r.2.pc % 2 = 0) : (afterWrite io r).EvenPc := by
  obtain ⟨o, s1⟩ := r
  cases o with
  | ret u => exact .brk _ _ _ h
  | thrown what => exact .done _ h
  | diverges => exact .done _ h

theorem execS_even (s : Z16Simulator) (io : Cout) (inst : Nat) (hpc : s.pc % 2 = 0) :
    (execS s io inst).EvenPc := by
  simp only [execS]
  apply Flow.evenPc_ite
  · exact afterWrite_even _ _ (by rw [writeByte_pc]; exact hpc)
  · apply Flow.evenPc_ite
    · exact afterWrite_even _ _ (by rw [writeWord_pc]; exact hpc)
    · exact .brk _ _ _ hpc

theorem afterRead_even (s : Z16Simulator) (io : Cout) (rd : Fin 8) (f : Nat → Nat)
    (o : Outcome Nat) (hpc : s.pc % 2 = 0) : (afterRead s io rd f o).EvenPc := by
  cases o with
  | ret v => exact .brk _ _ _ hpc
  | thrown what => exact .done _ hpc
  | diverges => exact .done _ hpc

theorem execL_even (s : Z16Simulator) (io : Cout) (inst : Nat) (hpc : s.pc % 2 = 0) :
    (execL s io inst).EvenPc := by
  simp only [execL]
  apply Flow.evenPc_ite
  · exact afterRead_even _ _ _ _ _ hpc
  · apply Flow.evenPc_ite
    · exact afterRead_even _ _ _ _ _ hpc
    · apply Flow.evenPc_ite
      · exact afterRead_even _ _ _ _ _ hpc
      · exact .brk _ _ _ hpc

theorem execSYS_even (s : Z16Simulator) (io : Cout) (inst : Nat) (hpc : s.pc % 2 = 0) :
    (execSYS s io inst).EvenPc := by
  simp only [execSYS]
  apply Flow.evenPc_ite
  · apply Flow.evenPc_ite
    · exact .brk _ _ _ hpc
    · apply Flow.evenPc_ite
      · exact .done _ hpc
      · apply Flow.evenPc_ite
        · cases printStringLoop s MEM_SIZE (s.regs 6) [] with
          | ret output => exact .brk _ _ _ hpc
          | thrown what => exact .done _ hpc
          | diverges => exact .done _ hpc
        · exact .brk _ _ _ hpc
  · exact .brk _ _ _ hpc

end Z16Simulator

/-- C30: for every state whose `pc` is even and every instruction word other
than jr and jalr (R-type, `funct3 = 000`, `funct4 = 0100` or `1000`), the `pc`
left in the object by `executeInstruction` is even, whether the call returns,
halts, raises a memory fault or never leaves the loop of ecall 5: taken
branches and jumps add an even displacement, every other instruction adds 2
or nothing.  So only jr and jalr, which copy a register into `pc`, can make
it odd. -/
theorem C30_pc_parity (s : Z16Simulator) (io : Cout) (inst : Nat) (hpc : s.pc % 2 = 0)
    (hjr : ¬ (inst &&& 0x7 = 0x0 ∧ (inst >>> 12) &&& 0xF = 4 ∧ (inst >>> 3) &&& 0x7 = 0))
    (hjalr : ¬ (inst &&& 0x7 = 0x0 ∧ (inst >>> 12) &&& 0xF = 8 ∧ (inst >>> 3) &&& 0x7 = 0)) :
    (s.executeInstruction io inst).sim.pc % 2 = 0 := by
  have hop : inst &&& 0x7 < 8 := Nat.lt_succ_of_le Nat.and_le_right
  apply even_of_flow
  generalize hk : inst &&& 0x7 = k at hop
  interval_cases k
  · rw [execSwitch_R s io hk]
    exact execR_even s io inst hpc (fun h => hjr ⟨hk, h.1, h.2⟩) (fun h => hjalr ⟨hk, h.1, h.2⟩)
  · rw [execSwitch_I s io hk]; exact execI_even s io inst hpc
  · rw [execSwitch_B s io hk]; exact execB_even s io inst hpc
  · rw [execSwitch_S s io hk]; exact execS_even s io inst hpc
  · rw [execSwitch_L s io hk]; exact execL_even s io inst hpc
  · rw [execSwitch_J s io hk]; exact execJ_even s io inst hpc
  · rw [execSwitch_U s io hk]; exact execU_even s io inst hpc
  · rw [execSwitch_SYS s io hk]; exact execSYS_even s io inst hpc

/-- C27 (the code at the failing input): in the image `[0x02, 0x00]` (the word
`0x0002` = `beq t0, t0, 0` at address 0, `programSize = 2`) the branch is taken,
the new `pc` is 2, which is not below `programSize`, and the call still
returns `true`: the taken-branch arms leave by `return true` before the test
`pc >= programSize`.  A `j` to the same address (word `0x000D` in an image of
the same size) goes through that test and returns `false`. -/
theorem C27_taken_branch_skips_bound_check (io : Cout) :
    (loadImage [0x02, 0x00]).readWord 0 = .ret 0x0002 ∧
      ((loadImage [0x02, 0x00]).executeInstruction io 0x0002).result = .ret true ∧
      ((loadImage [0x02, 0x00]).executeInstruction io 0x0002).sim.pc = 2 ∧
      ((loadImage [0x02, 0x00]).executeInstruction io 0x0002).sim.programSize = 2 ∧
      ((loadImage [0x0D, 0x00]).executeInstruction io 0x000D).result = .ret false ∧
      ((loadImage [0x0D, 0x00]).executeInstruction io 0x000D).sim.pc = 2 :=
  ⟨by decide, rfl, rfl, rfl, rfl, rfl⟩

/-- Witness for C30: `beq t0, t0, 3` (word `0x3002`) at the constructor state
is taken and leaves `pc = 8`. -/
theorem C30_pc_parity_witness :
    init.pc % 2 = 0 ∧ (init.executeInstruction ⟨false, []⟩ 0x3002).sim.pc = 8 ∧
      (init.executeInstruction ⟨false, []⟩ 0x3002).sim.pc % 2 = 0 :=
  ⟨by decide, by decide,
    C30_pc_parity init ⟨false, []⟩ 0x3002 (by decide) (by decide) (by decide)⟩

/-! ## Memory faults (C28) and the string service (C29) -/

namespace Z16Simulator

theorem readByte_of_lt (s : Z16Simulator) {addr : Nat} (h : addr < 65536) :
    s.readByte addr = .ret (s.memory addr) := by
  have hb : ¬ addr ≥ MEM_SIZE := by unfold MEM_SIZE; omega
  simp only [readByte, if_neg hb]

theorem readWord_of_lt (s : Z16Simulator) {addr : Nat} (h : addr + 1 < 65536) :
    s.readWord addr = .ret (toU16 ((s.memory addr ||| (s.memory (addr + 1) <<< 8) : Nat))) := by
  have hb : ¬ addr + 1 ≥ MEM_SIZE := by unfold MEM_SIZE; omega
  simp only [readWord, if_neg hb]

theorem printStringLoop_not_thrown (s : Z16Simulator) :
    ∀ (fuel addr : Nat) (output : List Char), addr < 65536 →
      ∀ what, printStringLoop s fuel addr output ≠ .thrown what := by
  intro fuel
  induction fuel with
  | zero => intro addr output _ what h; simp [printStringLoop] at h
  | succ n ih =>
    intro addr output ha what
    rw [printStringLoop, readByte_of_lt s ha]
    simp only
    split
    · simp
    · exact ih _ _ (by unfold toU16; omega) what

theorem printStringLoop_spec (s : Z16Simulator) :
    ∀ (k fuel addr : Nat) (output : List Char), addr < 65536 → k < fuel →
      s.memory ((addr + k) % 65536) = 0 →
      (∀ j, j < k → s.memory ((addr + j) % 65536) ≠ 0) →
      printStringLoop s fuel addr output =
        .ret (output ++ (List.range k).map fun j => Char.ofNat (s.memory ((addr + j) % 65536))) := by
  intro k
  induction k with
  | zero =>
    intro fuel addr output ha hf hz _
    obtain ⟨f, rfl⟩ : ∃ f, fuel = f + 1 := ⟨fuel - 1, by omega⟩
    rw [printStringLoop, readByte_of_lt s ha]
    have h0 : s.memory addr = 0 := by
      rw [Nat.add_zero, Nat.mod_eq_of_lt ha] at hz; exact hz
    simp [h0]
  | succ k ih =>
    intro fuel addr output ha hf hz hnz
    obtain ⟨f, rfl⟩ : ∃ f, fuel = f + 1 := ⟨fuel - 1, by omega⟩
    rw [printStringLoop, readByte_of_lt s ha]
    have h0 : s.memory addr ≠ 0 := by
      have := hnz 0 (by omega)
      rw [Nat.add_zero, Nat.mod_eq_of_lt ha] at this; exact this
    have hnext : toU16 ((addr : Int) + 1) = (addr + 1) % 65536 := by unfold toU16; omega
    have hshift : ∀ j, ((addr + 1) % 65536 + j) % 65536 = (addr + (j + 1)) % 65536 := by
      intro j; omega
    simp only [if_neg h0, hnext]
    rw [ih f ((addr + 1) % 65536) _ (Nat.mod_lt _ (by decide)) (by omega)
      (by rw [hshift]; exact hz) (fun j hj => by rw [hshift]; exact hnz (j + 1) (by omega))]
    simp only [hshift, List.range_succ_eq_map, List.map_cons, List.map_map, Nat.add_zero,
      Nat.mod_eq_of_lt ha, List.append_assoc, List.singleton_append]
    rfl

theorem first_zero (s : Z16Simulator) (r : Nat) (hr : r < 65536)
    (hz : ∃ a, a < 65536 ∧ s.memory a = 0) :
    ∃ k, k < 65536 ∧ s.memory ((r + k) % 65536) = 0 ∧
      ∀ j, j < k → s.memory ((r + j) % 65536) ≠ 0 := by
  obtain ⟨a, ha, hza⟩ := hz
  have hex : ∃ k, k < 65536 ∧ s.memory ((r + k) % 65536) = 0 := by
    refine ⟨(a + 65536 - r) % 65536, Nat.mod_lt _ (by decide), ?_⟩
    have : (r + (a + 65536 - r) % 65536) % 65536 = a := by omega
    rw [this]; exact hza
  classical
  refine ⟨Nat.find hex, (Nat.find_spec hex).1, (Nat.find_spec hex).2, ?_⟩
  intro j hj h0
  exact Nat.find_min hex hj ⟨by have := (Nat.find_spec hex).1; omega, h0⟩

end Z16Simulator

/-- C29: for every well-formed state whose memory holds a zero byte
somewhere in `0..0xFFFF`, ecall 5 (SYS word, `funct3 = 000`, `service = 5`)
returns without a fault.  With `k` the distance from `regs[6]` to the first
zero byte met going upward with wrap-around at `0xFFFF`, it writes the one line
`Print string: ` followed by the `k` bytes before that zero, leaves every
register and every memory byte unchanged, and advances `pc` by 2 (mod 2^16);
the value returned is `true` exactly when the new `pc` is below `programSize`. -/
theorem C29_print_string (s : Z16Simulator) (io : Cout) (inst : Nat) (hs : s.WF)
    (hop : inst &&& 0x7 = 0x7) (hf : (inst >>> 3) &&& 0x7 = 0)
    (hsv : (inst >>> 6) &&& 0x3FF = 5) (hz : ∃ a, a < 65536 ∧ s.memory a = 0) :
    ∃ k, k < 65536 ∧ s.memory ((s.regs 6 + k) % 65536) = 0 ∧
      (∀ j, j < k → s.memory ((s.regs 6 + j) % 65536) ≠ 0) ∧
      (s.executeInstruction io inst).result = .ret (decide ((s.pc + 2) % 65536 < s.programSize)) ∧
      (s.executeInstruction io inst).cout = io.put ("Print string: " ++
        String.mk ((List.range k).map fun j => Char.ofNat (s.memory ((s.regs 6 + j) % 65536)))) ∧
      (s.executeInstruction io inst).sim.regs = s.regs ∧
      (s.executeInstruction io inst).sim.memory = s.memory ∧
      (s.executeInstruction io inst).sim.pc = (s.pc + 2) % 65536 := by
  obtain ⟨k, hk, hzk, hmin⟩ := first_zero s (s.regs 6) (hs.regs_lt 6) hz
  refine ⟨k, hk, hzk, hmin, ?_⟩
  have hloop := printStringLoop_spec s k MEM_SIZE (s.regs 6) [] (hs.regs_lt 6) hk hzk hmin
  have hpc : toU16 ((s.pc : Int) + 2) = (s.pc + 2) % 65536 := by unfold toU16; omega
  simp only [executeInstruction, execSwitch_SYS s io hop, execSYS, hf, hsv, hloop,
    Nat.reduceEqDiff, if_true, if_false, Bool.false_eq_true, List.nil_append, hpc]
  by_cases hlt : (s.pc + 2) % 65536 < s.programSize
  · simp [hlt, if_neg (Nat.not_le.mpr hlt)]
  · simp [hlt, if_pos (Nat.not_lt.mp hlt)]

/-- Witness for C29: with `a0 = 0x0100` and the bytes `H`, `i` at `0x0100` and
`0x0101` (zero elsewhere), ecall 5 (word `0x0147`) writes `Print string: Hi`. -/
theorem C29_print_string_witness :
    (((init.setReg 6 0x100).setMem 0x100 0x48).setMem 0x101 0x69).WF ∧
      (∃ k, k < 65536 ∧
        ((((init.setReg 6 0x100).setMem 0x100 0x48).setMem 0x101 0x69).executeInstruction
          ⟨false, []⟩ 0x0147).sim.pc = 2) ∧
      ((((init.setReg 6 0x100).setMem 0x100 0x48).setMem 0x101 0x69).executeInstruction
        ⟨false, []⟩ 0x0147).cout.lines = ["Print string: Hi"] :=
  ⟨((init_WF.setReg 6 (by decide)).setMem 0x100 (by decide)).setMem 0x101 (by decide),
    (C29_print_string (((init.setReg 6 0x100).setMem 0x100 0x48).setMem 0x101 0x69) ⟨false, []⟩
      0x0147 (((init_WF.setReg 6 (by decide)).setMem 0x100 (by decide)).setMem 0x101 (by decide))
      (by decide) (by decide) (by decide) ⟨0, by decide, by decide⟩).imp
      (fun _ h => ⟨h.1, h.2.2.2.2.2.2.2.trans (by decide)⟩),
    by decide⟩

namespace Z16Simulator

theorem exec_fault_S (s : Z16Simulator) (io : Cout) (inst : Nat) (hop : inst &&& 0x7 = 0x3) :
    ((∃ what, (s.executeInstruction io inst).result = .thrown what) ↔
        ((inst >>> 3) &&& 0x7 = 1 ∧
          (s.regs (regField inst 6) + ((inst >>> 12) &&& 0xF)) % 65536 = 0xFFFF)) ∧
      (∀ what, (s.executeInstruction io inst).result = .thrown what →
        (s.executeInstruction io inst).sim = s ∧ (s.executeInstruction io inst).cout = io) := by
  have hfld := toI8_field _ (field4_lt inst)
  have haddr : toU16 ((s.regs (regField inst 6) : Int) + (((inst >>> 12) &&& 0xF : Nat) : Int)) =
      (s.regs (regField inst 6) + ((inst >>> 12) &&& 0xF)) % 65536 := by
    unfold toU16; omega
  have hlt : (s.regs (regField inst 6) + ((inst >>> 12) &&& 0xF)) % 65536 < 65536 :=
    Nat.mod_lt _ (by decide)
  simp only [executeInstruction, execSwitch_S s io hop, execS, hfld, haddr]
  generalize (s.regs (regField inst 6) + ((inst >>> 12) &&& 0xF)) % 65536 = addr at hlt ⊢
  generalize (inst >>> 3) &&& 0x7 = funct3
  have hb : ¬ addr ≥ MEM_SIZE := by unfold MEM_SIZE; omega
  by_cases h0 : funct3 = 0
  · subst h0
    simp only [if_true, writeByte, if_neg hb, afterWrite, Bool.false_eq_true, if_false]
    constructor
    · constructor
      · rintro ⟨what, h⟩; split at h <;> simp at h
      · rintro ⟨h, _⟩; simp at h
    · intro what h; split at h <;> simp at h
  · by_cases h1 : funct3 = 1
    · subst h1
      by_cases hw : addr + 1 ≥ MEM_SIZE
      · have ha : addr = 0xFFFF := by unfold MEM_SIZE at hw; omega
        simp only [Nat.reduceEqDiff, if_true, if_false, writeWord, if_pos hw, afterWrite]
        exact ⟨⟨fun _ => ⟨trivial, ha⟩, fun _ => ⟨_, rfl⟩⟩, fun _ _ => ⟨trivial, trivial⟩⟩
      · have ha : addr ≠ 0xFFFF := by unfold MEM_SIZE at hw; omega
        simp only [Nat.reduceEqDiff, if_true, if_false, writeWord, if_neg hw, afterWrite,
          Bool.false_eq_true]
        constructor
        · constructor
          · rintro ⟨what, h⟩; split at h <;> simp at h
          · rintro ⟨_, h⟩; exact absurd h ha
        · intro what h; split at h <;> simp at h
    · simp only [if_neg h0, if_neg h1, Bool.false_eq_true, if_false]
      constructor
      · constructor
        · rintro ⟨what, h⟩; split at h <;> simp at h
        · rintro ⟨h, _⟩; exact absurd h h1
      · intro what h; split at h <;> simp at h

theorem exec_fault_L (s : Z16Simulator) (io : Cout) (inst : Nat) (hop : inst &&& 0x7 = 0x4) :
    ((∃ what, (s.executeInstruction io inst).result = .thrown what) ↔
        ((inst >>> 3) &&& 0x7 = 1 ∧
          (s.regs (regField inst 9) + ((inst >>> 12) &&& 0xF)) % 65536 = 0xFFFF)) ∧
      (∀ what, (s.executeInstruction io inst).result = .thrown what →
        (s.executeInstruction io inst).sim = s ∧ (s.executeInstruction io inst).cout = io) := by
  have hfld := toI8_field _ (field4_lt inst)
  have haddr : toU16 ((s.regs (regField inst 9) : Int) + (((inst >>> 12) &&& 0xF : Nat) : Int)) =
      (s.regs (regField inst 9) + ((inst >>> 12) &&& 0xF)) % 65536 := by
    unfold toU16; omega
  have hlt : (s.regs (regField inst 9) + ((inst >>> 12) &&& 0xF)) % 65536 < 65536 :=
    Nat.mod_lt _ (by decide)
  simp only [executeInstruction, execSwitch_L s io hop, execL, hfld, haddr]
  generalize (s.regs (regField inst 9) + ((inst >>> 12) &&& 0xF)) % 65536 = addr at hlt ⊢
  generalize (inst >>> 3) &&& 0x7 = funct3
  have hb : ¬ addr ≥ MEM_SIZE := by unfold MEM_SIZE; omega
  by_cases h0 : funct3 = 0
  · subst h0
    simp only [if_true, readByte, if_neg hb, afterRead, Bool.false_eq_true, if_false]
    constructor
    · constructor
      · rintro ⟨what, h⟩; split at h <;> simp at h
      · rintro ⟨h, _⟩; simp at h
    · intro what h; split at h <;> simp at h
  · by_cases h1 : funct3 = 1
    · subst h1
      by_cases hw : addr + 1 ≥ MEM_SIZE
      · have ha : addr = 0xFFFF := by unfold MEM_SIZE at hw; omega
        simp only [Nat.reduceEqDiff, if_true, if_false, readWord, if_pos hw, afterRead]
        exact ⟨⟨fun _ => ⟨trivial, ha⟩, fun _ => ⟨_, rfl⟩⟩, fun _ _ => ⟨trivial, trivial⟩⟩
      · have ha : addr ≠ 0xFFFF := by unfold MEM_SIZE at hw; omega
        simp only [Nat.reduceEqDiff, if_true, if_false, readWord, if_neg hw, afterRead,
          Bool.false_eq_true]
        constructor
        · constructor
          · rintro ⟨what, h⟩; split at h <;> simp at h
          · rintro ⟨_, h⟩; exact absurd h ha
        · intro what h; split at h <;> simp at h
    · by_cases h4 : funct3 = 4
      · subst h4
        simp only [Nat.reduceEqDiff, if_true, if_false, readByte, if_neg hb, afterRead,
          Bool.false_eq_true]
        constructor
        · constructor
          · rintro ⟨what, h⟩; split at h <;> simp at h
          · rintro ⟨h, _⟩; simp at h
        · intro what h; split at h <;> simp at h
      · simp only [if_neg h0, if_neg h1, if_neg h4, Bool.false_eq_true, if_false]
        constructor
        · constructor
          · rintro ⟨what, h⟩; split at h <;> simp at h
          · rintro ⟨h, _⟩; exact absurd h h1
        · intro what h; split at h <;> simp at h

theorem exec_fault_SYS (s : Z16Simulator) (io : Cout) (inst : Nat) (hs : s.WF)
    (hop : inst &&& 0x7 = 0x7) (what : String) :
    (s.executeInstruction io inst).result ≠ .thrown what := by
  by_cases h5 : (inst >>> 3) &&& 0x7 = 0 ∧ (inst >>> 6) &&& 0x3FF = 5
  · have hno := printStringLoop_not_thrown s MEM_SIZE (s.regs 6) [] (hs.regs_lt 6)
    simp only [executeInstruction, execSwitch_SYS s io hop, execSYS, h5.1, h5.2,
      Nat.reduceEqDiff, if_true, if_false]
    generalize printStringLoop s MEM_SIZE (s.regs 6) [] = o at hno ⊢
    cases o with
    | ret output => simp only [Bool.false_eq_true, if_false]; intro h; split at h <;> simp at h
    | thrown w => exact absurd rfl (hno w)
    | diverges => simp
  · obtain ⟨r, hr⟩ := returns_of_flow s io inst (by
      rw [execSwitch_SYS s io hop]; exact execSYS_returns s io inst h5)
    rw [hr]; simp

end Z16Simulator

/-- C28: for every well-formed state and every instruction word,
`executeInstruction` throws a memory fault if and only if the word is sw
(S-type, `funct3 = 001`) or lw (L-type, `funct3 = 001`) and the effective
address, base register plus offset field modulo 2^16, is `0xFFFF`; so byte
stores, byte loads and ecall 5 never fault.  When the fault is thrown every
register, every memory byte and `pc` are as before the call. -/
theorem C28_memory_fault (s : Z16Simulator) (io : Cout) (inst : Nat) (hs : s.WF) :
    let e := s.executeInstruction io inst
    let opcode := inst &&& 0x7
    let funct3 := (inst >>> 3) &&& 0x7
    let offset := (inst >>> 12) &&& 0xF
    ((∃ what, e.result = .thrown what) ↔
        (opcode = 3 ∧ funct3 = 1 ∧ (s.regs (regField inst 6) + offset) % 65536 = 0xFFFF) ∨
        (opcode = 4 ∧ funct3 = 1 ∧ (s.regs (regField inst 9) + offset) % 65536 = 0xFFFF)) ∧
      (∀ what, e.result = .thrown what →
        e.sim.regs = s.regs ∧ e.sim.memory = s.memory ∧ e.sim.pc = s.pc) := by
  have hop : inst &&& 0x7 < 8 := Nat.lt_succ_of_le Nat.and_le_right
  have hret : (∃ r, (s.executeInstruction io inst).result = .ret r) →
      inst &&& 0x7 ≠ 3 → inst &&& 0x7 ≠ 4 →
      ((∃ what, (s.executeInstruction io inst).result = .thrown what) ↔
        (inst &&& 0x7 = 3 ∧ (inst >>> 3) &&& 0x7 = 1 ∧
          (s.regs (regField inst 6) + ((inst >>> 12) &&& 0xF)) % 65536 = 0xFFFF) ∨
        (inst &&& 0x7 = 4 ∧ (inst >>> 3) &&& 0x7 = 1 ∧
          (s.regs (regField inst 9) + ((inst >>> 12) &&& 0xF)) % 65536 = 0xFFFF)) ∧
      (∀ what, (s.executeInstruction io inst).result = .thrown what →
        (s.executeInstruction io inst).sim.regs = s.regs ∧
        (s.executeInstruction io inst).sim.memory = s.memory ∧
        (s.executeInstruction io inst).sim.pc = s.pc) := by
    rintro ⟨r, hr⟩ h3 h4
    refine ⟨⟨?_, ?_⟩, ?_⟩
    · rintro ⟨what, h⟩; rw [hr] at h; simp at h
    · rintro (h | h)
      · exact absurd h.1 h3
      · exact absurd h.1 h4
    · intro what h; rw [hr] at h; simp at h
  show (_ ↔ _) ∧ _
  by_cases h3 : inst &&& 0x7 = 3
  · obtain ⟨hiff, hst⟩ := exec_fault_S s io inst h3
    refine ⟨hiff.trans ⟨fun h => Or.inl ⟨h3, h⟩, ?_⟩, fun what h => ?_⟩
    · rintro (h | h)
      · exact h.2
      · rw [h3] at h; exact absurd h.1 (by decide)
    · rw [(hst what h).1]; exact ⟨rfl, rfl, rfl⟩
  · by_cases h4 : inst &&& 0x7 = 4
    · obtain ⟨hiff, hst⟩ := exec_fault_L s io inst h4
      refine ⟨hiff.trans ⟨fun h => Or.inr ⟨h4, h⟩, ?_⟩, fun what h => ?_⟩
      · rintro (h | h)
        · rw [h4] at h; exact absurd h.1 (by decide)
        · exact h.2
      · rw [(hst what h).1]; exact ⟨rfl, rfl, rfl⟩
    · by_cases h7 : inst &&& 0x7 = 7
      · have hno := exec_fault_SYS s io inst hs h7
        refine ⟨⟨?_, ?_⟩, ?_⟩
        · rintro ⟨what, h⟩; exact absurd h (hno what)
        · rintro (h | h)
          · exact absurd h.1 h3
          · exact absurd h.1 h4
        · intro what h; exact absurd h (hno what)
      · apply hret _ h3 h4
        apply executeInstruction_returns
        omega

/-- Witness for C28: `sw t0, 0(s0)` (word `0x00CB`) with `s0 = 0xFFFF` faults
and leaves `pc` at 0. -/
theorem C28_memory_fault_witness :
    (init.setReg 3 0xFFFF).WF ∧
      (∃ what, ((init.setReg 3 0xFFFF).executeInstruction ⟨false, []⟩ 0x00CB).result =
        .thrown what) ∧
      ((init.setReg 3 0xFFFF).executeInstruction ⟨false, []⟩ 0x00CB).sim.pc = 0 :=
  ⟨init_WF.setReg 3 (by decide),
    (C28_memory_fault (init.setReg 3 0xFFFF) ⟨false, []⟩ 0x00CB
      (init_WF.setReg 3 (by decide))).1.mpr (Or.inl ⟨by decide, by decide, by decide⟩),
    by decide⟩
/-! ## The scenario image (C23) and the I-type text (C24) -/

/-- C23 (counterexample): run from the reset state, the image
`[0xC0, 0x0F, 0xC8, 0x0F, 0x01, 0x80]` is traced as `add a1, a1`, `slt a1, a1`,
`addi t0, -64` (the words `0x0FC0`, `0x0FC8`, `0x8001`), not as two `li` and an
`add t0, ra`, and it ends with `t0 = 0xFFC0` and `ra = 0`, not 12 and 6. -/
theorem C23_counterexample :
    (runExecution (loadImage [0xC0, 0x0F, 0xC8, 0x0F, 0x01, 0x80]) ⟨false, []⟩ []).out =
        ["0x0000: 0fc0  add a1, a1\n", "0x0002: 0fc8  slt a1, a1\n",
          "0x0004: 8001  addi t0, -64\n"] ∧
      (runExecution (loadImage [0xC0, 0x0F, 0xC8, 0x0F, 0x01, 0x80]) ⟨false, []⟩ []).sim.regs 0
        ≠ 12 ∧
      (runExecution (loadImage [0xC0, 0x0F, 0xC8, 0x0F, 0x01, 0x80]) ⟨false, []⟩ []).sim.regs 1
        ≠ 6 := by
  decide

/-- C23 (amended): run from the reset state, the image
`[0xC0, 0x0F, 0xC8, 0x0F, 0x01, 0x80]` returns normally after three
instructions, traced as `add a1, a1`, `slt a1, a1`, `addi t0, -64`, with
`t0 = 0xFFC0`, `ra = 0`, `sp = 0xFFFE`, every other register 0 and `pc = 6`.
The program `li t0, 6; li ra, 6; add t0, ra` is the image
`[0x39, 0x0C, 0x79, 0x0C, 0x00, 0x02]`: run from the reset state it is traced
under those three names and ends with `t0 = 12`, `ra = 6`, `sp = 0xFFFE`. -/
theorem C23_scenario :
    (runExecution (loadImage [0xC0, 0x0F, 0xC8, 0x0F, 0x01, 0x80]) ⟨false, []⟩ []).result =
        .ret true ∧
      (runExecution (loadImage [0xC0, 0x0F, 0xC8, 0x0F, 0x01, 0x80]) ⟨false, []⟩ []).out =
        ["0x0000: 0fc0  add a1, a1\n", "0x0002: 0fc8  slt a1, a1\n",
          "0x0004: 8001  addi t0, -64\n"] ∧
      (List.finRange 8).map
          (runExecution (loadImage [0xC0, 0x0F, 0xC8, 0x0F, 0x01, 0x80]) ⟨false, []⟩ []).sim.regs =
        [0xFFC0, 0, 0xFFFE, 0, 0, 0, 0, 0] ∧
      (runExecution (loadImage [0xC0, 0x0F, 0xC8, 0x0F, 0x01, 0x80]) ⟨false, []⟩ []).sim.pc = 6 ∧
      (runExecution (loadImage [0x39, 0x0C, 0x79, 0x0C, 0x00, 0x02]) ⟨false, []⟩ []).result =
        .ret true ∧
      (runExecution (loadImage [0x39, 0x0C, 0x79, 0x0C, 0x00, 0x02]) ⟨false, []⟩ []).out =
        ["0x0000: 0c39  li t0, 6\n", "0x0002: 0c79  li ra, 6\n", "0x0004: 0200  add t0, ra\n"] ∧
      (List.finRange 8).map
          (runExecution (loadImage [0x39, 0x0C, 0x79, 0x0C, 0x00, 0x02]) ⟨false, []⟩ []).sim.regs =
        [12, 6, 0xFFFE, 0, 0, 0, 0, 0] := by
  decide

/-- The text of every recognised I-type word: mnemonic, register name, and the
immediate as a decimal number, except that sltui's immediate is written as
one character. -/
theorem disassemble_itype (addr inst : Nat) (hop : inst &&& 0x7 = 0x1) :
    let imm7 := (inst >>> 9) &&& 0x7F
    let imm3 := (inst >>> 13) &&& 0x7
    let reg := regNames (regField inst 6)
    let funct3 := (inst >>> 3) &&& 0x7
    (funct3 = 0 → disassemble addr inst = "addi " ++ reg ++ ", " ++ toString (sext7 imm7)) ∧
      (funct3 = 1 → disassemble addr inst = "slti " ++ reg ++ ", " ++ toString (sext7 imm7)) ∧
      (funct3 = 2 →
        disassemble addr inst = "sltui " ++ reg ++ ", " ++ String.singleton (Char.ofNat imm7)) ∧
      (funct3 = 3 → imm3 = 1 →
        disassemble addr inst = "slli " ++ reg ++ ", " ++ toString (imm7 &&& 0xF)) ∧
      (funct3 = 3 → imm3 = 2 →
        disassemble addr inst = "srli " ++ reg ++ ", " ++ toString (imm7 &&& 0xF)) ∧
      (funct3 = 3 → imm3 = 4 →
        disassemble addr inst = "srai " ++ reg ++ ", " ++ toString (imm7 &&& 0xF)) ∧
      (funct3 = 4 → disassemble addr inst = "ori " ++ reg ++ ", " ++ toString (sext7 imm7)) ∧
      (funct3 = 5 → disassemble addr inst = "andi " ++ reg ++ ", " ++ toString (sext7 imm7)) ∧
      (funct3 = 6 → disassemble addr inst = "xori " ++ reg ++ ", " ++ toString (sext7 imm7)) ∧
      (funct3 = 7 → disassemble addr inst = "li " ++ reg ++ ", " ++ toString (sext7 imm7)) := by
  have hlt : (inst >>> 9) &&& 0x7F < 128 := Nat.lt_succ_of_le Nat.and_le_right
  have hs := simm_eq _ hlt
  simp only [disassemble, hop, hs, Nat.reduceEqDiff, if_true, if_false]
  refine ⟨?_, ?_, ?_, ?_, ?_, ?_, ?_, ?_, ?_, ?_⟩ <;> intro h
  · simp only [h, if_true]
  · simp only [h, Nat.reduceEqDiff, if_true, if_false]
  · simp only [h, Nat.reduceEqDiff, if_true, if_false]
  · intro h3; simp only [h, h3, Nat.reduceEqDiff, if_true, if_false, and_self]
  · intro h3; simp only [h, h3, Nat.reduceEqDiff, if_true, if_false, and_self, and_false]
  · intro h3; simp only [h, h3, Nat.reduceEqDiff, if_true, if_false, and_self, and_false]
  · simp only [h, Nat.reduceEqDiff, if_true, if_false, false_and]
  · simp only [h, Nat.reduceEqDiff, if_true, if_false, false_and]
  · simp only [h, Nat.reduceEqDiff, if_true, if_false, false_and]
  · simp only [h, Nat.reduceEqDiff, if_true, if_false, false_and]

/-- C24 (the code at the failing input): the I-type word `0x8211`
(`funct3 = 010`, sltui, register field 0, immediate field 65) is disassembled
as `sltui t0, A`: the immediate, a `uint8_t`, is written as the single
character with code 65, not as the decimal number 65.  The word `0x8209`, slti
with the same fields, is disassembled with a decimal number. -/
theorem C24_sltui_immediate_is_a_character (addr : Nat) :
    (0x8211 &&& 0x7 = 1 ∧ (0x8211 >>> 3) &&& 0x7 = 2 ∧ (0x8211 >>> 9) &&& 0x7F = 65) ∧
      disassemble addr 0x8211 = "sltui t0, A" ∧
      disassemble addr 0x8211 ≠ "sltui t0, 65" ∧
      disassemble addr 0x8209 = "slti t0, -63" := by
  have h : disassemble addr 0x8211 = "sltui t0, A" := rfl
  refine ⟨by decide, h, ?_, rfl⟩
  rw [h]; decide

/-! ## The linear walk (C21, C22, C25, C26) -/

namespace Z16Simulator

theorem not_text_iff (b : Nat) : (!isprint b && !isspace b) = true ↔ ¬ IsTextByte b := by
  simp only [isprint, isspace, IsTextByte, Bool.and_eq_true, Bool.not_eq_true',
    decide_eq_false_iff_not]
  omega

theorem probeLoop_spec (s : Z16Simulator) (addr : Nat) (hps : s.programSize ≤ 65536) :
    ∀ (fuel probe : Nat) (candidate : List Char), addr ≤ probe → probe - addr ≤ MAX_PROBE →
      MAX_PROBE + 1 ≤ fuel + (probe - addr) →
      ∃ p c nf, probeLoop s addr fuel probe candidate = .ret (p, c, nf) ∧ probe ≤ p ∧
        c = candidate ++ (List.range (p - probe)).map (fun j => Char.ofNat (s.memory (probe + j))) ∧
        (∀ j, j < p - probe → s.memory (probe + j) ≠ 0 ∧ IsTextByte (s.memory (probe + j))) ∧
        (nf = true → p < s.programSize ∧ p - addr < MAX_PROBE ∧ s.memory p = 0) ∧
        (nf = false → ¬ (p < s.programSize ∧ p - addr < MAX_PROBE) ∨
          (s.memory p ≠ 0 ∧ ¬ IsTextByte (s.memory p))) := by
  intro fuel
  induction fuel with
  | zero =>
    intro probe candidate h1 h2 h3
    omega
  | succ n ih =>
    intro probe candidate h1 h2 h3
    rw [probeLoop]
    by_cases hc : probe < s.programSize ∧ (probe : Int) - addr < MAX_PROBE
    · have hlt : probe < 65536 := by omega
      have hsub : probe - addr < MAX_PROBE := by
        have := hc.2; unfold MAX_PROBE at this ⊢; omega
      rw [if_pos hc, toU16_natCast, Nat.mod_eq_of_lt hlt, readByte_of_lt s hlt]
      simp only
      by_cases h0 : s.memory probe = 0
      · rw [if_pos h0]
        exact ⟨probe, candidate, true, rfl, Nat.le_refl _, by simp, fun j hj => by omega,
          fun _ => ⟨hc.1, hsub, h0⟩, fun h => by simp at h⟩
      · rw [if_neg h0]
        by_cases ht : (!isprint (s.memory probe) && !isspace (s.memory probe)) = true
        · rw [if_pos ht]
          exact ⟨probe, candidate, false, rfl, Nat.le_refl _, by simp, fun j hj => by omega,
            fun h => by simp at h, fun _ => Or.inr ⟨h0, (not_text_iff _).mp ht⟩⟩
        · rw [if_neg ht]
          have htext : IsTextByte (s.memory probe) := by
            by_contra hn; exact ht ((not_text_iff _).mpr hn)
          obtain ⟨p, c, nf, hr, hle, hcand, hall, hnf, hnn⟩ :=
            ih (probe + 1) (candidate ++ [Char.ofNat (s.memory probe)]) (by omega)
              (by unfold MAX_PROBE at *; omega) (by omega)
          refine ⟨p, c, nf, hr, by omega, ?_, ?_, hnf, hnn⟩
          · rw [hcand]
            have hp : p - probe = (p - (probe + 1)) + 1 := by omega
            rw [hp, List.range_succ_eq_map]
            simp only [List.map_cons, List.map_map, Nat.add_zero, List.append_assoc,
              List.singleton_append]
            congr 2
            apply List.map_congr_left
            intro j _
            simp only [Function.comp]
            congr 2
            omega
          · intro j hj
            by_cases hj0 : j = 0
            · subst hj0; exact ⟨h0, htext⟩
            · have := hall (j - 1) (by omega)
              have he : probe + 1 + (j - 1) = probe + j := by omega
              rw [he] at this
              exact this
    · rw [if_neg hc]
      refine ⟨probe, candidate, false, rfl, Nat.le_refl _, by simp, fun j hj => by omega,
        fun h => by simp at h, fun _ => Or.inl ?_⟩
      intro h
      apply hc
      refine ⟨h.1, ?_⟩
      have := h.2
      unfold MAX_PROBE at this ⊢
      omega

theorem zeroRun_spec (s : Z16Simulator) (hps : s.programSize ≤ 65535) :
    ∀ (fuel addr zeroCount : Nat), (s.programSize - addr) / 2 < fuel →
      ∃ n, zeroRun s fuel addr zeroCount = .ret (addr + 2 * n, zeroCount + n) ∧
        (∀ i, i < n → addr + 2 * i + 1 < s.programSize ∧ s.readWord (addr + 2 * i) = .ret 0) ∧
        ¬ (addr + 2 * n + 1 < s.programSize ∧ s.readWord (addr + 2 * n) = .ret 0) := by
  intro fuel
  induction fuel with
  | zero => intro addr zeroCount h; omega
  | succ m ih =>
    intro addr zeroCount hf
    rw [zeroRun]
    by_cases hc : addr + 1 < s.programSize
    · have hlt : addr + 1 < 65536 := by omega
      rw [if_pos hc, readWord_of_lt s hlt]
      simp only
      by_cases hw : toU16 ((s.memory addr ||| (s.memory (addr + 1) <<< 8) : Nat)) = 0
      · rw [if_pos hw]
        have hnext : toU16 ((addr : Int) + 2) = addr + 2 := by unfold toU16; omega
        rw [hnext]
        obtain ⟨n, hr, hall, hstop⟩ := ih (addr + 2) (zeroCount + 1) (by omega)
        refine ⟨n + 1, ?_, ?_, ?_⟩
        · rw [hr]; congr 2 <;> omega
        · intro i hi
          by_cases hi0 : i = 0
          · subst hi0
            exact ⟨hc, by rw [Nat.mul_zero, Nat.add_zero, readWord_of_lt s hlt, hw]⟩
          · have := hall (i - 1) (by omega)
            have he : addr + 2 + 2 * (i - 1) = addr + 2 * i := by omega
            rw [he] at this
            exact this
        · have he : addr + 2 + 2 * n = addr + 2 * (n + 1) := by omega
          rw [← he]; exact hstop
      · rw [if_neg hw]
        refine ⟨0, rfl, fun i hi => by omega, ?_⟩
        rintro ⟨_, h⟩
        rw [Nat.mul_zero, Nat.add_zero, readWord_of_lt s hlt] at h
        exact hw (Outcome.ret.inj h)
    · rw [if_neg hc]
      exact ⟨0, rfl, fun i hi => by omega, fun h => hc (by simpa using h.1)⟩

end Z16Simulator

theorem Tiles_append : ∀ (xs ys : List Z16Simulator.Item) (a m e : Nat),
    Tiles a xs m → Tiles m ys e → Tiles a (xs ++ ys) e := by
  intro xs
  induction xs with
  | nil => intro ys a m e h1 h2; simp only [Tiles] at h1; subst h1; exact h2
  | cons x xs ih =>
    intro ys a m e h1 h2
    exact ⟨h1.1, ih ys _ m e h1.2 h2⟩

theorem ByteOnlyLast_append : ∀ (xs ys : List Z16Simulator.Item),
    ByteOnlyLast xs → ByteOnlyLast ys → ((∃ it, it ∈ xs ∧ isByteItem it) → ys = []) →
    ByteOnlyLast (xs ++ ys) := by
  intro xs
  induction xs with
  | nil => intro ys _ h2 _; exact h2
  | cons x xs ih =>
    intro ys h1 h2 h3
    refine ⟨fun hb => ?_, ih ys h1.2 h2 (fun ⟨it, hit, hb⟩ => h3 ⟨it, List.mem_cons_of_mem _ hit, hb⟩)⟩
    rw [h1.1 hb, h3 ⟨x, List.mem_cons_self _ _, hb⟩]
    rfl

theorem byteOnlyLast_of_none : ∀ (xs : List Z16Simulator.Item),
    (∀ it, it ∈ xs → ¬ isByteItem it) → ByteOnlyLast xs := by
  intro xs
  induction xs with
  | nil => intro _; trivial
  | cons x xs ih =>
    intro h
    exact ⟨fun hb => absurd hb (h x (List.mem_cons_self _ _)),
      ih (fun it hit => h it (List.mem_cons_of_mem _ hit))⟩

theorem byte_start_of_tiles : ∀ (xs : List Z16Simulator.Item) (a e : Nat),
    Tiles a xs e → ByteOnlyLast xs → ∀ it, it ∈ xs → isByteItem it → itemStart it + 1 = e := by
  intro xs
  induction xs with
  | nil => intro a e _ _ it hit; cases hit
  | cons x xs ih =>
    intro a e ht hb it hit hbyte
    rcases List.mem_cons.mp hit with rfl | hmem
    · have hnil := hb.1 hbyte
      subst hnil
      have h1 := ht.1
      have h2 : a + itemExtent it = e := ht.2
      cases it <;> simp only [isByteItem] at hbyte
      simp only [itemStart, itemExtent] at h1 h2 ⊢
      omega
    · exact ih _ e ht.2 hb.2 it hmem hbyte

theorem zeroWords_tiles : ∀ (n a : Nat),
    Tiles a ((List.range n).map fun i => Z16Simulator.Item.zeroWord (a + i * 2)) (a + 2 * n) := by
  intro n
  induction n with
  | zero => intro a; rfl
  | succ n ih =>
    intro a
    rw [List.range_succ_eq_map]
    simp only [List.map_cons, List.map_map]
    refine ⟨by simp [itemStart], ?_⟩
    have h := ih (a + 2)
    have he : a + 2 + 2 * n = a + 2 * (n + 1) := by omega
    rw [he] at h
    have hf : ((fun i => Z16Simulator.Item.zeroWord (a + i * 2)) ∘ Nat.succ) =
        fun i => Z16Simulator.Item.zeroWord (a + 2 + i * 2) := by
      funext i
      simp only [Function.comp]
      congr 1
      omega
    rw [hf]
    exact h

namespace Z16Simulator

theorem walkInstr_spec (s : Z16Simulator) (hps : s.programSize ≤ 65535) (addr : Nat)
    (ha : addr < s.programSize) :
    ∃ items addr1, walkInstr s addr = .ret (items, addr1) ∧ addr < addr1 ∧
      addr1 ≤ s.programSize ∧ Tiles addr items addr1 ∧ ByteOnlyLast items ∧
      ((∃ it, it ∈ items ∧ isByteItem it) → addr1 = s.programSize) := by
  unfold walkInstr
  by_cases hc : addr + 1 < s.programSize
  · have hlt : addr + 1 < 65536 := by omega
    have hnext : toU16 ((addr : Int) + 2) = addr + 2 := by unfold toU16; omega
    rw [if_pos hc, readWord_of_lt s hlt, hnext]
    simp only
    split
    · refine ⟨_, _, rfl, by omega, by omega, ⟨rfl, rfl⟩, ⟨fun h => h.elim, trivial⟩, ?_⟩
      rintro ⟨it, hit, hb⟩
      rw [List.mem_singleton] at hit
      subst hit
      exact hb.elim
    · refine ⟨_, _, rfl, by omega, by omega, ⟨rfl, rfl⟩, ⟨fun h => h.elim, trivial⟩, ?_⟩
      rintro ⟨it, hit, hb⟩
      rw [List.mem_singleton] at hit
      subst hit
      exact hb.elim
  · have hlt : addr < 65536 := by omega
    have hnext : toU16 ((addr : Int) + 1) = addr + 1 := by unfold toU16; omega
    rw [if_neg hc, readByte_of_lt s hlt, hnext]
    exact ⟨_, _, rfl, by omega, by omega, ⟨rfl, rfl⟩, ⟨fun _ => rfl, trivial⟩, fun _ => by omega⟩

theorem walkStep_spec (s : Z16Simulator) (hps : s.programSize ≤ 65535) (addr : Nat)
    (ha : addr < s.programSize) :
    ∃ items addr1, walkStep s addr = .ret (items, addr1) ∧ addr < addr1 ∧
      addr1 ≤ s.programSize ∧ Tiles addr items addr1 ∧ ByteOnlyLast items ∧
      ((∃ it, it ∈ items ∧ isByteItem it) → addr1 = s.programSize) := by
  obtain ⟨p, c, nf, hr, hle, hcand, _, hnf, _⟩ :=
    probeLoop_spec s addr (by omega) (MAX_PROBE + 1) addr [] (Nat.le_refl _) (by omega) (by omega)
  have hlen : c.length = p - addr := by rw [hcand]; simp
  unfold walkStep
  rw [hr]
  simp only
  by_cases hstr : nf = true ∧ c.length ≥ MIN_STR_LEN
  · have hp := (hnf hstr.1).1
    have hnext : toU16 ((p : Int) + 1) = p + 1 := by unfold toU16; omega
    rw [if_pos hstr, hnext]
    refine ⟨_, _, rfl, by omega, by omega, ⟨rfl, ?_⟩, ⟨fun h => h.elim, trivial⟩, ?_⟩
    · show addr + (c.length + 1) = p + 1
      omega
    · rintro ⟨it, hit, hb⟩
      rw [List.mem_singleton] at hit
      subst hit
      exact hb.elim
  · rw [if_neg hstr]
    unfold walkData
    by_cases hc : addr + 1 < s.programSize
    · have hlt : addr + 1 < 65536 := by omega
      rw [if_pos hc, readWord_of_lt s hlt]
      simp only
      by_cases hw : toU16 ((s.memory addr ||| (s.memory (addr + 1) <<< 8) : Nat)) = 0
      · rw [if_pos hw]
        obtain ⟨n, hz, hall, hstop⟩ := zeroRun_spec s hps MEM_SIZE addr 0 (by unfold MEM_SIZE; omega)
        have hn : 1 ≤ n := by
          by_contra h0
          have : n = 0 := by omega
          subst this
          exact hstop ⟨hc, by rw [Nat.mul_zero, Nat.add_zero, readWord_of_lt s hlt, hw]⟩
        have hend := (hall (n - 1) (by omega)).1
        rw [hz]
        simp only [Nat.zero_add]
        by_cases ht : n ≥ THRESHOLD
        · rw [if_pos ht]
          refine ⟨_, _, rfl, by omega, by omega, ⟨rfl, rfl⟩, ⟨fun h => h.elim, trivial⟩, ?_⟩
          rintro ⟨it, hit, hb⟩
          rw [List.mem_singleton] at hit
          subst hit
          exact hb.elim
        · rw [if_neg ht]
          have hnone : ∀ it, it ∈ (List.range n).map (fun i => Item.zeroWord (addr + i * 2)) →
              ¬ isByteItem it := by
            intro it hit hb
            obtain ⟨i, _, rfl⟩ := List.mem_map.mp hit
            exact hb.elim
          exact ⟨_, _, rfl, by omega, by omega, zeroWords_tiles n addr,
            byteOnlyLast_of_none _ hnone, fun ⟨it, hit, hb⟩ => absurd hb (hnone it hit)⟩
      · rw [if_neg hw]
        exact walkInstr_spec s hps addr ha
    · rw [if_neg hc]
      exact walkInstr_spec s hps addr ha

theorem walk_spec (s : Z16Simulator) (hps : s.programSize ≤ 65535) :
    ∀ (fuel addr : Nat) (out : List Item), addr ≤ s.programSize → s.programSize - addr < fuel →
      ∃ items, walk s fuel addr out = (.ret (), out ++ items) ∧
        Tiles addr items s.programSize ∧ ByteOnlyLast items ∧
        (addr = s.programSize → items = []) := by
  intro fuel
  induction fuel with
  | zero => intro addr out _ h; omega
  | succ n ih =>
    intro addr out hle hf
    rw [walk]
    by_cases ha : addr < s.programSize
    · obtain ⟨items, addr1, hstep, hlt, hle1, htile, hbyte, hlast⟩ := walkStep_spec s hps addr ha
      rw [if_pos ha, hstep]
      simp only
      obtain ⟨rest, hw, htile2, hbyte2, hnil⟩ := ih addr1 (out ++ items) hle1 (by omega)
      refine ⟨items ++ rest, ?_, Tiles_append _ _ _ _ _ htile htile2,
        ByteOnlyLast_append _ _ hbyte hbyte2 (fun h => hnil (hlast h)), fun h => by omega⟩
      rw [hw, List.append_assoc]
    · rw [if_neg ha]
      have he : addr = s.programSize := by omega
      exact ⟨[], by simp, he, trivial, fun _ => rfl⟩

end Z16Simulator

/-- C26: for every memory content and every `programSize ≤ 65535`,
`runFullDisassembly` returns, and the lines it has written tile the image:
counting `k + 1` bytes for an `.asciiz` line of `k` characters, `2N` bytes for
a `.space` line of `N` zero words, 2 bytes for each `.word` and instruction
line and 1 byte for a `.byte` line, the first line starts at address 0, each
line starts where the one before ended, the last ends at `programSize`; a
`.byte` line is followed by no other line and is printed with the address
`programSize - 1`. -/
theorem C26_walk_tiles_image (s : Z16Simulator) (hps : s.programSize ≤ 65535) :
    ∃ items, runFullDisassembly s = (.ret (), items) ∧
      Tiles 0 items s.programSize ∧ ByteOnlyLast items ∧
      ∀ it, it ∈ items → isByteItem it → itemStart it + 1 = s.programSize := by
  obtain ⟨items, hw, htile, hbyte, _⟩ :=
    walk_spec s hps (MEM_SIZE + 1) 0 [] (Nat.zero_le _) (by unfold MEM_SIZE; omega)
  exact ⟨items, by rw [runFullDisassembly, hw, List.nil_append], htile, hbyte,
    byte_start_of_tiles items 0 _ htile hbyte⟩

/-- Witness for C26: the image `"Hello\0"`, eight zero bytes, the word
`0x0200` (`add t0, ra`) and a last byte `0x07`. -/
theorem C26_walk_tiles_image_witness :
    (loadImage [0x48, 0x65, 0x6C, 0x6C, 0x6F, 0, 0, 0, 0, 0, 0, 0, 0, 0, 0x00, 0x02,
        0x07]).programSize ≤ 65535 ∧
      (∃ items, runFullDisassembly (loadImage [0x48, 0x65, 0x6C, 0x6C, 0x6F, 0, 0, 0, 0, 0, 0, 0,
          0, 0, 0x00, 0x02, 0x07]) = (.ret (), items) ∧ Tiles 0 items 17) ∧
      (runFullDisassembly (loadImage [0x48, 0x65, 0x6C, 0x6C, 0x6F, 0, 0, 0, 0, 0, 0, 0, 0, 0,
          0x00, 0x02, 0x07])).2.map Item.render =
        ["0x0000: .asciiz \"Hello\"\n", "0x0006: .space 8 bytes\n",
          "0x000e: 0200  add t0, ra\n", "0x0010: .byte 0x07\n"] :=
  ⟨by decide,
    (C26_walk_tiles_image (loadImage [0x48, 0x65, 0x6C, 0x6C, 0x6F, 0, 0, 0, 0, 0, 0, 0, 0, 0,
      0x00, 0x02, 0x07]) (by decide)).imp (fun _ h => ⟨h.1, h.2.1⟩),
    by decide⟩

namespace Z16Simulator

theorem zeroRun_addr_lt (s : Z16Simulator) :
    ∀ (fuel addr zeroCount a z : Nat), addr < 65536 →
      zeroRun s fuel addr zeroCount = .ret (a, z) → a < 65536 := by
  intro fuel
  induction fuel with
  | zero => intro addr zeroCount a z _ h; simp [zeroRun] at h
  | succ n ih =>
    intro addr zeroCount a z ha h
    rw [zeroRun] at h
    generalize s.readWord addr = r at h
    split at h
    · cases r with
      | ret word =>
        simp only at h
        split at h
        · exact ih _ _ a z (toU16_lt _) h
        · simp only [Outcome.ret.injEq, Prod.mk.injEq] at h
          omega
      | thrown what => simp at h
      | diverges => simp at h
    · simp only [Outcome.ret.injEq, Prod.mk.injEq] at h
      omega

theorem walkInstr_addr_lt (s : Z16Simulator) (addr : Nat) (items : List Item) (addr1 : Nat)
    (h : walkInstr s addr = .ret (items, addr1)) : addr1 < 65536 := by
  unfold walkInstr at h
  generalize s.readWord addr = r at h
  generalize s.readByte addr = b at h
  split at h
  · cases r with
    | ret word =>
      simp only at h
      split at h <;>
        (simp only [Outcome.ret.injEq, Prod.mk.injEq] at h; rw [← h.2]; exact toU16_lt _)
    | thrown what => simp at h
    | diverges => simp at h
  · cases b with
    | ret v =>
      simp only [Outcome.ret.injEq, Prod.mk.injEq] at h
      rw [← h.2]; exact toU16_lt _
    | thrown what => simp at h
    | diverges => simp at h

theorem walkStep_addr_lt (s : Z16Simulator) (addr : Nat) (ha : addr < 65536)
    (items : List Item) (addr1 : Nat) (h : walkStep s addr = .ret (items, addr1)) :
    addr1 < 65536 := by
  unfold walkStep walkData at h
  generalize probeLoop s addr (MAX_PROBE + 1) addr [] = pr at h
  have hz := zeroRun_addr_lt s MEM_SIZE addr 0
  generalize zeroRun s MEM_SIZE addr 0 = zr at h hz
  have hi := walkInstr_addr_lt s addr
  generalize walkInstr s addr = wi at h hi
  generalize s.readWord addr = r at h
  cases pr with
  | thrown what => simp at h
  | diverges => simp at h
  | ret v =>
    obtain ⟨probe, candidate, nullFound⟩ := v
    simp only at h
    split at h
    · simp only [Outcome.ret.injEq, Prod.mk.injEq] at h
      rw [← h.2]; exact toU16_lt _
    · split at h
      · cases r with
        | thrown what => simp at h
        | diverges => simp at h
        | ret word =>
          simp only at h
          split at h
          · cases zr with
            | thrown what => simp at h
            | diverges => simp at h
            | ret w =>
              obtain ⟨a, z⟩ := w
              simp only at h
              have hlt := hz a z ha rfl
              split at h <;>
                (simp only [Outcome.ret.injEq, Prod.mk.injEq] at h; rw [← h.2]; exact hlt)
          · exact hi items addr1 h
      · exact hi items addr1 h

theorem walk_never_returns (s : Z16Simulator) (hps : s.programSize = 65536) :
    ∀ (fuel addr : Nat) (out : List Item), addr < 65536 → (walk s fuel addr out).1 ≠ .ret () := by
  intro fuel
  induction fuel with
  | zero => intro addr out _; simp [walk]
  | succ n ih =>
    intro addr out ha
    rw [walk, if_pos (by omega)]
    have hs := walkStep_addr_lt s addr ha
    generalize walkStep s addr = st at hs
    cases st with
    | thrown what => simp
    | diverges => simp
    | ret v =>
      obtain ⟨items, addr1⟩ := v
      exact ih addr1 _ (hs items addr1 rfl)

theorem zeroRun_zero_image :
    ∀ (fuel addr zeroCount : Nat), addr % 2 = 0 → addr < 65536 →
      zeroRun { init with programSize := 65536 } fuel addr zeroCount = .diverges := by
  intro fuel
  induction fuel with
  | zero => intro addr zeroCount _ _; rfl
  | succ n ih =>
    intro addr zeroCount he ha
    have hlt : addr + 1 < 65536 := by omega
    rw [zeroRun, if_pos (show addr + 1 < 65536 from hlt), readWord_of_lt _ hlt]
    have hw : toU16 (((0 : Nat) ||| ((0 : Nat) <<< 8) : Nat)) = 0 := by decide
    simp only [init, hw, if_true]
    exact ih _ _ (toU16_even _ (by omega)) (toU16_lt _)

end Z16Simulator

namespace Z16Simulator

theorem zeroRun_not_thrown (s : Z16Simulator) (hps : s.programSize ≤ 65536) :
    ∀ (fuel addr zeroCount : Nat) (what : String),
      zeroRun s fuel addr zeroCount ≠ .thrown what := by
  intro fuel
  induction fuel with
  | zero => intro addr zeroCount what h; simp [zeroRun] at h
  | succ n ih =>
    intro addr zeroCount what
    rw [zeroRun]
    by_cases hc : addr + 1 < s.programSize
    · rw [if_pos hc, readWord_of_lt s (by omega)]
      simp only
      split
      · exact ih _ _ what
      · simp
    · rw [if_neg hc]; simp

theorem walkInstr_not_thrown (s : Z16Simulator) (hps : s.programSize ≤ 65536) (addr : Nat)
    (ha : addr < 65536) (what : String) : walkInstr s addr ≠ .thrown what := by
  unfold walkInstr
  by_cases hc : addr + 1 < s.programSize
  · rw [if_pos hc, readWord_of_lt s (by omega)]
    simp only
    split <;> simp
  · rw [if_neg hc, readByte_of_lt s ha]
    simp

theorem walkData_not_thrown (s : Z16Simulator) (hps : s.programSize ≤ 65536) (addr : Nat)
    (ha : addr < 65536) (what : String) : walkData s addr ≠ .thrown what := by
  unfold walkData
  by_cases hc : addr + 1 < s.programSize
  · rw [if_pos hc, readWord_of_lt s (by omega)]
    simp only
    split
    · have hz := zeroRun_not_thrown s hps MEM_SIZE addr 0
      generalize zeroRun s MEM_SIZE addr 0 = zr at hz
      cases zr with
      | ret v =>
        obtain ⟨a, z⟩ := v
        simp only
        split <;> simp
      | thrown w => exact absurd rfl (hz w)
      | diverges => simp
    · exact walkInstr_not_thrown s hps addr ha what
  · rw [if_neg hc]
    exact walkInstr_not_thrown s hps addr ha what

theorem walkStep_not_thrown (s : Z16Simulator) (hps : s.programSize ≤ 65536) (addr : Nat)
    (ha : addr < 65536) (what : String) : walkStep s addr ≠ .thrown what := by
  obtain ⟨p, c, nf, hr, _⟩ :=
    probeLoop_spec s addr hps (MAX_PROBE + 1) addr [] (Nat.le_refl _) (by omega) (by omega)
  unfold walkStep
  rw [hr]
  simp only
  split
  · simp
  · exact walkData_not_thrown s hps addr ha what

theorem walk_not_thrown (s : Z16Simulator) (hps : s.programSize ≤ 65536) :
    ∀ (fuel addr : Nat) (out : List Item) (what : String), addr < 65536 →
      (walk s fuel addr out).1 ≠ .thrown what := by
  intro fuel
  induction fuel with
  | zero => intro addr out what _; simp [walk]
  | succ n ih =>
    intro addr out what ha
    rw [walk]
    split
    · have hs := walkStep_addr_lt s addr ha
      have ht := walkStep_not_thrown s hps addr ha
      generalize walkStep s addr = st at hs ht
      cases st with
      | thrown w => exact absurd rfl (ht w)
      | diverges => simp
      | ret v =>
        obtain ⟨items, addr1⟩ := v
        exact ih addr1 _ what (hs items addr1 rfl)
    · simp

theorem walk_diverges_at_full_size (s : Z16Simulator) (hps : s.programSize = 65536)
    (fuel : Nat) : (walk s fuel 0 []).1 = .diverges := by
  have h1 := walk_never_returns s hps fuel 0 [] (by decide)
  have h2 := walk_not_thrown s (by omega) fuel 0 [] 
  generalize (walk s fuel 0 []).1 = r at h1 h2
  cases r with
  | ret u => exact absurd rfl h1
  | thrown w => exact absurd rfl (h2 w (by decide))
  | diverges => rfl

end Z16Simulator


/-- C25 (the code at the failing inputs): with `programSize = 65536`, the
size of the largest image, and any memory content, the walk does not end,
whatever the number of iterations allowed, and `runFullDisassembly` does not
return: `addr` is a 16-bit value, so `addr < programSize` holds before every
iteration, and the additions that move `addr` wrap to 0.  For the image of
65536 zero bytes the first iteration already never ends (the loop counting
zero words wraps around), so nothing is written. -/
theorem C25_walk_never_ends_at_full_size (s : Z16Simulator) (fuel : Nat) :
    (walk { s with programSize := 65536 } fuel 0 []).1 = .diverges ∧
      (runFullDisassembly { s with programSize := 65536 }).1 = .diverges ∧
      runFullDisassembly { init with programSize := 65536 } = (.diverges, []) := by
  have hstep : walkStep { init with programSize := 65536 } 0 = .diverges := by
    have hp : probeLoop { init with programSize := 65536 } 0 (MAX_PROBE + 1) 0 [] =
        .ret (0, [], true) := by decide
    have hr : ({ init with programSize := 65536 } : Z16Simulator).readWord 0 = .ret 0 := by decide
    unfold walkStep walkData
    rw [hp]
    simp only [hr, zeroRun_zero_image MEM_SIZE 0 0 rfl (by decide)]
    decide
  refine ⟨walk_diverges_at_full_size _ rfl fuel, walk_diverges_at_full_size _ rfl _, ?_⟩
  rw [runFullDisassembly, walk, if_pos (by decide), hstep]

/-- C21 (the code at the failing input): for the image of sixteen zero bytes
followed by the word `0x0200` (`add t0, ra`), the iteration at address 0 counts
eight zero words, writes the single line `0x0000: .space 10 bytes` and resumes
at `0x0010`: the byte count 16 is written in hexadecimal, because the `hex`
sent for the address earlier in the same statement stays in force. -/
theorem C21_space_count_is_hexadecimal :
    walkStep (loadImage [0, 0, 0, 0, 0, 0, 0, 0, 0, 0, 0, 0, 0, 0, 0, 0, 0x00, 0x02]) 0 =
        .ret ([.space 0 8], 16) ∧
      (runFullDisassembly
          (loadImage [0, 0, 0, 0, 0, 0, 0, 0, 0, 0, 0, 0, 0, 0, 0, 0, 0x00, 0x02])).2.map
          Item.render =
        ["0x0000: .space 10 bytes\n", "0x0010: 0200  add t0, ra\n"] ∧
      (Item.space 0 8).render ≠ "0x0000: .space 16 bytes\n" := by
  decide

namespace Z16Simulator

theorem fullImage_zero (a : Nat) (h : a < 0xFFFA) : fullImageWithString.memory a = 0 := by
  simp only [fullImageWithString, setMem, init]
  rw [if_neg (by omega), if_neg (by omega), if_neg (by omega), if_neg (by omega),
    if_neg (by omega)]

theorem fullImage_zeroRun :
    ∀ (n fuel addr zeroCount : Nat), addr + 2 * n = 0xFFFA → n < fuel →
      zeroRun fullImageWithString fuel addr zeroCount = .ret (0xFFFA, zeroCount + n) := by
  intro n
  induction n with
  | zero =>
    intro fuel addr zeroCount ha hf
    obtain ⟨f, rfl⟩ : ∃ f, fuel = f + 1 := ⟨fuel - 1, by omega⟩
    have he : addr = 0xFFFA := by omega
    subst he
    rw [zeroRun, if_pos (by decide)]
    have hr : fullImageWithString.readWord 0xFFFA = .ret 0x4241 := by decide
    rw [hr]
    rfl
  | succ n ih =>
    intro fuel addr zeroCount ha hf
    obtain ⟨f, rfl⟩ : ∃ f, fuel = f + 1 := ⟨fuel - 1, by omega⟩
    have hlt : addr + 1 < 65536 := by omega
    rw [zeroRun, if_pos (show addr + 1 < fullImageWithString.programSize from hlt),
      readWord_of_lt _ hlt, fullImage_zero addr (by omega), fullImage_zero (addr + 1) (by omega)]
    have hw : toU16 (((0 : Nat) ||| ((0 : Nat) <<< 8) : Nat)) = 0 := by decide
    have hnext : toU16 ((addr : Int) + 2) = addr + 2 := by unfold toU16; omega
    simp only [hw, if_true, hnext]
    rw [ih f (addr + 2) (zeroCount + 1) (by omega) (by omega)]
    congr 2
    omega

end Z16Simulator

/-- C22 (the code at the failing input): in the image of 65536 bytes that is
zero except for `ABCDE` at `0xFFFA..0xFFFE`, the first iteration of the walk
writes a `.space` line and leaves the walker at `0xFFFA`; there the string rule
fires with `k = 5` and the NUL at `0xFFFF`, the line `0xfffa: .asciiz "ABCDE"`
is written, and the walk resumes at address 0, not at
`0xFFFA + 5 + 1 = 0x10000`: `addr = probe + 1` is cut to 16 bits. -/
theorem C22_string_at_end_wraps_to_zero :
    fullImageWithString.programSize = 65536 ∧
      walkStep fullImageWithString 0 = .ret ([.space 0 32765], 0xFFFA) ∧
      walkStep fullImageWithString 0xFFFA =
        .ret ([.asciiz 0xFFFA ['A', 'B', 'C', 'D', 'E']], 0) ∧
      (Item.asciiz 0xFFFA ['A', 'B', 'C', 'D', 'E']).render = "0xfffa: .asciiz \"ABCDE\"\n" := by
  refine ⟨rfl, ?_, by decide, by decide⟩
  have hp : probeLoop fullImageWithString 0 (MAX_PROBE + 1) 0 [] = .ret (0, [], true) := by
    decide
  have hr : fullImageWithString.readWord 0 = .ret 0 := by decide
  unfold walkStep walkData
  rw [hp]
  simp only [hr, fullImage_zeroRun 32765 MEM_SIZE 0 0 (by decide) (by decide)]
  decide

/-! ## The rules of the walk in general -/

namespace Z16Simulator

theorem text_ne_zero {b : Nat} (h : IsTextByte b) : b ≠ 0 := by
  unfold IsTextByte at h; omega

/-- The string rule of the walk, for every image size up to 65536: if `k ≥ 4`
text bytes at `a` are followed by a NUL within the first 256 bytes and below
`programSize`, the iteration writes one `.asciiz` line with those bytes and
leaves `addr = (a + k + 1) mod 2^16`; if there is no such `k`, the iteration
is steps 2 to 4 at the same address. -/
theorem walkStep_string_rule (s : Z16Simulator) (a : Nat) (hps : s.programSize ≤ 65536) :
    (∀ k, 4 ≤ k → k < 256 → a + k < s.programSize →
        (∀ j, j < k → IsTextByte (s.memory (a + j))) → s.memory (a + k) = 0 →
        walkStep s a =
          .ret ([.asciiz a ((List.range k).map fun j => Char.ofNat (s.memory (a + j)))],
            (a + k + 1) % 65536)) ∧
      ((¬ ∃ k, 4 ≤ k ∧ k < 256 ∧ a + k < s.programSize ∧
          (∀ j, j < k → IsTextByte (s.memory (a + j))) ∧ s.memory (a + k) = 0) →
        walkStep s a = walkData s a) := by
  obtain ⟨p, c, nf, hr, hle, hcand, hall, hnf, hnn⟩ :=
    probeLoop_spec s a hps (MAX_PROBE + 1) a [] (Nat.le_refl _) (by omega) (by omega)
  have hlen : c.length = p - a := by rw [hcand]; simp
  unfold walkStep
  rw [hr]
  simp only
  constructor
  · intro k hk4 hk256 hkps htext hnul
    have h1 : p ≤ a + k := by
      by_contra hgt
      have := (hall k (by omega)).1
      exact this hnul
    have h2 : a + k ≤ p := by
      by_contra hlt
      have ht := htext (p - a) (by omega)
      have he : a + (p - a) = p := by omega
      rw [he] at ht
      cases nf with
      | true => exact text_ne_zero ht (hnf rfl).2.2
      | false =>
        rcases hnn rfl with h | h
        · exact h ⟨by omega, by unfold MAX_PROBE; omega⟩
        · exact h.2 ht
    have hp : p = a + k := by omega
    subst hp
    have hnft : nf = true := by
      cases nf with
      | true => rfl
      | false =>
        rcases hnn rfl with h | h
        · exact absurd ⟨hkps, by unfold MAX_PROBE; omega⟩ h
        · exact absurd hnul h.1
    have hk : a + k - a = k := by omega
    rw [hk] at hcand hlen
    have hnext : toU16 (((a + k : Nat) : Int) + 1) = (a + k + 1) % 65536 := by
      unfold toU16; omega
    rw [if_pos ⟨hnft, by unfold MIN_STR_LEN; omega⟩, hnext, hcand, List.nil_append]
  · intro hno
    rw [if_neg]
    rintro ⟨hnft, hlen4⟩
    apply hno
    obtain ⟨hps2, h256, hnul⟩ := hnf hnft
    refine ⟨p - a, by unfold MIN_STR_LEN at hlen4; omega, by unfold MAX_PROBE at h256; omega,
      by omega, fun j hj => (hall j hj).2, ?_⟩
    have he : a + (p - a) = p := by omega
    rw [he]; exact hnul

/-- The zero-word rule of the walk for `programSize ≤ 65535`: with `n ≥ 1`
the number of zero words from `a` that lie inside the image, steps 2 to 4
write one `.space` line if `n ≥ 4` and `n` lines `.word 0x0000` otherwise, and
leave `addr = a + 2n`; the `.space` line carries the count `2n` in
hexadecimal. -/
theorem walkData_zero_rule (s : Z16Simulator) (a : Nat) (hps : s.programSize ≤ 65535)
    (hc : a + 1 < s.programSize) (hw : s.readWord a = .ret 0) :
    ∃ n, 1 ≤ n ∧
      (∀ i, i < n → a + 2 * i + 1 < s.programSize ∧ s.readWord (a + 2 * i) = .ret 0) ∧
      ¬ (a + 2 * n + 1 < s.programSize ∧ s.readWord (a + 2 * n) = .ret 0) ∧
      walkData s a =
        .ret (if n ≥ 4 then [.space a n]
          else (List.range n).map fun i => .zeroWord (a + i * 2), a + 2 * n) ∧
      (Item.space a n).render = "0x" ++ hex4 a ++ ": .space " ++ hexStr (2 * n) ++ " bytes\n" := by
  obtain ⟨n, hz, hall, hstop⟩ := zeroRun_spec s hps MEM_SIZE a 0 (by unfold MEM_SIZE; omega)
  have hn : 1 ≤ n := by
    by_contra h0
    have : n = 0 := by omega
    subst this
    exact hstop ⟨hc, hw⟩
  refine ⟨n, hn, hall, hstop, ?_, by rw [Item.render, Nat.mul_comm]⟩
  unfold walkData
  rw [if_pos hc, hw]
  simp only [if_true, hz, Nat.zero_add, THRESHOLD]
  split <;> rfl

end Z16Simulator

end Z16
